import Mathlib

/-
Verification of the Parameterized File Catalog of LibrarianFileManager
(src/src/librarian/catalog.py).

This file gives a shallow embedding of the catalog subsystem:

  * parameter values are a small tagged union (int / str / bool / none),
    mirroring the value universe the catalog's TypedDict-based schema
    machinery handles; Python's str() on such values is modeled by pyStr;
  * Python dicts are insertion-ordered association lists with unique keys;
  * the function dict_to_yaml_key is modeled exactly: sort the items
    lexicographically and join "key : value" pairs with " | ";
  * the Catalog state holds the three redundant views of the source
    (entries-by-label map of maps, ordered files list, ordered
    (data_label, parameter) pairs list) plus the schema information;
  * the file system is a set of existing paths (a list of strings);
    unlink of a missing path is the FileNotFoundError case of the source;
  * fallible operations return Except CatErr; Python exceptions map to
    CatErr constructors;
  * uuid-based fresh-filename generation is modeled by the caller-supplied
    filename argument (the source's new_filename also accepts an explicit
    filename); freshness is a hypothesis where needed;
  * the interactive overwrite prompt (ask_to_overwrite) is modeled by its
    deterministic timeout path: the configured overwrite behavior decides;
  * wall-clock timestamps are not modeled (the date-added field is kept
    as an inert string).
-/

-- ======================================================================
-- Values and Python str()
-- ======================================================================

/-- Tagged union of the parameter values the catalog handles. -/
inductive Value where
  | vInt (n : Int)
  | vStr (s : String)
  | vBool (b : Bool)
  | vNone
  deriving DecidableEq, Repr

/-- Python str() on a Value. -/
def pyStr : Value → String
  | .vInt n => toString n
  | .vStr s => s
  | .vBool true => "True"
  | .vBool false => "False"
  | .vNone => "None"

/-- Declared parameter types (the builtin classes the schema can name). -/
inductive PType where
  | tInt
  | tStr
  | tBool
  deriving DecidableEq, Repr

/-- String name of a type, as it appears in the parameter-types dict. -/
def ptypeStr : PType → String
  | .tInt => "int"
  | .tStr => "str"
  | .tBool => "bool"

/-- Inverse of ptypeStr, used when loading a catalog file
(get_builtin applied to a string). -/
def parsePType : String → Option PType
  | "int" => some .tInt
  | "str" => some .tStr
  | "bool" => some .tBool
  | _ => none

/-- Python lower() restricted to ASCII, enough for the bool-cast tokens. -/
def asciiLower (s : String) : String :=
  String.mk (s.data.map fun c =>
    if 65 ≤ c.toNat ∧ c.toNat ≤ 90 then Char.ofNat (c.toNat + 32) else c)

/-- Decimal digit value of a character, if it is one. -/
def digitVal (c : Char) : Option Nat :=
  if 48 ≤ c.toNat ∧ c.toNat ≤ 57 then some (c.toNat - 48) else none

/-- Parse an unsigned decimal numeral. -/
def parseNatCore : List Char → Nat → Option Nat
  | [], acc => some acc
  | c :: cs, acc =>
    match digitVal c with
    | some d => parseNatCore cs (acc * 10 + d)
    | none => none

/-- Model of Python int() applied to a string: optional sign followed by
decimal digits; anything else raises ValueError (here: none). -/
def pyParseInt (s : String) : Option Int :=
  match s.data with
  | [] => none
  | '-' :: rest =>
    match rest with
    | [] => none
    | _ => (parseNatCore rest 0).map fun n => -(n : Int)
  | l => (parseNatCore l 0).map fun n => (n : Int)

-- ======================================================================
-- Python dicts as insertion-ordered association lists
-- ======================================================================

/-- Parameter dictionaries: insertion-ordered association lists. -/
abbrev Params := List (String × Value)

/-- Dictionary lookup. -/
def alookup {α : Type} (k : String) : List (String × α) → Option α
  | [] => none
  | kv :: rest => if kv.1 = k then some kv.2 else alookup k rest

/-- Dictionary assignment d[k] = v: replace in place if the key exists,
append otherwise (Python dict semantics). -/
def aset {α : Type} (k : String) (v : α) : List (String × α) → List (String × α)
  | [] => [(k, v)]
  | kv :: rest => if kv.1 = k then (k, v) :: rest else kv :: aset k v rest

/-- Dictionary removal d.pop(k) (the binding is dropped, order kept). -/
def aerase {α : Type} (k : String) : List (String × α) → List (String × α)
  | [] => []
  | kv :: rest => if kv.1 = k then rest else kv :: aerase k rest

/-- Keys of a dictionary, in order. -/
def akeys {α : Type} (d : List (String × α)) : List String := d.map Prod.fst

/-- Python d.update(u): base updated with the bindings of u. -/
def aupdate {α : Type} (base upd : List (String × α)) : List (String × α) :=
  upd.foldl (fun acc kv => aset kv.1 kv.2 acc) base

/-- Python dict equality: same keys with equal values (order ignored).
All dictionaries in this model have unique keys, so this coincides with
equality of the item sets, which is also what set(d.items()) comparisons
in the source test. -/
def dictBeq {α : Type} [DecidableEq α] (p q : List (String × α)) : Bool :=
  p.all (fun kv => alookup kv.1 q = some kv.2) &&
    q.all (fun kv => alookup kv.1 p = some kv.2)

-- ======================================================================
-- dict_to_yaml_key (the KeyCodec)
-- ======================================================================

/-- Strict lexicographic comparison of character lists by code point,
Python's string ordering. -/
def strLtB : List Char → List Char → Bool
  | [], [] => false
  | [], _ :: _ => true
  | _ :: _, [] => false
  | a :: as, b :: bs =>
    if a.toNat < b.toNat then true
    else if a.toNat = b.toNat then strLtB as bs
    else false

/-- Non-strict string comparison. -/
def strLeB (a b : String) : Bool := strLtB a.data b.data || a == b

/-- Comparison of (key, value) string pairs the way Python's sorted()
compares tuples: by first component, then by second. -/
def pairLeB (a b : String × String) : Bool :=
  strLtB a.1.data b.1.data || (a.1 == b.1 && strLeB a.2 b.2)

/-- Sorting of dictionary items, as sorted(param_dict.items()). -/
def sortPairs (l : List (String × String)) : List (String × String) :=
  List.insertionSort (fun a b => pairLeB a b = true) l

/-- Python sep.join(parts). -/
def joinSep (sep : String) : List String → String
  | [] => ""
  | [x] => x
  | x :: y :: xs => x ++ sep ++ joinSep sep (y :: xs)

/-- Model of dict_to_yaml_key of catalog.py (with the default separators):
sort the items, render each as "key : str(value)", join with " | ".
The argument is the item list of a dict whose values are already strings
(str is applied to both components in the source). -/
def dict_to_yaml_key (l : List (String × String)) : String :=
  joinSep " | " ((sortPairs l).map fun kv => kv.1 ++ " : " ++ kv.2)

/-- Encoded key of a parameter dictionary: dict_to_yaml_key applied to
its stringified items. -/
def encodeParams (p : Params) : String :=
  dict_to_yaml_key (p.map fun kv => (kv.1, pyStr kv.2))

-- ======================================================================
-- Errors and catalog state
-- ======================================================================

/-- Python exceptions the catalog code can raise. -/
inductive CatErr where
  | valueError
  | typeError
  | keyError
  | fileNotFound
  | assertionFailed
  | keyboardInterrupt
  | indexError
  deriving DecidableEq, Repr

deriving instance DecidableEq for Except

/-- Overwrite behavior of the catalog (set_overwrite_behavior). The source
also allows None, but ask_to_overwrite crashes on it; the model keeps the
three meaningful policies. -/
inductive OverwriteB where
  | skip
  | overwrite
  | cancel
  deriving DecidableEq, Repr

/-- Action of check_if_recognized. -/
inductive WarnB where
  | ignore
  | warn
  | error
  deriving DecidableEq, Repr

/-- One catalog entry as stored in the by-label map: the stored parameter
dict together with the filename and date-added fields the source appends
to the same dict. -/
structure Entry where
  params : Params
  filename : String
  dateAdded : String
  deriving DecidableEq, Repr

/-- In-memory catalog state. The fields mirror the keys of _catalog_dict
plus the per-instance configuration held in attributes. Data labels are
modeled in their own field (in the source they are top-level keys of
_catalog_dict next to the metadata keys; collisions between labels and
metadata keys are excluded by hypotheses where relevant). -/
structure Catalog where
  name : String
  directory : String
  description : String
  creationTime : String
  lastModified : String
  recognizedNames : List String
  recognizedExtensions : List String
  entries : List (String × List (String × Entry))
  files : List String
  pairs : List (String × Params)
  parameterTypes : Option (List (String × PType))
  defaultParameters : Params
  allowUndeclared : Bool
  overwriteBehavior : OverwriteB
  verbose : Int
  configureDefault : Bool
  deriving DecidableEq, Repr

/-- Catalog plus the file system (the set of paths that exist on disk). -/
structure Sys where
  cat : Catalog
  disk : List String
  deriving DecidableEq, Repr

/-- Two-level lookup in the by-label map. -/
def alookup2 (label key : String) (es : List (String × List (String × Entry))) :
    Option Entry :=
  (alookup label es).bind (alookup key)

/-- Two-level assignment: catalog_dict[label][key] = e. The label dict must
exist for this to model the source (callers ensure it). -/
def aset2 (label key : String) (e : Entry)
    (es : List (String × List (String × Entry))) :
    List (String × List (String × Entry)) :=
  match alookup label es with
  | some d => aset label (aset key e d) es
  | none => es

/-- Two-level removal: catalog_dict[label].pop(key). -/
def aerase2 (label key : String)
    (es : List (String × List (String × Entry))) :
    List (String × List (String × Entry)) :=
  match alookup label es with
  | some d => aset label (aerase key d) es
  | none => es

-- ======================================================================
-- Schema casting (cast_as_typeddict / configure_parameters)
-- ======================================================================

/-- Per-value type cast of cast_as_typeddict. A string is cast to bool via
the recognized true/false tokens; other values hit the generic
keytype(value) branch; values that are Python None are left alone
(the source skips the cast when result[key] is None). -/
def castValue (ty : PType) (v : Value) : Except CatErr Value :=
  match ty, v with
  | .tInt, .vNone => .ok .vNone
  | .tStr, .vNone => .ok .vNone
  | .tBool, .vNone => .ok .vNone
  | .tBool, .vStr s =>
    if asciiLower s = "true" ∨ asciiLower s = "t" ∨ asciiLower s = "1" then
      .ok (.vBool true)
    else if asciiLower s = "false" ∨ asciiLower s = "f" ∨ asciiLower s = "0" then
      .ok (.vBool false)
    else .error .valueError
  | .tBool, .vBool b => .ok (.vBool b)
  | .tBool, .vInt n => .ok (.vBool (n ≠ 0))
  | .tInt, .vInt n => .ok (.vInt n)
  | .tInt, .vBool b => .ok (.vInt (if b then 1 else 0))
  | .tInt, .vStr s =>
    match pyParseInt s with
    | some n => .ok (.vInt n)
    | none => .error .valueError
  | .tStr, .vInt n => .ok (.vStr (pyStr (.vInt n)))
  | .tStr, .vStr s => .ok (.vStr (pyStr (.vStr s)))
  | .tStr, .vBool b => .ok (.vStr (pyStr (.vBool b)))

/-- Boolean test that one list of strings is contained in another. -/
def subsetB (xs ys : List String) : Bool := xs.all (fun x => x ∈ ys)

/-- Per-key cast loop of cast_as_typeddict over the declared parameters
(result[key] = keytype(result[key]) for each declared key). -/
def castLoop : List (String × PType) → Params → Except CatErr Params
  | [], acc => .ok acc
  | kv :: rest, acc =>
    match alookup kv.1 acc with
    | some v =>
      match castValue kv.2 v with
      | .ok w => castLoop rest (aset kv.1 w acc)
      | .error e => .error e
    | none => .error .keyError

/-- Model of cast_as_typeddict: key-set validation (the declared keys must
all be given or defaulted; in strict mode nothing else may be given),
followed by defaults insertion, given-values insertion, and the per-key
cast loop over the declared parameters. -/
def castAsTypedDict (dict : Params) (schema : List (String × PType))
    (defaults : Params) (lenient : Bool) : Except CatErr Params :=
  let allGiven := akeys dict ++ (akeys defaults).filter (fun k => ¬ k ∈ akeys dict)
  if subsetB (akeys schema) allGiven = true ∧
      (lenient = true ∨ subsetB allGiven (akeys schema) = true) then
    castLoop schema (aupdate defaults dict)
  else .error .valueError

/-- Model of configure_parameters: with no declared schema the parameters
pass through; otherwise defaults are filled in and the result is cast
through the schema. -/
def configureParams (c : Catalog) (p : Params) : Except CatErr Params :=
  match c.parameterTypes with
  | none => .ok p
  | some schema =>
    castAsTypedDict (aupdate c.defaultParameters p) schema
      c.defaultParameters c.allowUndeclared

/-- Parameters as the catalog stores them on new_filename: every value is
replaced by its str(). -/
def stringifyParams (p : Params) : Params :=
  p.map fun kv => (kv.1, .vStr (pyStr kv.2))

-- ======================================================================
-- Lookup operations
-- ======================================================================

/-- Model of check_if_recognized: with the error action an assert fires
when the value is unrecognized; warn and ignore always pass (warnings are
not state). -/
def checkRecognized (x : String) (recog : List String) (wb : WarnB) :
    Except CatErr Unit :=
  match wb with
  | .ignore => .ok ()
  | .warn => .ok ()
  | .error => if x ∈ recog then .ok () else .error .assertionFailed

/-- Recognition check for the optional file extension (None is never a
member of the recognized set). -/
def checkRecognizedExt (x : Option String) (recog : List String) (wb : WarnB) :
    Except CatErr Unit :=
  match wb with
  | .ignore => .ok ()
  | .warn => .ok ()
  | .error =>
    match x with
    | some e => if e ∈ recog then .ok () else .error .assertionFailed
    | none => .error .assertionFailed

/-- Warn behavior new_filename derives from verbosity (note the inclusive
bounds: error only above 20, ignore up to 10). -/
def warnBehaviorNew (v : Int) : WarnB :=
  if v ≤ 10 then .ignore else if v ≤ 20 then .warn else .error

/-- Warn behavior get_filename derives from verbosity (strict bounds:
error already at 20, ignore below 10). -/
def warnBehaviorGet (v : Int) : WarnB :=
  if v < 10 then .ignore else if v < 20 then .warn else .error

/-- Model of get_filename: configure the parameters, check the label,
then look up the encoded key in the by-label map; a missing key is
surfaced as FileNotFoundError. -/
def getFilename (c : Catalog) (label : String) (params : Params) :
    Except CatErr String :=
  (if c.configureDefault then configureParams c params else .ok params) >>=
  fun p =>
  checkRecognized label c.recognizedNames (warnBehaviorGet c.verbose) >>=
  fun _ =>
  match alookup2 label (encodeParams p) c.entries with
  | some e => .ok e.filename
  | none => .error .fileNotFound

/-- Consistency scan of has_file: on a failed lookup, walk the
(data_label, parameter) pairs; finding the queried pair there is the
fatal inconsistency assert of the source. The raw (unconfigured) query is
compared against the configured stored parameters, as in the source. -/
def hasFileScan (c : Catalog) (label : String) (praw : Params) :
    List (String × Params) → Except CatErr Bool
  | [] => .ok false
  | (l, pr) :: rest =>
    (if c.configureDefault then configureParams c pr else .ok pr) >>=
    fun pr2 =>
    if l = label ∧ dictBeq praw pr2 = true then .error .assertionFailed
    else hasFileScan c label praw rest

/-- Model of has_file. Exactly one of the filename and the data label must
be given (ValueError otherwise). The filename form tests membership in the
files list; the label form tries get_filename and falls back to the
consistency scan on FileNotFoundError. -/
def hasFile (c : Catalog) (fname? : Option String) (label? : Option String)
    (params? : Option Params) : Except CatErr Bool :=
  if fname?.isNone = label?.isNone then .error .valueError
  else
    match fname? with
    | some fname => .ok (fname ∈ c.files)
    | none =>
      match label?, params? with
      | some label, some praw =>
        match getFilename c label praw with
        | .ok _ => .ok true
        | .error .fileNotFound => hasFileScan c label praw c.pairs
        | .error e => .error e
      | some _, none => .error .typeError
      | none, _ => .error .valueError

/-- Model of get_data_label_params: position of the filename in the files
list indexes the pairs list; the parameters are configured on the way
out. -/
def getDataLabelParams (c : Catalog) (fname : String) :
    Except CatErr (String × Params) :=
  hasFile c (some fname) none none >>= fun hf =>
  if hf then
    match c.pairs[c.files.indexOf fname]? with
    | some lp =>
      (if c.configureDefault then configureParams c lp.2 else .ok lp.2).map
        (fun p2 => (lp.1, p2))
    | none => .error .indexError
  else .error .fileNotFound

/-- Scan of get_yaml_key over one label dict. -/
def findKeyByFilename (fname : String) : List (String × Entry) → Option String
  | [] => none
  | (k, e) :: rest => if e.filename = fname then some k else findKeyByFilename fname rest

/-- Scan of get_yaml_key over the by-label map. -/
def findKeyInEntries (fname : String) :
    List (String × List (String × Entry)) → Option String
  | [] => none
  | (_, d) :: rest =>
    match findKeyByFilename fname d with
    | some k => some k
    | none => findKeyInEntries fname rest

/-- Model of get_yaml_key: the key whose entry carries the filename; the
source asserts (fatally) if the scan finds nothing for an indexed file. -/
def getYamlKey (c : Catalog) (fname : String) : Except CatErr String :=
  hasFile c (some fname) none none >>= fun hf =>
  if hf then
    match findKeyInEntries fname c.entries with
    | some k => .ok k
    | none => .error .assertionFailed
  else .error .fileNotFound

/-- Filter argument of get_files: an accepted-labels list (empty means no
label constraint, as in the source, where the data_label entry is popped
and compared with equals_or_in) and per-parameter accepted values. -/
structure FileFilter where
  labels : List String
  paramReqs : List (String × List Value)
  deriving DecidableEq, Repr

/-- Acceptance test of one file against a filter given its configured
label and parameters; a missing parameter key is the KeyError branch the
source turns into skipping the file. -/
def filterAccepts (flt : FileFilter) (l : String) (p : Params) : Bool :=
  (flt.labels = [] || l ∈ flt.labels) &&
    flt.paramReqs.all (fun kv =>
      match alookup kv.1 p with
      | some v => v ∈ kv.2
      | none => false)

/-- Filtered traversal of get_files. -/
def getFilesGo (c : Catalog) (flt : FileFilter) :
    List String → Except CatErr (List String)
  | [] => .ok []
  | f :: rest => do
    let lp ← getDataLabelParams c f
    let keep := filterAccepts flt lp.1 lp.2
    let tail ← getFilesGo c flt rest
    pure (if keep then f :: tail else tail)

/-- Model of get_files: without a filter the files list itself; with a
filter, the files whose configured label and parameters pass it. -/
def getFiles (c : Catalog) (flt : Option FileFilter) :
    Except CatErr (List String) :=
  match flt with
  | none => .ok c.files
  | some f => getFilesGo c f c.files

-- ======================================================================
-- Mutating operations
-- ======================================================================

/-- Deterministic resolution of ask_to_overwrite: the timeout path applies
the configured default behavior; cancel raises KeyboardInterrupt. -/
def resolveOverwrite : OverwriteB → Except CatErr Bool
  | .skip => .ok false
  | .overwrite => .ok true
  | .cancel => .error .keyboardInterrupt

/-- Shared tail of remove_file once the label, key and filename are known:
optionally unlink the file (a missing path is only a warning), then drop
the entry from the files list, the pairs list and the by-label map. -/
def removeFileCore (sys : Sys) (label key fname : String) (deleteFile : Bool) :
    Except CatErr Sys :=
  let c := sys.cat
  let disk' := if deleteFile then sys.disk.filter (fun g => g ≠ fname) else sys.disk
  if fname ∈ c.files then
    let idx := c.files.indexOf fname
    if idx < c.pairs.length then
      match alookup label c.entries with
      | none => .error .keyError
      | some d =>
        if (alookup key d).isSome then
          .ok ⟨{ c with files := c.files.eraseIdx idx,
                        pairs := c.pairs.eraseIdx idx,
                        entries := aset label (aerase key d) c.entries }, disk'⟩
        else .error .keyError
    else .error .indexError
  else .error .valueError

/-- Model of remove_file. Exactly one of the filename and the
(data label, params) pair selects the entry; an unindexed file raises
FileNotFoundError; the physical unlink happens only in the filter on the
disk component (a missing file is a warning, not a failure). -/
def removeFileDispatch (sys : Sys) :
    Option String → Option String → Option Params → Bool → Except CatErr Sys
  | none, some label, some p, deleteFile =>
    match alookup2 label (encodeParams p) sys.cat.entries with
    | some e => removeFileCore sys label (encodeParams p) e.filename deleteFile
    | none => .error .keyError
  | none, some _, none, _ => .error .typeError
  | none, none, _, _ => .error .typeError
  | some fname, _, _, deleteFile =>
    getYamlKey sys.cat fname >>= fun key =>
    getDataLabelParams sys.cat fname >>= fun lp =>
    removeFileCore sys lp.1 key fname deleteFile

def removeFileGo (sys : Sys) (fname? : Option String) (label? : Option String)
    (params2 : Option Params) (deleteFile : Bool) : Except CatErr Sys :=
  hasFile sys.cat fname? label? params2 >>= fun hf =>
  if hf then removeFileDispatch sys fname? label? params2 deleteFile
  else .error .fileNotFound

def removeFileParams (c : Catalog) (params? : Option Params) :
    Except CatErr (Option Params) :=
  match params? with
  | some p =>
    if c.configureDefault then (configureParams c p).map some
    else .ok (some p)
  | none => .ok none

def removeFile (sys : Sys) (fname? : Option String) (label? : Option String)
    (params? : Option Params) (deleteFile : Bool) : Except CatErr Sys :=
  removeFileParams sys.cat params? >>= fun params2 =>
  removeFileGo sys fname? label? params2 deleteFile

/-- Creation of an empty label dict on first use of a data label. -/
def ensureLabel (label : String) (c : Catalog) : Catalog :=
  match alookup label c.entries with
  | some _ => c
  | none => { c with entries := c.entries ++ [(label, [])] }

/-- Model of new_filename. The fresh filename is supplied by the caller
(mirroring the explicit filename argument of the source; the uuid path is
the special case of a caller-chosen fresh name). Returns the produced
filename, or none for the skip resolution of a collision. -/
def newFilenameConfig (c : Catalog) (params : Params) : Except CatErr Params :=
  if c.configureDefault then configureParams c params else .ok params

def newFilenameOverwrite (sys1 : Sys) (label : String) (p : Params)
    (key : String) : Except CatErr (Option Sys) :=
  match alookup2 label key sys1.cat.entries with
  | some e =>
    if e.filename ∈ sys1.disk then
      (if sys1.cat.verbose > 0 then resolveOverwrite sys1.cat.overwriteBehavior
       else .ok true) >>= fun ow =>
      if ow then (removeFile sys1 none (some label) (some p) true).map some
      else .ok none
    else .ok (some sys1)
  | none => .ok (some sys1)

def newFilenameFinish (sys1 : Sys) (label : String) (p : Params)
    (key fname : String) (next : Option Sys) : Option String × Sys :=
  match next with
  | none => (none, sys1)
  | some sys2 =>
    let ps := stringifyParams p
    let c2 := sys2.cat
    let entry : Entry := ⟨ps, fname, ""⟩
    (some fname,
      ⟨{ c2 with entries := aset2 label key entry c2.entries,
                 files := c2.files ++ [fname],
                 pairs := c2.pairs ++ [(label, ps)] }, sys2.disk⟩)

def newFilename (sys : Sys) (label : String) (params : Params)
    (ext : Option String) (fname : String) (warnB? : Option WarnB) :
    Except CatErr (Option String × Sys) :=
  newFilenameConfig sys.cat params >>= fun p =>
  let wb := warnB?.getD (warnBehaviorNew sys.cat.verbose)
  checkRecognizedExt ext sys.cat.recognizedExtensions wb >>= fun _ =>
  checkRecognized label sys.cat.recognizedNames wb >>= fun _ =>
  let key := encodeParams p
  let sys1 : Sys := ⟨ensureLabel label sys.cat, sys.disk⟩
  newFilenameOverwrite sys1 label p key >>= fun next =>
  .ok (newFilenameFinish sys1 label p key fname next)

/-- Model of add_file: new_filename for a pre-existing file, with the
recognition checks forced to ignore. -/
def addFile (sys : Sys) (fname label : String) (params : Params) :
    Except CatErr (Option String × Sys) :=
  newFilename sys label params none fname (some .ignore)

/-- Resolution phase of update_file_params: determine the target label and
the configured replacement parameters. -/
def updateResolve (c : Catalog) (fname : String) (label? : Option String)
    (params? : Option Params) : Except CatErr (String × Params) :=
  (match label? with
   | some l => .ok l
   | none => (getDataLabelParams c fname).map Prod.fst) >>= fun label =>
  (match params? with
   | some p => .ok p
   | none => (getDataLabelParams c fname).map Prod.snd) >>= fun params0 =>
  (if c.configureDefault then configureParams c params0
   else .ok params0).map fun p => (label, p)

/-- Model of update_file_params: reconfigure and replace the pair at the
position of the filename, pop the old encoded key and insert the new one
carrying over the filename and date fields. -/
def updateCore (sys : Sys) (fname label : String) (p : Params) :
    Except CatErr Sys :=
  if fname ∈ sys.cat.files then
    match sys.cat.pairs[sys.cat.files.indexOf fname]? with
    | none => .error .indexError
    | some ol =>
      match alookup ol.1 sys.cat.entries with
      | none => .error .keyError
      | some d =>
        match alookup (encodeParams ol.2) d with
        | none => .error .keyError
        | some oldE =>
          match alookup label
              (aset ol.1 (aerase (encodeParams ol.2) d) sys.cat.entries) with
          | none => .error .keyError
          | some d2 =>
            .ok ⟨{ sys.cat with
                pairs := sys.cat.pairs.set
                  (sys.cat.files.indexOf fname) (label, p),
                entries := aset label
                  (aset (encodeParams p) ⟨p, oldE.filename, oldE.dateAdded⟩
                    d2)
                  (aset ol.1 (aerase (encodeParams ol.2) d)
                    sys.cat.entries) },
              sys.disk⟩
  else .error .fileNotFound

def updateFileParams (sys : Sys) (fname : String) (label? : Option String)
    (params? : Option Params) : Except CatErr Sys :=
  updateResolve sys.cat fname label? params? >>= fun lp0 =>
  updateCore sys fname lp0.1 lp0.2

/-- Live-list iteration of purge without a filter: the loop index advances
over the files list while remove_file shrinks it, exactly as a Python for
loop over the live list (so alternating elements are visited). The fuel
only bounds the recursion and is chosen large enough to never run out. -/
def purgeLoopLive (fuel : Nat) (sys : Sys) (i : Nat) : Except CatErr Sys :=
  match fuel with
  | 0 => .ok sys
  | fuel2 + 1 =>
    if h : i < sys.cat.files.length then
      removeFile sys (some (sys.cat.files[i])) none none true >>= fun sys2 =>
      purgeLoopLive fuel2 sys2 (i + 1)
    else .ok sys

/-- Removal of a snapshot list of files, one remove_file each. -/
def purgeList (sys : Sys) : List String → Except CatErr Sys
  | [] => .ok sys
  | f :: rest =>
    removeFile sys (some f) none none true >>= fun sys2 =>
    purgeList sys2 rest

/-- Model of purge: without a filter the source iterates the live files
list; with a filter, get_files builds a fresh list first. -/
def purge (sys : Sys) (flt : Option FileFilter) : Except CatErr Sys :=
  match flt with
  | none => purgeLoopLive (sys.cat.files.length + 1) sys 0
  | some f =>
    getFilesGo sys.cat f sys.cat.files >>= fun fs =>
    purgeList sys fs

-- ======================================================================
-- Schema migration (add_parameter_default / transmute_parameter)
-- ======================================================================

/-- Model of add_parameter_default. On a schema-less catalog the source
crashes (typeddict_to_stringdict rejects the plain dict it just created);
a missing parameter type crashes in get_builtin (None is neither a class
nor a builtin name: KeyError). Otherwise both the declared types and the
defaults are updated, even for an already-declared name (the source only
logs in that case and proceeds). -/
def addParameterDefault (c : Catalog) (name : String) (ty : Option PType)
    (d : Value) : Except CatErr Catalog :=
  match c.parameterTypes with
  | none => .error .typeError
  | some schema =>
    match ty with
    | none => .error .keyError
    | some t =>
      .ok { c with parameterTypes := some (aset name t schema),
                   defaultParameters := aset name d c.defaultParameters }

/-- Erasure of a parameter from the schema dicts when transmute retires it
(each pop ignores a missing key); with no schema the attribute access on
None crashes. -/
def eraseOldParam (c : Catalog) (old : String) : Except CatErr Catalog :=
  match c.parameterTypes with
  | none => .error .typeError
  | some schema =>
    .ok { c with parameterTypes := some (aerase old schema),
                 defaultParameters := aerase old c.defaultParameters }

/-- Shape of the new_param_name / new_param_type / transform / default
arguments of transmute_parameter: keep (no new name given), a single new
name, or a fan-out list of new names. A missing transform or default is
the sentinel case of the source. -/
inductive NewSpec where
  | keep (ty : Option PType)
  | one (name : String) (ty : Option PType) (tf : Option (Value → Value))
      (dflt : Option Value)
  | many (names : List String) (tys : List (Option PType))
      (tf : Option (Value → List Value)) (dflt : Option (List Value))

/-- One loop iteration of transmute_parameter for a single new name: skip
files without the old parameter, otherwise pop it, transform its value,
set the new name and update the catalog. -/
def transmuteFile1 (sys : Sys) (old name : String) (tf : Value → Value)
    (f : String) : Except CatErr Sys :=
  getDataLabelParams sys.cat f >>= fun lp =>
  match alookup old lp.2 with
  | some oldVal =>
    updateFileParams sys f (some lp.1)
      (some (aset name (tf oldVal) (aerase old lp.2)))
  | none => .ok sys

/-- Loop of transmute_parameter for a single new name. -/
def transmuteLoop1 (old name : String) (tf : Value → Value) :
    Sys → List String → Except CatErr Sys
  | sys, [] => .ok sys
  | sys, f :: rest =>
    transmuteFile1 sys old name tf f >>= fun sys2 =>
    transmuteLoop1 old name tf sys2 rest

/-- One loop iteration of transmute_parameter for a fan-out of new names:
zip the names with the transformed values and set them all. -/
def transmuteFileN (sys : Sys) (old : String) (names : List String)
    (tf : Value → List Value) (f : String) : Except CatErr Sys :=
  getDataLabelParams sys.cat f >>= fun lp =>
  match alookup old lp.2 with
  | some oldVal =>
    updateFileParams sys f (some lp.1)
      (some ((names.zip (tf oldVal)).foldl
        (fun acc kv => aset kv.1 kv.2 acc) (aerase old lp.2)))
  | none => .ok sys

/-- Loop of transmute_parameter for a fan-out of new names. -/
def transmuteLoopN (old : String) (names : List String)
    (tf : Value → List Value) : Sys → List String → Except CatErr Sys
  | sys, [] => .ok sys
  | sys, f :: rest =>
    transmuteFileN sys old names tf f >>= fun sys2 =>
    transmuteLoopN old names tf sys2 rest

/-- Pre-loop phase of transmute_parameter for a single new name: compute
the default, retire the old declaration when no filter is given and the
name really changes, declare the new parameter, and list the files to
rewrite. -/
def transmutePre1 (c : Catalog) (old name : String) (ty : Option PType)
    (dflt : Option Value) (flt : Option FileFilter) :
    Except CatErr (Catalog × List String) :=
  (if flt.isNone ∧ name ≠ old then eraseOldParam c old else .ok c) >>=
  fun c1 =>
  addParameterDefault c1 name ty
    (match dflt with
     | some v => v
     | none =>
       if name = old then (alookup old c.defaultParameters).getD .vNone
       else .vNone) >>= fun c2 =>
  (getFiles c2 flt).map fun fs => (c2, fs)

/-- Pre-loop phase of transmute_parameter for a fan-out of new names. -/
def transmutePreN (c : Catalog) (old : String) (names : List String)
    (tys : List (Option PType)) (dflt : Option (List Value))
    (flt : Option FileFilter) : Except CatErr (Catalog × List String) :=
  (match dflt with
   | some l =>
     if l.length = names.length then .ok l else .error .valueError
   | none => .ok (names.map (fun _ => Value.vNone))) >>= fun ds =>
  (if flt.isNone ∧ ¬ old ∈ names then eraseOldParam c old
   else .ok c) >>= fun c1 =>
  ((names.zip (tys.zip ds)).foldlM
    (fun acc nt => addParameterDefault acc nt.1 nt.2.1 nt.2.2) c1) >>=
  fun c2 =>
  (getFiles c2 flt).map fun fs => (c2, fs)

/-- Model of transmute_parameter. The keep case (no new name) crashes in
the source when it subscripts the TypedDict class (or None) with the old
name. Otherwise: compute the default, retire the old declaration when no
filter is given and the name really changes, declare the new parameter(s),
then rewrite every matching file. -/
def transmuteParameter (sys : Sys) (old : String) (spec : NewSpec)
    (flt : Option FileFilter) : Except CatErr Sys :=
  match spec with
  | .keep _ => .error .typeError
  | .one name ty tf dflt =>
    transmutePre1 sys.cat old name ty dflt flt >>= fun pre =>
    transmuteLoop1 old name (tf.getD (fun v => v)) ⟨pre.1, sys.disk⟩ pre.2
  | .many names tys tf dflt =>
    if tys.length = names.length then
      transmutePreN sys.cat old names tys dflt flt >>= fun pre =>
      transmuteLoopN old names (tf.getD (fun v => names.map (fun _ => v)))
        ⟨pre.1, sys.disk⟩ pre.2
    else .error .assertionFailed

/-- Catalog state right after __init__ (no load): empty views, an empty
dict prepared for every recognized name, and the given schema. -/
def initCatalog (nm dir descr : String) (recogNames recogExts : List String)
    (schema : Option (List (String × PType))) (defaults : Params)
    (lenient : Bool) (ob : OverwriteB) (verbose : Int) (conf : Bool) :
    Catalog :=
  { name := nm, directory := dir, description := descr,
    creationTime := "", lastModified := "",
    recognizedNames := recogNames, recognizedExtensions := recogExts,
    entries := recogNames.foldl (fun acc l => aset l [] acc) [],
    files := [], pairs := [],
    parameterTypes := schema, defaultParameters := defaults,
    allowUndeclared := lenient, overwriteBehavior := ob,
    verbose := verbose, configureDefault := conf }

-- ======================================================================
-- closest_params (SimilaritySearch)
-- ======================================================================

/-- Equality of two dicts as sets of items, which is what the dictdiff of
the source (symmetric difference of the item sets) tests for emptiness. -/
def sameItems (p q : Params) : Bool :=
  p.all (fun kv => kv ∈ q) && q.all (fun kv => kv ∈ p)

/-- Agreement score of closest_params: the number of (name, value) items
shared between the query and the stored parameters. -/
def agreementN (q p : Params) : Nat :=
  (q.filter (fun kv => kv ∈ p)).length

/-- Scan of closest_params over the files: track the best agreement seen
and the labels and parameter dicts of every file attaining it (a strictly
better file resets the lists; a tie appends). -/
def closestScan (c : Catalog) (q : Params) :
    List String → (Nat × List String × List Params) →
    Except CatErr (Nat × List String × List Params)
  | [], acc => .ok acc
  | f :: rest, acc =>
    getDataLabelParams c f >>= fun lp =>
    closestScan c q rest
      (if agreementN q lp.2 > acc.1 then (agreementN q lp.2, [lp.1], [lp.2])
       else if agreementN q lp.2 = acc.1 then
         (acc.1, acc.2.1 ++ [lp.1], acc.2.2 ++ [lp.2])
       else acc)

/-- Assertion loop of closest_params: every best match whose parameters
equal the query as item sets must be retrievable through has_file, and
the agreement must have been replaced by the perfect-match sentinel;
otherwise the fatal consistency assert fires. -/
def closestAssertLoop (c : Catalog) (q : Params) (maxA : Int) :
    List (String × Params) → Except CatErr Unit
  | [] => .ok ()
  | (label, test) :: rest =>
    if sameItems q test then
      hasFile c none (some label) (some q) >>= fun can =>
      if can ∧ maxA = -1 then closestAssertLoop c q maxA rest
      else .error .assertionFailed
    else closestAssertLoop c q maxA rest

/-- Model of closest_params: configure the query, scan the (optionally
filtered) files for the best agreement, report the perfect-match sentinel
-1 when the best agreement covers every query item, and run the
consistency assertion over the best matches. -/
def closestParams (c : Catalog) (params : Params) (flt : Option FileFilter) :
    Except CatErr (Int × List String × List Params) :=
  (if c.configureDefault then configureParams c params else .ok params) >>=
  fun q =>
  getFiles c flt >>= fun fs =>
  closestScan c q fs (0, [], []) >>= fun r =>
  closestAssertLoop c q (if r.1 = q.length then -1 else (r.1 : Int))
    (r.2.1.zip r.2.2) >>= fun _ =>
  .ok ((if r.1 = q.length then -1 else (r.1 : Int)), r.2.1, r.2.2)

-- ======================================================================
-- Persistence: the yaml document (save / load)
-- ======================================================================

/-- Yaml value tree as safe_dump / safe_load handle it. Python tuples are
dumped as sequences by the SafeRepresenter, so the (label, params) pairs
come back as two-element lists; the model identifies the two shapes. -/
inductive Y where
  | s (v : String)
  | i (n : Int)
  | b (v : Bool)
  | null
  | list (xs : List Y)
  | map (kvs : List (String × Y))

/-- Yaml rendering of a parameter value. -/
def valueToY : Value → Y
  | .vInt n => .i n
  | .vStr s => .s s
  | .vBool b => .b b
  | .vNone => .null

/-- Yaml reading of a parameter value. -/
def yToValue : Y → Option Value
  | .i n => some (.vInt n)
  | .s s => some (.vStr s)
  | .b b => some (.vBool b)
  | .null => some .vNone
  | _ => none

/-- Yaml rendering of a parameter dict. -/
def paramsToY (p : Params) : Y :=
  .map (p.map fun kv => (kv.1, valueToY kv.2))

/-- Yaml reading of a parameter dict. -/
def yToParams : Y → Option Params
  | .map kvs => kvs.mapM fun kv => (yToValue kv.2).map fun v => (kv.1, v)
  | _ => none

/-- Yaml rendering of a catalog entry: the stored parameters with the
filename and date-added fields merged into the same mapping, as the
source keeps them. -/
def entryToY (e : Entry) : Y :=
  .map ((e.params.map fun kv => (kv.1, valueToY kv.2))
    ++ [("filename", .s e.filename), ("date added", .s e.dateAdded)])

/-- Yaml reading of a catalog entry. -/
def yToEntry : Y → Option Entry
  | .map kvs =>
    alookup "filename" kvs >>= fun fy =>
    alookup "date added" kvs >>= fun dy =>
    match fy, dy with
    | .s fn, .s da =>
      ((kvs.filter fun kv => kv.1 ≠ "filename" ∧ kv.1 ≠ "date added").mapM
        fun kv => (yToValue kv.2).map fun v => (kv.1, v)).map
        fun ps => ⟨ps, fn, da⟩
    | _, _ => none
  | _ => none

/-- Metadata keys of the persisted mapping; every other key of the top
level is a data-label dict. -/
def reservedKeys : List String :=
  ["recognized names", "recognized extensions", "description", "name",
   "directory", "yaml location", "creation time", "last modified",
   "files", "(data_label, parameter) pairs", "parameter types",
   "default parameters"]

/-- Model of save: the yaml mapping written by the source (the comment
header is ignored by the loader and not modeled). -/
def saveKvs (c : Catalog) : List (String × Y) :=
  ([("recognized names", .list (c.recognizedNames.map .s)),
         ("recognized extensions", .list (c.recognizedExtensions.map .s)),
         ("description", .s c.description)]
    ++ c.entries.map (fun le =>
        (le.1, Y.map (le.2.map fun ke => (ke.1, entryToY ke.2))))
    ++ [("name", .s c.name), ("directory", .s c.directory),
        ("yaml location", .s (c.directory ++ "/" ++ c.name ++ ".yaml")),
        ("creation time", .s c.creationTime),
        ("last modified", .s c.lastModified),
        ("files", .list (c.files.map .s)),
        ("(data_label, parameter) pairs",
          .list (c.pairs.map fun lp => Y.list [.s lp.1, paramsToY lp.2])),
        ("parameter types",
          match c.parameterTypes with
          | none => Y.null
          | some sch => Y.map (sch.map fun kv => (kv.1, Y.s (ptypeStr kv.2)))),
        ("default parameters", paramsToY c.defaultParameters)])

/-- Model of save: the yaml mapping written by the source (the comment
header is ignored by the loader and not modeled). -/
def saveDoc (c : Catalog) : Y := .map (saveKvs c)

/-- Persisted part of the in-memory state: everything load restores. The
per-instance configuration (verbosity, overwrite policy, strictness) is
not persisted and comes from the constructor of the fresh instance. -/
structure LoadedState where
  recognizedNames : List String
  recognizedExtensions : List String
  entries : List (String × List (String × Entry))
  files : List String
  pairs : List (String × Params)
  parameterTypes : Option (List (String × PType))
  defaultParameters : Params
  deriving DecidableEq, Repr

/-- Persisted view of a catalog. -/
def persistedView (c : Catalog) : LoadedState :=
  ⟨c.recognizedNames, c.recognizedExtensions, c.entries, c.files, c.pairs,
   c.parameterTypes, c.defaultParameters⟩

/-- Python strip() restricted to spaces. -/
def stripSpaces (s : String) : String :=
  String.mk ((s.data.dropWhile (fun c => c = ' ')).reverse.dropWhile
    (fun c => c = ' ')).reverse

/-- Reading of a recognized names/extensions value: a sequence of strings,
or (the bootstrap convenience of the loader) a comma-separated string. -/
def yToStrList : Y → Except CatErr (List String)
  | .list xs => xs.mapM fun y =>
    match y with
    | .s v => .ok v
    | _ => .error .typeError
  | .s v =>
    .ok (((v.dropWhile (fun c => c = '[')).dropRightWhile
      (fun c => c = ']')).splitOn "," |>.map stripSpaces)
  | _ => .error .typeError

/-- Reading of one (data_label, parameters) pair, dumped as a two-element
sequence. -/
def yToPair : Y → Except CatErr (String × Params)
  | .list [.s l, pm] =>
    match yToParams pm with
    | some p => .ok (l, p)
    | none => .error .typeError
  | _ => .error .typeError

/-- Reading of a data-label dict. -/
def yToLabelDict : List (String × Y) → Except CatErr (List (String × Entry)) :=
  fun kvs => kvs.mapM fun kv =>
    match yToEntry kv.2 with
    | some e => .ok (kv.1, e)
    | none => .error .typeError

/-- Model of the load post-processing: rebuild every view from the parsed
mapping. The declared parameter types are rebuilt through get_builtin
applied to the stored type names (an unknown name is the KeyError of
get_builtin); a missing default-parameters entry is the assert of load. -/
def loadRN (kvs : List (String × Y)) : Except CatErr (List String) :=
  match alookup "recognized names" kvs with
  | some y => yToStrList y
  | none => .error .typeError

def loadRE (kvs : List (String × Y)) : Except CatErr (List String) :=
  match alookup "recognized extensions" kvs with
  | some y => yToStrList y
  | none => .error .typeError

def loadFiles (kvs : List (String × Y)) : Except CatErr (List String) :=
  match alookup "files" kvs with
  | some (.list xs) => xs.mapM fun y =>
    match y with
    | .s v => Except.ok v
    | _ => Except.error CatErr.typeError
  | _ => .error .typeError

def loadPairs (kvs : List (String × Y)) :
    Except CatErr (List (String × Params)) :=
  match alookup "(data_label, parameter) pairs" kvs with
  | some (.list xs) => xs.mapM yToPair
  | _ => .error .typeError

def loadPT (kvs : List (String × Y)) :
    Except CatErr (Option (List (String × PType))) :=
  match alookup "parameter types" kvs with
  | some .null => .ok none
  | none => .ok none
  | some (.map tkvs) =>
    (tkvs.mapM (fun (kv : String × Y) =>
      match kv.2 with
      | .s tyname =>
        match parsePType tyname with
        | some ty => Except.ok (kv.1, ty)
        | none => Except.error CatErr.keyError
      | _ => (Except.error CatErr.keyError : Except CatErr (String × PType)))
      ).map some
  | some _ => .error .typeError

def loadDP (kvs : List (String × Y)) : Except CatErr Params :=
  match alookup "default parameters" kvs with
  | some y =>
    match yToParams y with
    | some p => .ok p
    | none => Except.error CatErr.typeError
  | none => .error .assertionFailed

def labelCond (kv : String × Y) : Bool :=
  (if kv.1 ∈ reservedKeys then false else true) &&
    (match kv.2 with | .map _ => true | _ => false)

def loadLabels (kvs : List (String × Y)) :
    Except CatErr (List (String × List (String × Entry))) :=
  (kvs.filter labelCond).mapM fun kv =>
    match kv.2 with
    | .map d => (yToLabelDict d).map fun ld => (kv.1, ld)
    | _ => Except.error CatErr.typeError

def loadDoc : Y → Except CatErr LoadedState
  | .map kvs =>
    loadRN kvs >>= fun rn =>
    loadRE kvs >>= fun re =>
    loadFiles kvs >>= fun fs =>
    loadPairs kvs >>= fun prs =>
    loadPT kvs >>= fun pt =>
    loadDP kvs >>= fun dp =>
    (loadLabels kvs).map fun es => ⟨rn, re, es, fs, prs, pt, dp⟩
  | _ => .error .typeError

-- ======================================================================
-- Load retry (ScannerError tolerance)
-- ======================================================================

/-- Failure modes of one yaml.safe_load call: a ScannerError (the one
failure the loop retries) or any other parse failure. -/
inductive ParseErr where
  | scanner
  | other
  deriving DecidableEq, Repr

/-- Failure modes of the whole load: a parse failure, or a failure of the
post-processing of a successfully parsed document. -/
inductive LoadErr where
  | parse (e : ParseErr)
  | post (e : CatErr)
  deriving DecidableEq, Repr

/-- Retry loop of load. The oracle gives the outcome of the k-th read of
the catalog file (the file may change between reads). Returns the result
together with the number of parse attempts made and the total seconds
slept (time.sleep(5) after each ScannerError). Exhausting the 12 attempts
re-raises a ScannerError. -/
def loadRetryGo (parse : Nat → Except ParseErr Y) :
    Nat → Nat → Nat → Except ParseErr Y × Nat × Nat
  | 0, k, slept => (.error .scanner, k, slept)
  | r + 1, k, slept =>
    match parse k with
    | .ok d => (.ok d, k + 1, slept)
    | .error .scanner => loadRetryGo parse r (k + 1) (slept + 5)
    | .error .other => (.error .other, k + 1, slept)

/-- Model of load: at most 12 parse attempts, retrying only on
ScannerError; a successful parse goes straight to post-processing, whose
failures are never retried. -/
def loadOp (parse : Nat → Except ParseErr Y) :
    Except LoadErr LoadedState × Nat × Nat :=
  match loadRetryGo parse 12 0 0 with
  | (.ok d, a, sl) =>
    match loadDoc d with
    | .ok st => (.ok st, a, sl)
    | .error e => (.error (.post e), a, sl)
  | (.error e, a, sl) => (.error (.parse e), a, sl)

-- ======================================================================
-- The three-view invariant and guarded operation sequences
-- ======================================================================

/-- Invariant of claim C2 on the three redundant views: the files list and
the pairs list are index-aligned, and the by-label map entry under the
encoded key of the i-th pair carries the i-th filename. -/
def viewsAligned (c : Catalog) : Prop :=
  c.files.length = c.pairs.length ∧
  ∀ i, i < c.pairs.length → ∀ lp, c.pairs[i]? = some lp →
    ∃ e, alookup2 lp.1 (encodeParams lp.2) c.entries = some e ∧
      c.files[i]? = some e.filename

/-- Strengthened well-formedness of a catalog: the aligned views plus the
uniqueness facts that make the alignment stable under the operations
(unique filenames, one pair per (label, key) slot, well-formed dicts, and
every map entry backed by a pair). -/
structure WF (c : Catalog) : Prop where
  lenEq : c.files.length = c.pairs.length
  filesNodup : c.files.Nodup
  keysNodup : (c.pairs.map (fun lp => (lp.1, encodeParams lp.2))).Nodup
  labelsNodup : (akeys c.entries).Nodup
  innerNodup : ∀ le ∈ c.entries, (akeys le.2).Nodup
  align : ∀ i, i < c.pairs.length → ∀ lp, c.pairs[i]? = some lp →
    ∃ e, alookup2 lp.1 (encodeParams lp.2) c.entries = some e ∧
      c.files[i]? = some e.filename
  complete : ∀ label key e, alookup2 label key c.entries = some e →
    ∃ i : Nat, ∃ lp : String × Params, c.pairs[i]? = some lp ∧ lp.1 = label ∧
      encodeParams lp.2 = key ∧ c.files[i]? = some e.filename

/-- Public mutating operations of claim C2. -/
inductive Op where
  | opNew (label : String) (params : Params) (ext : Option String)
      (fname : String)
  | opAdd (fname label : String) (params : Params)
  | opRemove (fname? : Option String) (label? : Option String)
      (params? : Option Params) (deleteFile : Bool)
  | opPurge (flt : Option FileFilter)
  | opUpdate (fname : String) (label? : Option String)
      (params? : Option Params)
  | opTransmute (old : String) (spec : NewSpec) (flt : Option FileFilter)

/-- One step of the public interface. -/
def execOp (sys : Sys) : Op → Except CatErr Sys
  | .opNew label params ext fname =>
    (newFilename sys label params ext fname none).map Prod.snd
  | .opAdd fname label params => (addFile sys fname label params).map Prod.snd
  | .opRemove f l p d => removeFile sys f l p d
  | .opPurge flt => purge sys flt
  | .opUpdate f l p => updateFileParams sys f l p
  | .opTransmute o s f => transmuteParameter sys o s f

/-- Guard of new_filename and add_file: the minted filename is fresh (the
uuid guarantee of the source) and a pre-existing entry under the same
encoded key, if any, has its file present on disk (i.e. the caller wrote
the previously minted file before reusing the key). -/
def guardNew (sys : Sys) (label : String) (params : Params)
    (fname : String) : Prop :=
  ¬ fname ∈ sys.cat.files ∧
  ∀ q, (if sys.cat.configureDefault then configureParams sys.cat params
        else .ok params) = .ok q →
    ∀ e, alookup2 label (encodeParams q) sys.cat.entries = some e →
      e.filename ∈ sys.disk

/-- Guard of update_file_params: the new (label, encoded key) slot of the
entry does not belong to any other indexed pair. -/
def guardUpdate (sys : Sys) (fname : String) (label? : Option String)
    (params? : Option Params) : Prop :=
  ∀ lp, updateResolve sys.cat fname label? params? = .ok lp →
    ∀ j lp', sys.cat.pairs[j]? = some lp' →
      j ≠ sys.cat.files.indexOf fname →
      (lp'.1, encodeParams lp'.2) ≠ (lp.1, encodeParams lp.2)

/-- Guard of the transmute loop with a single new name: every rewritten
file satisfies the update guard at the state it is rewritten in. -/
def transmuteGuard1 (old name : String) (tf : Value → Value) :
    Sys → List String → Prop
  | _, [] => True
  | sys, f :: rest =>
    (∀ lp, getDataLabelParams sys.cat f = .ok lp →
      ∀ oldVal, alookup old lp.2 = some oldVal →
        guardUpdate sys f (some lp.1)
          (some (aset name (tf oldVal) (aerase old lp.2)))) ∧
    (∀ sys', transmuteFile1 sys old name tf f = .ok sys' →
      transmuteGuard1 old name tf sys' rest)

/-- Guard of the transmute loop with a fan-out of new names. -/
def transmuteGuardN (old : String) (names : List String)
    (tf : Value → List Value) : Sys → List String → Prop
  | _, [] => True
  | sys, f :: rest =>
    (∀ lp, getDataLabelParams sys.cat f = .ok lp →
      ∀ oldVal, alookup old lp.2 = some oldVal →
        guardUpdate sys f (some lp.1)
          (some ((names.zip (tf oldVal)).foldl
            (fun acc kv => aset kv.1 kv.2 acc) (aerase old lp.2)))) ∧
    (∀ sys', transmuteFileN sys old names tf f = .ok sys' →
      transmuteGuardN old names tf sys' rest)

/-- Guard of one public operation: remove and purge need none; the others
exclude the key-clash scenarios. -/
def guardOp (sys : Sys) : Op → Prop
  | .opNew label params _ fname => guardNew sys label params fname
  | .opAdd fname label params => guardNew sys label params fname
  | .opRemove _ _ _ _ => True
  | .opPurge _ => True
  | .opUpdate f l p => guardUpdate sys f l p
  | .opTransmute old spec flt =>
    match spec with
    | .keep _ => True
    | .one name ty tf dflt =>
      ∀ pre, transmutePre1 sys.cat old name ty dflt flt = .ok pre →
        transmuteGuard1 old name (tf.getD (fun v => v)) ⟨pre.1, sys.disk⟩ pre.2
    | .many names tys tf dflt =>
      ∀ pre, transmutePreN sys.cat old names tys dflt flt = .ok pre →
        transmuteGuardN old names (tf.getD (fun v => names.map (fun _ => v)))
          ⟨pre.1, sys.disk⟩ pre.2

/-- Guarded run of a sequence of successfully completed operations. -/
inductive RunG : Sys → List Op → Sys → Prop where
  | nil (s : Sys) : RunG s [] s
  | cons {s s' s'' : Sys} {op : Op} {ops : List Op} :
      guardOp s op → execOp s op = .ok s' → RunG s' ops s'' →
      RunG s (op :: ops) s''

-- ======================================================================
-- Specification-side descriptions for closest_params
-- ======================================================================

/-- Specification-side description (from the wording of the claim) of the
best agreement count over the scanned entries. -/
def specMaxAgreement (q : Params) (lps : List (String × Params)) : Nat :=
  lps.foldl (fun m lp => max m (agreementN q lp.2)) 0

/-- Specification-side description of the entries attaining the best
agreement, in scan order. -/
def specBest (q : Params) (lps : List (String × Params)) (m : Nat) :
    List (String × Params) :=
  lps.filter (fun lp => agreementN q lp.2 = m)
/-- Char-list version of joining with the item separator of the codec. -/
def joinBar : List (List Char) → List Char
  | [] => []
  | [x] => x
  | x :: y :: xs => x ++ ' ' :: '|' :: ' ' :: joinBar (y :: xs)

/-- Separator discipline of one stringified item: the name avoids both
separator characters, the value avoids the item separator. -/
def sepFree (kv : String × String) : Prop :=
  ¬ '|' ∈ kv.1.data ∧ ¬ ':' ∈ kv.1.data ∧ ¬ '|' ∈ kv.2.data

instance instSepFreeDecidable (kv : String × String) : Decidable (sepFree kv) := by
  unfold sepFree
  infer_instance

def c1sys : Sys :=
  ⟨initCatalog "cat" "dir" "" [] [] none [] true OverwriteB.skip 20 false, []⟩

def c1post : Sys :=
  match newFilename c1sys "sample" [] none "f.txt" none with
  | .ok r => r.2
  | .error _ => c1sys

def c1wsys : Sys :=
  ⟨initCatalog "cat" "dir" "" ["sample"] [] none [] true OverwriteB.skip 0
    false, []⟩

def c1wpost : Sys :=
  match newFilename c1wsys "sample" [] none "f.txt" none with
  | .ok r => r.2
  | .error _ => c1wsys

def c5entry : Entry := ⟨[], "a.txt", ""⟩

def c5dict : List (String × Entry) := [(encodeParams [], c5entry)]

def c5cat : Catalog :=
  { name := "cat", directory := "dir", description := "",
    creationTime := "", lastModified := "",
    recognizedNames := ["sample"], recognizedExtensions := [],
    entries := [("sample", c5dict)],
    files := ["a.txt"], pairs := [("sample", [])],
    parameterTypes := none, defaultParameters := [],
    allowUndeclared := true, overwriteBehavior := OverwriteB.skip,
    verbose := 0, configureDefault := false }

def c5sys : Sys := ⟨c5cat, ["a.txt"]⟩

def c5post : Sys :=
  match newFilename c5sys "sample" [] none "b.txt" none with
  | .ok r => r.2
  | .error _ => c5sys

def c5wsys : Sys := ⟨{ c5cat with verbose := 1 }, ["a.txt"]⟩

def c6cat : Catalog :=
  { name := "cat", directory := "dir", description := "",
    creationTime := "", lastModified := "",
    recognizedNames := ["sample"], recognizedExtensions := [],
    entries := [("sample", [(encodeParams [], (⟨[], "a.txt", ""⟩ : Entry))])],
    files := ["a.txt"], pairs := [("sample", [])],
    parameterTypes := none, defaultParameters := [],
    allowUndeclared := true, overwriteBehavior := OverwriteB.skip,
    verbose := 0, configureDefault := false }

def c6sys : Sys := ⟨c6cat, []⟩

def c6post : Sys :=
  match removeFile c6sys (some "a.txt") none none true with
  | .ok s => s
  | .error _ => c6sys

def c10sys : Sys :=
  ⟨initCatalog "cat" "dir" "" ["sample"] []
    (some [("b", PType.tBool)]) [] true OverwriteB.skip 0 true, []⟩

def c10post : Sys :=
  match newFilename c10sys "sample" [("b", Value.vStr "1")] none
      "f.txt" none with
  | .ok r => r.2
  | .error _ => c10sys

def c7sys0 : Sys :=
  ⟨initCatalog "cat" "dir" "" ["sample"] [] (some [("n", PType.tInt)]) []
    true OverwriteB.skip 0 true, []⟩

def c7step (s : Sys) (k : Int) (f : String) : Sys :=
  match newFilename s "sample" [("n", Value.vInt k)] none f none with
  | .ok r => r.2
  | .error _ => s

def c7sys : Sys := c7step (c7step (c7step c7sys0 1 "f1.txt") 2 "f2.txt") 3
  "f3.txt"

def c7transform : Value → Value
  | Value.vInt m => Value.vInt (m * 10)
  | w => w

def c4cat : Catalog :=
  { name := "cat", directory := "dir", description := "demo",
    creationTime := "t0", lastModified := "t1",
    recognizedNames := ["sample"], recognizedExtensions := [".txt"],
    entries := [("sample",
      [(encodeParams [("n", Value.vInt 2)],
        (⟨[("n", Value.vInt 2)], "a.txt", "t0"⟩ : Entry))])],
    files := ["a.txt"], pairs := [("sample", [("n", Value.vInt 2)])],
    parameterTypes := some [("n", PType.tInt)],
    defaultParameters := [("n", Value.vInt 0)],
    allowUndeclared := true, overwriteBehavior := OverwriteB.skip,
    verbose := 0, configureDefault := true }

def closestScanP (q : Params) : List (String × Params) →
    (Nat × List String × List Params) → Nat × List String × List Params
  | [], acc => acc
  | lp :: rest, acc =>
    closestScanP q rest
      (if agreementN q lp.2 > acc.1 then (agreementN q lp.2, [lp.1], [lp.2])
       else if agreementN q lp.2 = acc.1 then
         (acc.1, acc.2.1 ++ [lp.1], acc.2.2 ++ [lp.2])
       else acc)

def scanned (c : Catalog) : List String → Option (List (String × Params))
  | [] => some []
  | f :: rest =>
    match getDataLabelParams c f with
    | .ok lp => (scanned c rest).map (lp :: ·)
    | .error _ => none

def aggMax (q : Params) (m : Nat) (lps : List (String × Params)) : Nat :=
  List.foldl (fun x lp => max x (agreementN q lp.2)) m lps

def c8cat : Catalog :=
  { name := "cat", directory := "dir", description := "",
    creationTime := "", lastModified := "",
    recognizedNames := ["sample"], recognizedExtensions := [],
    entries := [("sample",
      [(encodeParams [("n", Value.vInt 1)],
        (⟨[("n", Value.vInt 1)], "f1.txt", ""⟩ : Entry)),
       (encodeParams [("n", Value.vInt 2)],
        (⟨[("n", Value.vInt 2)], "f2.txt", ""⟩ : Entry))])],
    files := ["f1.txt", "f2.txt"],
    pairs := [("sample", [("n", Value.vInt 1)]),
              ("sample", [("n", Value.vInt 2)])],
    parameterTypes := none, defaultParameters := [],
    allowUndeclared := true, overwriteBehavior := OverwriteB.skip,
    verbose := 0, configureDefault := false }

def WFX (sys : Sys) : Prop :=
  WF sys.cat ∧ (akeys sys.cat.defaultParameters).Nodup ∧
  ∀ sch, sys.cat.parameterTypes = some sch → (akeys sch).Nodup

def c2sys0 : Sys :=
  ⟨initCatalog "cat" "dir" "" [] [] none [] true .skip 0 false, []⟩

def c2op1 : Op := .opNew "sample" [] none "f1.txt"

def c2op2 : Op := .opNew "sample" [] none "f2.txt"

def c2mid : Sys :=
  ⟨{ c2sys0.cat with
    entries := [("sample", [(encodeParams [], ⟨[], "f1.txt", ""⟩)])],
    files := ["f1.txt"],
    pairs := [("sample", [])] }, []⟩

def c2bad : Sys :=
  ⟨{ c2sys0.cat with
    entries := [("sample", [(encodeParams [], ⟨[], "f2.txt", ""⟩)])],
    files := ["f1.txt", "f2.txt"],
    pairs := [("sample", []), ("sample", [])] }, []⟩

-- ======================================================================
-- Association list lemmas
-- ======================================================================

theorem alookup_aset_self {α : Type} (k : String) (v : α) (d : List (String × α)) :
    alookup k (aset k v d) = some v := by
  induction d with
  | nil => simp [aset, alookup]
  | cons kv rest ih =>
    by_cases h : kv.1 = k
    · simp [aset, h, alookup]
    · simp [aset, h, alookup, ih]

theorem alookup_aset_ne {α : Type} {k' k : String} (v : α) (d : List (String × α))
    (h : k' ≠ k) : alookup k' (aset k v d) = alookup k' d := by
  have h' : ¬ (k = k') := fun hh => h hh.symm
  induction d with
  | nil => simp [aset, alookup, h']
  | cons kv rest ih =>
    by_cases hk : kv.1 = k
    · rw [aset, if_pos hk, alookup, alookup, if_neg (hk ▸ h'), if_neg (hk ▸ h')]
    · rw [aset, if_neg hk, alookup, alookup]
      by_cases hk' : kv.1 = k'
      · rw [if_pos hk', if_pos hk']
      · rw [if_neg hk', if_neg hk', ih]

theorem alookup_aerase_ne {α : Type} {k' k : String} (d : List (String × α))
    (h : k' ≠ k) : alookup k' (aerase k d) = alookup k' d := by
  induction d with
  | nil => simp [aerase, alookup]
  | cons kv rest ih =>
    by_cases hk : kv.1 = k
    · rw [aerase, if_pos hk, alookup,
        if_neg (show ¬ kv.1 = k' from fun hh => h (hk ▸ hh ▸ rfl))]
    · rw [aerase, if_neg hk, alookup, alookup]
      by_cases hk' : kv.1 = k'
      · rw [if_pos hk', if_pos hk']
      · rw [if_neg hk', if_neg hk', ih]

theorem mem_akeys_iff {α : Type} (k : String) (d : List (String × α)) :
    k ∈ akeys d ↔ ∃ v, (k, v) ∈ d := by
  simp only [akeys, List.mem_map]
  constructor
  · rintro ⟨⟨a, b⟩, hm, rfl⟩
    exact ⟨b, hm⟩
  · rintro ⟨v, hv⟩
    exact ⟨(k, v), hv, rfl⟩

theorem alookup_eq_none_iff {α : Type} (k : String) (d : List (String × α)) :
    alookup k d = none ↔ ¬ k ∈ akeys d := by
  induction d with
  | nil => simp [alookup, akeys]
  | cons kv rest ih =>
    by_cases h : kv.1 = k
    · simp [alookup, h, akeys]
    · have h' : ¬ k = kv.1 := fun hh => h hh.symm
      simp [alookup, h, akeys, ih, h']

theorem alookup_isSome_of_mem_akeys {α : Type} {k : String} {d : List (String × α)}
    (h : k ∈ akeys d) : ∃ v, alookup k d = some v := by
  cases hl : alookup k d with
  | some v => exact ⟨v, rfl⟩
  | none => exact absurd h ((alookup_eq_none_iff k d).mp hl)

theorem mem_akeys_of_alookup {α : Type} {k : String} {v : α} {d : List (String × α)}
    (h : alookup k d = some v) : k ∈ akeys d := by
  by_contra hc
  rw [(alookup_eq_none_iff k d).mpr hc] at h
  exact Option.noConfusion h

theorem mem_of_alookup_eq_some {α : Type} {k : String} {v : α} {d : List (String × α)}
    (h : alookup k d = some v) : (k, v) ∈ d := by
  induction d with
  | nil => simp [alookup] at h
  | cons kv rest ih =>
    by_cases hk : kv.1 = k
    · rw [alookup, if_pos hk] at h
      have : kv = (k, v) := by
        cases kv
        cases h
        cases hk
        rfl
      exact this ▸ List.mem_cons_self _ _
    · rw [alookup, if_neg hk] at h
      exact List.mem_cons_of_mem _ (ih h)

theorem akeys_cons {α : Type} (kv : String × α) (rest : List (String × α)) :
    akeys (kv :: rest) = kv.1 :: akeys rest := rfl

theorem alookup_of_mem_nodup {α : Type} {k : String} {v : α} {d : List (String × α)}
    (hnd : (akeys d).Nodup) (h : (k, v) ∈ d) : alookup k d = some v := by
  induction d with
  | nil => simp at h
  | cons kv rest ih =>
    rw [akeys_cons] at hnd
    have hnd' := List.nodup_cons.mp hnd
    rcases List.mem_cons.mp h with h1 | h1
    · rw [← h1, alookup, if_pos rfl]
    · have hmem : k ∈ akeys rest := (mem_akeys_iff k rest).mpr ⟨v, h1⟩
      have hk : kv.1 ≠ k := fun he => hnd'.1 (he ▸ hmem)
      rw [alookup, if_neg hk]
      exact ih hnd'.2 h1

theorem akeys_aset_mem {α : Type} {k : String} (v : α) (d : List (String × α))
    (h : k ∈ akeys d) : akeys (aset k v d) = akeys d := by
  induction d with
  | nil => simp [akeys] at h
  | cons kv rest ih =>
    rw [akeys_cons] at h
    by_cases hk : kv.1 = k
    · rw [aset, if_pos hk, akeys_cons, akeys_cons, hk]
    · have hr : k ∈ akeys rest := by
        rcases List.mem_cons.mp h with h1 | h1
        · exact absurd h1.symm hk
        · exact h1
      rw [aset, if_neg hk, akeys_cons, akeys_cons, ih hr]

theorem akeys_aset_not_mem {α : Type} {k : String} (v : α) (d : List (String × α))
    (h : ¬ k ∈ akeys d) : akeys (aset k v d) = akeys d ++ [k] := by
  induction d with
  | nil => simp [aset, akeys]
  | cons kv rest ih =>
    rw [akeys_cons] at h
    have hk : kv.1 ≠ k := fun he => h (he ▸ List.mem_cons_self _ _)
    have hr : ¬ k ∈ akeys rest := fun hh => h (List.mem_cons_of_mem _ hh)
    rw [aset, if_neg hk, akeys_cons, akeys_cons, ih hr, List.cons_append]

theorem mem_akeys_aset {α : Type} (k' k : String) (v : α) (d : List (String × α)) :
    k' ∈ akeys (aset k v d) ↔ k' ∈ akeys d ∨ k' = k := by
  by_cases h : k ∈ akeys d
  · rw [akeys_aset_mem v d h]
    constructor
    · exact Or.inl
    · rintro (hh | hh)
      · exact hh
      · exact hh ▸ h
  · rw [akeys_aset_not_mem v d h]
    simp

theorem nodup_akeys_aset {α : Type} {k : String} (v : α) {d : List (String × α)}
    (hnd : (akeys d).Nodup) : (akeys (aset k v d)).Nodup := by
  by_cases h : k ∈ akeys d
  · rw [akeys_aset_mem v d h]; exact hnd
  · rw [akeys_aset_not_mem v d h]
    rw [List.nodup_append]
    exact ⟨hnd, List.nodup_singleton k,
      fun a ha hb => h (by rwa [List.mem_singleton.mp hb] at ha)⟩

theorem akeys_aerase_sublist {α : Type} (k : String) (d : List (String × α)) :
    (akeys (aerase k d)).Sublist (akeys d) := by
  induction d with
  | nil => simp [aerase]
  | cons kv rest ih =>
    by_cases hk : kv.1 = k
    · rw [aerase, if_pos hk, akeys_cons]
      exact List.sublist_cons_self _ _
    · rw [aerase, if_neg hk, akeys_cons, akeys_cons]
      exact List.Sublist.cons₂ _ ih

theorem nodup_akeys_aerase {α : Type} (k : String) {d : List (String × α)}
    (hnd : (akeys d).Nodup) : (akeys (aerase k d)).Nodup :=
  (akeys_aerase_sublist k d).nodup hnd

theorem alookup_aerase_self {α : Type} {k : String} {d : List (String × α)}
    (hnd : (akeys d).Nodup) : alookup k (aerase k d) = none := by
  induction d with
  | nil => simp [aerase, alookup]
  | cons kv rest ih =>
    rw [akeys_cons] at hnd
    have hnd' := List.nodup_cons.mp hnd
    by_cases hk : kv.1 = k
    · rw [aerase, if_pos hk, alookup_eq_none_iff]
      exact fun hm => hnd'.1 (hk ▸ hm)
    · rw [aerase, if_neg hk, alookup, if_neg hk]
      exact ih hnd'.2

theorem not_mem_akeys_aerase {α : Type} {k : String} {d : List (String × α)}
    (hnd : (akeys d).Nodup) : ¬ k ∈ akeys (aerase k d) := by
  intro h
  rcases alookup_isSome_of_mem_akeys h with ⟨v, hv⟩
  rw [alookup_aerase_self hnd] at hv
  exact Option.noConfusion hv

theorem mem_akeys_aerase_of_mem {α : Type} {k' k : String} {d : List (String × α)}
    (h : k' ∈ akeys (aerase k d)) : k' ∈ akeys d :=
  (akeys_aerase_sublist k d).mem h

-- ======================================================================
-- Properties of the key codec ordering
-- ======================================================================

theorem char_eq_of_toNat {a b : Char} (h : a.toNat = b.toNat) : a = b :=
  Char.ext (UInt32.ext h)

theorem strLtB_cons_iff (x y : Char) (xs ys : List Char) :
    strLtB (x :: xs) (y :: ys) = true ↔
      (x.toNat < y.toNat ∨ (x.toNat = y.toNat ∧ strLtB xs ys = true)) := by
  rw [strLtB]
  by_cases h1 : x.toNat < y.toNat
  · simp [h1]
  · by_cases h2 : x.toNat = y.toNat
    · simp [h1, h2]
    · simp [h1, h2]

theorem strLtB_irrefl : ∀ a : List Char, strLtB a a = false
  | [] => rfl
  | x :: xs => by
    rw [strLtB]
    simp [strLtB_irrefl xs]

theorem strLtB_trans : ∀ {a b c : List Char},
    strLtB a b = true → strLtB b c = true → strLtB a c = true
  | [], [], _, h1, _ => by simp [strLtB] at h1
  | [], _ :: _, [], _, h2 => by simp [strLtB] at h2
  | [], _ :: _, _ :: _, _, _ => by simp [strLtB]
  | _ :: _, [], _, h1, _ => by simp [strLtB] at h1
  | _ :: _, _ :: _, [], _, h2 => by simp [strLtB] at h2
  | x :: xs, y :: ys, z :: zs, h1, h2 => by
    rcases (strLtB_cons_iff x y xs ys).mp h1 with hl | ⟨he, hr⟩
    · rcases (strLtB_cons_iff y z ys zs).mp h2 with hl2 | ⟨he2, _⟩
      · exact (strLtB_cons_iff x z xs zs).mpr (Or.inl (Nat.lt_trans hl hl2))
      · exact (strLtB_cons_iff x z xs zs).mpr (Or.inl (he2 ▸ hl))
    · rcases (strLtB_cons_iff y z ys zs).mp h2 with hl2 | ⟨he2, hr2⟩
      · exact (strLtB_cons_iff x z xs zs).mpr (Or.inl (he ▸ hl2))
      · exact (strLtB_cons_iff x z xs zs).mpr
          (Or.inr ⟨he.trans he2, strLtB_trans hr hr2⟩)

theorem strLtB_asymm {a b : List Char} (h1 : strLtB a b = true)
    (h2 : strLtB b a = true) : False := by
  have := strLtB_trans h1 h2
  rw [strLtB_irrefl] at this
  exact Bool.noConfusion this

theorem strLtB_total (a b : List Char) :
    strLtB a b = true ∨ a = b ∨ strLtB b a = true := by
  induction a generalizing b with
  | nil =>
    cases b with
    | nil => exact Or.inr (Or.inl rfl)
    | cons y ys => exact Or.inl (by simp [strLtB])
  | cons x xs ih =>
    cases b with
    | nil => exact Or.inr (Or.inr (by simp [strLtB]))
    | cons y ys =>
      rcases Nat.lt_trichotomy x.toNat y.toNat with h | h | h
      · exact Or.inl ((strLtB_cons_iff x y xs ys).mpr (Or.inl h))
      · have hxy : x = y := char_eq_of_toNat h
        subst hxy
        rcases ih ys with h1 | h1 | h1
        · exact Or.inl ((strLtB_cons_iff x x xs ys).mpr (Or.inr ⟨rfl, h1⟩))
        · exact Or.inr (Or.inl (by rw [h1]))
        · exact Or.inr (Or.inr ((strLtB_cons_iff x x ys xs).mpr (Or.inr ⟨rfl, h1⟩)))
      · exact Or.inr (Or.inr ((strLtB_cons_iff y x ys xs).mpr (Or.inl h)))

theorem strLeB_refl (a : String) : strLeB a a = true := by
  simp [strLeB]

theorem strLeB_antisymm {a b : String} (h1 : strLeB a b = true)
    (h2 : strLeB b a = true) : a = b := by
  rw [strLeB, Bool.or_eq_true] at h1 h2
  rcases h1 with h1 | h1
  · rcases h2 with h2 | h2
    · exact (strLtB_asymm h1 h2).elim
    · exact (beq_iff_eq.mp h2).symm
  · exact beq_iff_eq.mp h1

theorem strLeB_total (a b : String) : strLeB a b = true ∨ strLeB b a = true := by
  rcases strLtB_total a.data b.data with h | h | h
  · exact Or.inl (by simp [strLeB, h])
  · exact Or.inl (by simp [strLeB, String.ext h])
  · exact Or.inr (by simp [strLeB, h])

theorem strLeB_trans {a b c : String} (h1 : strLeB a b = true)
    (h2 : strLeB b c = true) : strLeB a c = true := by
  rw [strLeB, Bool.or_eq_true] at h1 h2 ⊢
  rcases h1 with h1 | h1
  · rcases h2 with h2 | h2
    · exact Or.inl (strLtB_trans h1 h2)
    · rw [beq_iff_eq.mp h2] at h1
      exact Or.inl h1
  · rw [beq_iff_eq.mp h1]
    exact h2

theorem pairLeB_total (a b : String × String) :
    pairLeB a b = true ∨ pairLeB b a = true := by
  rcases strLtB_total a.1.data b.1.data with h | h | h
  · exact Or.inl (by simp [pairLeB, h])
  · have he : a.1 = b.1 := String.ext h
    rcases strLeB_total a.2 b.2 with h2 | h2
    · exact Or.inl (by simp [pairLeB, he, h2])
    · exact Or.inr (by simp [pairLeB, he.symm, h2])
  · exact Or.inr (by simp [pairLeB, h])

theorem pairLeB_trans {a b c : String × String} (h1 : pairLeB a b = true)
    (h2 : pairLeB b c = true) : pairLeB a c = true := by
  rw [pairLeB, Bool.or_eq_true] at h1 h2 ⊢
  rcases h1 with h1 | h1
  · rcases h2 with h2 | h2
    · exact Or.inl (strLtB_trans h1 h2)
    · rw [Bool.and_eq_true] at h2
      rw [beq_iff_eq.mp h2.1] at h1
      exact Or.inl h1
  · rw [Bool.and_eq_true] at h1
    rcases h2 with h2 | h2
    · rw [beq_iff_eq.mp h1.1]
      exact Or.inl h2
    · rw [Bool.and_eq_true] at h2
      refine Or.inr ?_
      rw [Bool.and_eq_true]
      exact ⟨by rw [beq_iff_eq.mp h1.1]; exact h2.1,
             strLeB_trans h1.2 h2.2⟩

theorem pairLeB_antisymm {a b : String × String} (h1 : pairLeB a b = true)
    (h2 : pairLeB b a = true) : a = b := by
  rw [pairLeB, Bool.or_eq_true] at h1 h2
  rcases h1 with h1 | h1
  · rcases h2 with h2 | h2
    · exact (strLtB_asymm h1 h2).elim
    · rw [Bool.and_eq_true] at h2
      rw [beq_iff_eq.mp h2.1] at h1
      rw [strLtB_irrefl] at h1
      exact Bool.noConfusion h1
  · rw [Bool.and_eq_true] at h1
    rcases h2 with h2 | h2
    · rw [beq_iff_eq.mp h1.1] at h2
      rw [strLtB_irrefl] at h2
      exact Bool.noConfusion h2
    · rw [Bool.and_eq_true] at h2
      have he1 : a.1 = b.1 := beq_iff_eq.mp h1.1
      have he2 : a.2 = b.2 := strLeB_antisymm h1.2 h2.2
      exact Prod.ext he1 he2

instance : IsTotal (String × String) (fun a b => pairLeB a b = true) :=
  ⟨pairLeB_total⟩

instance : IsTrans (String × String) (fun a b => pairLeB a b = true) :=
  ⟨fun _ _ _ => pairLeB_trans⟩

instance : IsAntisymm (String × String) (fun a b => pairLeB a b = true) :=
  ⟨fun _ _ => pairLeB_antisymm⟩

theorem sortPairs_perm (l : List (String × String)) : (sortPairs l).Perm l :=
  List.perm_insertionSort _ l

theorem sortPairs_sorted (l : List (String × String)) :
    List.Sorted (fun a b => pairLeB a b = true) (sortPairs l) :=
  List.sorted_insertionSort _ l

theorem sortPairs_eq_of_perm {l1 l2 : List (String × String)} (h : l1.Perm l2) :
    sortPairs l1 = sortPairs l2 :=
  List.eq_of_perm_of_sorted
    ((sortPairs_perm l1).trans (h.trans (sortPairs_perm l2).symm))
    (sortPairs_sorted l1) (sortPairs_sorted l2)

theorem dict_to_yaml_key_perm {l1 l2 : List (String × String)} (h : l1.Perm l2) :
    dict_to_yaml_key l1 = dict_to_yaml_key l2 := by
  rw [dict_to_yaml_key, dict_to_yaml_key, sortPairs_eq_of_perm h]

theorem encodeParams_perm {p q : Params} (h : p.Perm q) :
    encodeParams p = encodeParams q :=
  dict_to_yaml_key_perm (h.map _)

-- ======================================================================
-- Injectivity of the key codec on separator-free inputs
-- ======================================================================

theorem sep_split {ch : Char} (hch : ch ≠ ' ') :
    ∀ (t t' r r' : List Char), ¬ ch ∈ t → ¬ ch ∈ t' →
      t ++ ' ' :: ch :: ' ' :: r = t' ++ ' ' :: ch :: ' ' :: r' →
      t = t' ∧ r = r'
  | [], [], r, r', _, _, h => ⟨rfl, by simpa using h⟩
  | [], c :: cs, r, r', _, ht', h => by
    simp only [List.nil_append, List.cons_append, List.cons.injEq] at h
    cases cs with
    | nil =>
      simp only [List.nil_append, List.cons.injEq] at h
      exact absurd h.2.1 hch
    | cons c2 cs2 =>
      simp only [List.cons_append, List.cons.injEq] at h
      refine absurd ?_ ht'
      rw [h.2.1]
      exact List.mem_cons_of_mem _ (List.mem_cons_self _ _)
  | x :: xs, [], r, r', ht, _, h => by
    simp only [List.nil_append, List.cons_append, List.cons.injEq] at h
    cases xs with
    | nil =>
      simp only [List.nil_append, List.cons.injEq] at h
      exact absurd h.2.1.symm hch
    | cons x2 xs2 =>
      simp only [List.cons_append, List.cons.injEq] at h
      refine absurd ?_ ht
      rw [← h.2.1]
      exact List.mem_cons_of_mem _ (List.mem_cons_self _ _)
  | x :: xs, y :: ys, r, r', ht, ht', h => by
    simp only [List.cons_append, List.cons.injEq] at h
    have hrec := sep_split hch xs ys r r'
      (fun hm => ht (List.mem_cons_of_mem _ hm))
      (fun hm => ht' (List.mem_cons_of_mem _ hm)) h.2
    exact ⟨by rw [h.1, hrec.1], hrec.2⟩

theorem joinSep_bar_data : ∀ parts : List String,
    (joinSep " | " parts).data = joinBar (parts.map String.data)
  | [] => rfl
  | [x] => rfl
  | x :: y :: xs => by
    have : joinSep " | " (x :: y :: xs) = x ++ " | " ++ joinSep " | " (y :: xs) := rfl
    rw [this]
    have hd : joinBar (List.map String.data (x :: y :: xs))
        = x.data ++ ' ' :: '|' :: ' ' :: joinBar (List.map String.data (y :: xs)) := rfl
    rw [hd, ← joinSep_bar_data (y :: xs)]
    simp [String.data_append]

theorem joinBar_inj : ∀ (xs ys : List (List Char)),
    (∀ x ∈ xs, ¬ '|' ∈ x ∧ x ≠ []) → (∀ y ∈ ys, ¬ '|' ∈ y ∧ y ≠ []) →
    joinBar xs = joinBar ys → xs = ys
  | [], [], _, _, _ => rfl
  | [], [y], _, hy, h => by
    exact absurd (by simpa [joinBar] using h.symm) (hy y (List.mem_cons_self _ _)).2
  | [], y :: y2 :: ys, _, hy, h => by
    rw [joinBar, joinBar] at h
    rcases List.append_eq_nil.mp h.symm with ⟨_, h2⟩
    exact List.noConfusion h2
  | [x], [], hx, _, h => by
    exact absurd (by simpa [joinBar] using h) (hx x (List.mem_cons_self _ _)).2
  | x :: x2 :: xs, [], hx, _, h => by
    rw [joinBar, joinBar] at h
    rcases List.append_eq_nil.mp h with ⟨_, h2⟩
    exact List.noConfusion h2
  | [x], [y], _, _, h => by
    rw [joinBar, joinBar] at h
    rw [h]
  | [x], y :: y2 :: ys, hx, _, h => by
    rw [joinBar, joinBar] at h
    refine absurd ?_ (hx x (List.mem_cons_self _ _)).1
    rw [h]
    exact List.mem_append_right _ (List.mem_cons_of_mem _ (List.mem_cons_self _ _))
  | x :: x2 :: xs, [y], _, hy, h => by
    rw [joinBar, joinBar] at h
    refine absurd ?_ (hy y (List.mem_cons_self _ _)).1
    rw [← h]
    exact List.mem_append_right _ (List.mem_cons_of_mem _ (List.mem_cons_self _ _))
  | x :: x2 :: xs, y :: y2 :: ys, hx, hy, h => by
    rw [joinBar, joinBar] at h
    have hsplit := sep_split (by decide) x y _ _
      (hx x (List.mem_cons_self _ _)).1 (hy y (List.mem_cons_self _ _)).1 h
    have hrec := joinBar_inj (x2 :: xs) (y2 :: ys)
      (fun a ha => hx a (List.mem_cons_of_mem _ ha))
      (fun a ha => hy a (List.mem_cons_of_mem _ ha)) hsplit.2
    rw [hsplit.1, hrec]

theorem token_data (kv : String × String) :
    (kv.1 ++ " : " ++ kv.2).data = kv.1.data ++ ' ' :: ':' :: ' ' :: kv.2.data := by
  rw [String.data_append, String.data_append]
  have h : (" : " : String).data = [' ', ':', ' '] := rfl
  rw [h, List.append_assoc]
  rfl

theorem token_inj {a b : String × String}
    (ha : ¬ ':' ∈ a.1.data) (hb : ¬ ':' ∈ b.1.data)
    (h : a.1 ++ " : " ++ a.2 = b.1 ++ " : " ++ b.2) : a = b := by
  have hd : (a.1 ++ " : " ++ a.2).data = (b.1 ++ " : " ++ b.2).data := by rw [h]
  rw [token_data, token_data] at hd
  have hsplit := sep_split (by decide) a.1.data b.1.data a.2.data b.2.data ha hb hd
  exact Prod.ext (String.ext hsplit.1) (String.ext hsplit.2)

theorem tokens_inj : ∀ (xs ys : List (String × String)),
    (∀ kv ∈ xs, ¬ ':' ∈ kv.1.data) → (∀ kv ∈ ys, ¬ ':' ∈ kv.1.data) →
    xs.map (fun kv => kv.1 ++ " : " ++ kv.2) =
      ys.map (fun kv => kv.1 ++ " : " ++ kv.2) → xs = ys
  | [], [], _, _, _ => rfl
  | [], _ :: _, _, _, h => by simp at h
  | _ :: _, [], _, _, h => by simp at h
  | x :: xs, y :: ys, hx, hy, h => by
    simp only [List.map, List.cons.injEq] at h
    have h1 := token_inj (hx x (List.mem_cons_self _ _))
      (hy y (List.mem_cons_self _ _)) h.1
    have h2 := tokens_inj xs ys
      (fun kv hm => hx kv (List.mem_cons_of_mem _ hm))
      (fun kv hm => hy kv (List.mem_cons_of_mem _ hm)) h.2
    rw [h1, h2]

theorem token_no_bar {kv : String × String} (h : sepFree kv) :
    ¬ '|' ∈ (kv.1 ++ " : " ++ kv.2).data := by
  rw [token_data]
  intro hm
  rcases List.mem_append.mp hm with hm1 | hm1
  · exact h.1 hm1
  · simp only [List.mem_cons] at hm1
    rcases hm1 with h1 | h1 | h1 | h1
    · exact absurd h1 (by decide)
    · exact absurd h1 (by decide)
    · exact absurd h1 (by decide)
    · exact h.2.2 h1

theorem token_ne_nil (kv : String × String) :
    (kv.1 ++ " : " ++ kv.2).data ≠ [] := by
  rw [token_data]
  intro hm
  rcases List.append_eq_nil.mp hm with ⟨_, h2⟩
  exact List.noConfusion h2

theorem dict_to_yaml_key_inj {l1 l2 : List (String × String)}
    (hs1 : ∀ kv ∈ l1, sepFree kv) (hs2 : ∀ kv ∈ l2, sepFree kv)
    (h : dict_to_yaml_key l1 = dict_to_yaml_key l2) : l1.Perm l2 := by
  rw [dict_to_yaml_key, dict_to_yaml_key] at h
  have hs1' : ∀ kv ∈ sortPairs l1, sepFree kv :=
    fun kv hm => hs1 kv ((sortPairs_perm l1).mem_iff.mp hm)
  have hs2' : ∀ kv ∈ sortPairs l2, sepFree kv :=
    fun kv hm => hs2 kv ((sortPairs_perm l2).mem_iff.mp hm)
  have hd : (joinSep " | " ((sortPairs l1).map fun kv => kv.1 ++ " : " ++ kv.2)).data
      = (joinSep " | " ((sortPairs l2).map fun kv => kv.1 ++ " : " ++ kv.2)).data := by
    rw [h]
  rw [joinSep_bar_data, joinSep_bar_data] at hd
  have hbar1 : ∀ x ∈ (((sortPairs l1).map fun kv => kv.1 ++ " : " ++ kv.2).map
      String.data), ¬ '|' ∈ x ∧ x ≠ [] := by
    intro x hx
    rcases List.mem_map.mp hx with ⟨t, ht, rfl⟩
    rcases List.mem_map.mp ht with ⟨kv, hkv, rfl⟩
    exact ⟨token_no_bar (hs1' kv hkv), token_ne_nil kv⟩
  have hbar2 : ∀ x ∈ (((sortPairs l2).map fun kv => kv.1 ++ " : " ++ kv.2).map
      String.data), ¬ '|' ∈ x ∧ x ≠ [] := by
    intro x hx
    rcases List.mem_map.mp hx with ⟨t, ht, rfl⟩
    rcases List.mem_map.mp ht with ⟨kv, hkv, rfl⟩
    exact ⟨token_no_bar (hs2' kv hkv), token_ne_nil kv⟩
  have hmaps := joinBar_inj _ _ hbar1 hbar2 hd
  have htok : (sortPairs l1).map (fun kv => kv.1 ++ " : " ++ kv.2)
      = (sortPairs l2).map (fun kv => kv.1 ++ " : " ++ kv.2) :=
    List.map_injective_iff.mpr (fun a b hab => String.ext hab) hmaps
  have hsort : sortPairs l1 = sortPairs l2 :=
    tokens_inj _ _ (fun kv hm => (hs1' kv hm).2.1) (fun kv hm => (hs2' kv hm).2.1)
      htok
  exact ((sortPairs_perm l1).symm.trans (hsort ▸ sortPairs_perm l2))

-- ======================================================================
-- aupdate and castLoop lemmas
-- ======================================================================

theorem aset_eq_self {α : Type} {k : String} {v : α} {d : List (String × α)}
    (h : alookup k d = some v) : aset k v d = d := by
  induction d with
  | nil => simp [alookup] at h
  | cons kv rest ih =>
    by_cases hk : kv.1 = k
    · rw [alookup, if_pos hk] at h
      rw [aset, if_pos hk]
      cases kv
      cases h
      cases hk
      rfl
    · rw [alookup, if_neg hk] at h
      rw [aset, if_neg hk, ih h]

theorem mem_akeys_aupdate {α : Type} (k : String) (u b : List (String × α)) :
    k ∈ akeys (aupdate b u) ↔ k ∈ akeys b ∨ k ∈ akeys u := by
  induction u generalizing b with
  | nil => simp [aupdate, akeys]
  | cons kv rest ih =>
    rw [aupdate, List.foldl_cons]
    have hh : rest.foldl (fun acc kv => aset kv.1 kv.2 acc) (aset kv.1 kv.2 b)
        = aupdate (aset kv.1 kv.2 b) rest := rfl
    rw [hh, ih, mem_akeys_aset, akeys_cons]
    constructor
    · rintro ((h | h) | h)
      · exact Or.inl h
      · exact Or.inr (by rw [h]; exact List.mem_cons_self _ _)
      · exact Or.inr (List.mem_cons_of_mem _ h)
    · rintro (h | h)
      · exact Or.inl (Or.inl h)
      · rcases List.mem_cons.mp h with h1 | h1
        · exact Or.inl (Or.inr h1)
        · exact Or.inr h1

theorem nodup_akeys_aupdate {α : Type} (u : List (String × α))
    {b : List (String × α)} (hb : (akeys b).Nodup) :
    (akeys (aupdate b u)).Nodup := by
  induction u generalizing b with
  | nil => exact hb
  | cons kv rest ih =>
    rw [aupdate, List.foldl_cons]
    exact ih (nodup_akeys_aset kv.2 hb)

theorem alookup_aupdate {α : Type} {u : List (String × α)}
    (hu : (akeys u).Nodup) (k : String) (b : List (String × α)) :
    alookup k (aupdate b u) =
      match alookup k u with
      | some v => some v
      | none => alookup k b := by
  induction u generalizing b with
  | nil => simp [aupdate, alookup]
  | cons kv rest ih =>
    rw [akeys_cons] at hu
    have hu' := List.nodup_cons.mp hu
    rw [aupdate, List.foldl_cons]
    have heq : rest.foldl (fun acc kv => aset kv.1 kv.2 acc) (aset kv.1 kv.2 b)
        = aupdate (aset kv.1 kv.2 b) rest := rfl
    rw [heq, ih hu'.2]
    by_cases hk : kv.1 = k
    · have hnr : alookup k rest = none :=
        (alookup_eq_none_iff k rest).mpr (fun hm => hu'.1 (hk ▸ hm))
      rw [alookup, if_pos hk, hnr, hk, alookup_aset_self]
    · rw [alookup, if_neg hk, alookup_aset_ne _ _ (fun hh => hk hh.symm)]

theorem castLoop_akeys : ∀ {schema : List (String × PType)} {acc r : Params},
    castLoop schema acc = .ok r → akeys r = akeys acc
  | [], acc, r, h => by
    rw [castLoop] at h
    cases h
    rfl
  | kv :: rest, acc, r, h => by
    cases hl : alookup kv.1 acc with
    | none =>
      simp only [castLoop, hl] at h
      exact Except.noConfusion h
    | some v =>
      cases hc : castValue kv.2 v with
      | error e =>
        simp only [castLoop, hl, hc] at h
        exact Except.noConfusion h
      | ok w =>
        simp only [castLoop, hl, hc] at h
        have := castLoop_akeys h
        rw [this, akeys_aset_mem _ _ (mem_akeys_of_alookup hl)]

theorem castLoop_lookup_other : ∀ {schema : List (String × PType)}
    {acc r : Params}, castLoop schema acc = .ok r →
    ∀ k, ¬ k ∈ akeys schema → alookup k r = alookup k acc
  | [], acc, r, h, k, _ => by
    rw [castLoop] at h
    cases h
    rfl
  | kv :: rest, acc, r, h, k, hk => by
    cases hl : alookup kv.1 acc with
    | none =>
      simp only [castLoop, hl] at h
      exact Except.noConfusion h
    | some v =>
      cases hc : castValue kv.2 v with
      | error e =>
        simp only [castLoop, hl, hc] at h
        exact Except.noConfusion h
      | ok w =>
        simp only [castLoop, hl, hc] at h
        rw [akeys_cons] at hk
        have hk1 : ¬ k ∈ akeys rest := fun hm => hk (List.mem_cons_of_mem _ hm)
        have hk2 : k ≠ kv.1 := fun he => hk (he ▸ List.mem_cons_self _ _)
        rw [castLoop_lookup_other h k hk1, alookup_aset_ne _ _ hk2]

theorem castValue_idem {ty : PType} {v w : Value}
    (h : castValue ty v = .ok w) : castValue ty w = .ok w := by
  cases v with
  | vNone =>
    cases ty with
    | tInt => rw [castValue] at h; cases h; rfl
    | tStr => rw [castValue] at h; cases h; rfl
    | tBool => rw [castValue] at h; cases h; rfl
  | vInt n =>
    cases ty with
    | tInt => rw [castValue] at h; cases h; rfl
    | tStr => rw [castValue] at h; cases h; rfl
    | tBool => rw [castValue] at h; cases h; rfl
  | vBool b =>
    cases ty with
    | tInt => rw [castValue] at h; cases h; rfl
    | tStr => rw [castValue] at h; cases h; rfl
    | tBool => rw [castValue] at h; cases h; rfl
  | vStr s =>
    cases ty with
    | tStr => rw [castValue] at h; cases h; rfl
    | tInt =>
      rw [castValue] at h
      cases hp : pyParseInt s with
      | none => rw [hp] at h; exact Except.noConfusion h
      | some n => rw [hp] at h; cases h; rfl
    | tBool =>
      rw [castValue] at h
      split at h
      · cases h; rfl
      · split at h
        · cases h; rfl
        · exact Except.noConfusion h

theorem castLoop_fixed_values : ∀ {schema : List (String × PType)}
    {acc r : Params}, (akeys schema).Nodup → castLoop schema acc = .ok r →
    ∀ kv ∈ schema, ∃ w, alookup kv.1 r = some w ∧ castValue kv.2 w = .ok w
  | [], _, _, _, _, kv, hm => absurd hm (by simp)
  | kv0 :: rest, acc, r, hnd, h, kv, hm => by
    cases hl : alookup kv0.1 acc with
    | none =>
      simp only [castLoop, hl] at h
      exact Except.noConfusion h
    | some v =>
      cases hc : castValue kv0.2 v with
      | error e =>
        simp only [castLoop, hl, hc] at h
        exact Except.noConfusion h
      | ok w =>
        simp only [castLoop, hl, hc] at h
        rw [akeys_cons] at hnd
        have hnd' := List.nodup_cons.mp hnd
        rcases List.mem_cons.mp hm with h1 | h1
        · subst h1
          refine ⟨w, ?_, castValue_idem hc⟩
          rw [castLoop_lookup_other h kv.1 hnd'.1, alookup_aset_self]
        · exact castLoop_fixed_values hnd'.2 h kv h1

theorem castLoop_of_fixed : ∀ {schema : List (String × PType)} {acc : Params},
    (∀ kv ∈ schema, ∃ w, alookup kv.1 acc = some w ∧ castValue kv.2 w = .ok w) →
    castLoop schema acc = .ok acc
  | [], _, _ => rfl
  | kv :: rest, acc, h => by
    rcases h kv (List.mem_cons_self _ _) with ⟨w, hw, hcast⟩
    simp only [castLoop, hw, hcast, aset_eq_self hw]
    exact castLoop_of_fixed (fun kv2 hm => h kv2 (List.mem_cons_of_mem _ hm))

theorem nodup_of_akeys_nodup {α : Type} {d : List (String × α)}
    (h : (akeys d).Nodup) : d.Nodup := List.Nodup.of_map _ h

theorem perm_of_lookup_eq {α : Type} {p q : List (String × α)}
    (hp : (akeys p).Nodup) (hq : (akeys q).Nodup)
    (h : ∀ k, alookup k p = alookup k q) : p.Perm q := by
  rw [List.perm_ext_iff_of_nodup (nodup_of_akeys_nodup hp)
    (nodup_of_akeys_nodup hq)]
  intro kv
  constructor
  · intro hm
    exact mem_of_alookup_eq_some ((h kv.1).symm.trans
      (alookup_of_mem_nodup hp hm))
  · intro hm
    exact mem_of_alookup_eq_some ((h kv.1).trans (alookup_of_mem_nodup hq hm))

-- ======================================================================
-- Stability of configure_parameters
-- ======================================================================

theorem subsetB_iff (xs ys : List String) :
    subsetB xs ys = true ↔ ∀ x ∈ xs, x ∈ ys := by
  simp [subsetB, List.all_eq_true]

theorem mem_allGiven_iff (dict defaults : Params) (k : String) :
    k ∈ (akeys dict ++ (akeys defaults).filter (fun k => ¬ k ∈ akeys dict)) ↔
      k ∈ akeys dict ∨ k ∈ akeys defaults := by
  rw [List.mem_append, List.mem_filter]
  constructor
  · rintro (h | h)
    · exact Or.inl h
    · exact Or.inr h.1
  · rintro (h | h)
    · exact Or.inl h
    · by_cases hd : k ∈ akeys dict
      · exact Or.inl hd
      · exact Or.inr ⟨h, by simpa using hd⟩

theorem castAsTypedDict_ok_elim {dict : Params} {sch : List (String × PType)}
    {defaults : Params} {lenient : Bool} {q : Params}
    (h : castAsTypedDict dict sch defaults lenient = .ok q) :
    castLoop sch (aupdate defaults dict) = .ok q ∧
    (∀ x ∈ akeys sch, x ∈ akeys dict ∨ x ∈ akeys defaults) ∧
    (lenient = false →
      ∀ y, (y ∈ akeys dict ∨ y ∈ akeys defaults) → y ∈ akeys sch) := by
  rw [castAsTypedDict] at h
  split at h
  · rename_i hcond
    refine ⟨h, ?_, ?_⟩
    · intro x hx
      exact (mem_allGiven_iff dict defaults x).mp
        ((subsetB_iff _ _).mp hcond.1 x hx)
    · intro hlen y hy
      rcases hcond.2 with h2 | h2
      · rw [hlen] at h2
        exact Bool.noConfusion h2
      · exact (subsetB_iff _ _).mp h2 y ((mem_allGiven_iff dict defaults y).mpr hy)
  · exact Except.noConfusion h

theorem castAsTypedDict_ok_intro {dict : Params} {sch : List (String × PType)}
    {defaults : Params} {lenient : Bool} {r : Params}
    (hloop : castLoop sch (aupdate defaults dict) = .ok r)
    (hsub : ∀ x ∈ akeys sch, x ∈ akeys dict ∨ x ∈ akeys defaults)
    (hstrict : lenient = false →
      ∀ y, (y ∈ akeys dict ∨ y ∈ akeys defaults) → y ∈ akeys sch) :
    castAsTypedDict dict sch defaults lenient = .ok r := by
  rw [castAsTypedDict]
  rw [if_pos]
  · exact hloop
  · refine ⟨(subsetB_iff _ _).mpr
      (fun x hx => (mem_allGiven_iff dict defaults x).mpr (hsub x hx)), ?_⟩
    cases hl : lenient with
    | true => exact Or.inl rfl
    | false =>
      refine Or.inr ((subsetB_iff _ _).mpr (fun y hy => ?_))
      exact hstrict hl y ((mem_allGiven_iff dict defaults y).mp hy)

theorem configureParams_nodup {c : Catalog} {p q : Params}
    (hdef : (akeys c.defaultParameters).Nodup)
    (hp : (akeys p).Nodup)
    (h : configureParams c p = .ok q) : (akeys q).Nodup := by
  cases hps : c.parameterTypes with
  | none =>
    simp only [configureParams, hps] at h
    cases h
    exact hp
  | some sch =>
    simp only [configureParams, hps] at h
    have helim := castAsTypedDict_ok_elim h
    have hk := castLoop_akeys helim.1
    rw [hk]
    exact nodup_akeys_aupdate _ hdef

theorem configureParams_stable {c : Catalog} {p q : Params}
    (hdef : (akeys c.defaultParameters).Nodup)
    (hsch : ∀ sch, c.parameterTypes = some sch → (akeys sch).Nodup)
    (h : configureParams c p = .ok q) :
    ∃ q2, configureParams c q = .ok q2 ∧ q2.Perm q ∧
      (∀ k, alookup k q2 = alookup k q) ∧
      encodeParams q2 = encodeParams q := by
  cases hps : c.parameterTypes with
  | none =>
    simp only [configureParams, hps] at h
    cases h
    refine ⟨p, ?_, List.Perm.refl p, fun _ => rfl, rfl⟩
    simp only [configureParams, hps]
  | some sch =>
    simp only [configureParams, hps] at h
    have helim := castAsTypedDict_ok_elim h
    have hndm : (akeys (aupdate c.defaultParameters p)).Nodup :=
      nodup_akeys_aupdate _ hdef
    have hndacc1 : (akeys (aupdate c.defaultParameters
        (aupdate c.defaultParameters p))).Nodup := nodup_akeys_aupdate _ hdef
    have hqkeys := castLoop_akeys helim.1
    have hndq : (akeys q).Nodup := hqkeys ▸ hndacc1
    have hqset : ∀ k, k ∈ akeys q ↔
        (k ∈ akeys c.defaultParameters ∨ k ∈ akeys (aupdate c.defaultParameters p)) := by
      intro k
      rw [hqkeys, mem_akeys_aupdate]
    have hfix := castLoop_fixed_values (hsch sch hps) helim.1
    -- Pointwise value of the re-merged dict
    have hm2 : ∀ k, alookup k (aupdate c.defaultParameters q) = alookup k q := by
      intro k
      rw [alookup_aupdate hndq]
      cases hlq : alookup k q with
      | some v => rfl
      | none =>
        rw [alookup_eq_none_iff] at hlq
        have h1 : alookup k c.defaultParameters = none :=
          (alookup_eq_none_iff _ _).mpr
            (fun hd => hlq ((hqset k).mpr (Or.inl hd)))
        have h2 : alookup k q = none := (alookup_eq_none_iff _ _).mpr hlq
        simp [h1, h2]
    have hndm2 : (akeys (aupdate c.defaultParameters q)).Nodup :=
      nodup_akeys_aupdate _ hdef
    have hacc2 : ∀ k, alookup k (aupdate c.defaultParameters
        (aupdate c.defaultParameters q)) = alookup k q := by
      intro k
      rw [alookup_aupdate hndm2]
      cases hlq : alookup k (aupdate c.defaultParameters q) with
      | some v => rw [← hm2 k, hlq]
      | none =>
        rw [alookup_eq_none_iff, mem_akeys_aupdate] at hlq
        have h1 : alookup k c.defaultParameters = none :=
          (alookup_eq_none_iff _ _).mpr (fun hm => hlq (Or.inl hm))
        have h2 : alookup k q = none := by
          rw [← hm2 k]
          rw [alookup_eq_none_iff]
          intro hm
          exact hlq ((mem_akeys_aupdate _ _ _).mp hm)
        simp [h1, h2]
    have hloop2 : castLoop sch (aupdate c.defaultParameters
        (aupdate c.defaultParameters q)) = .ok (aupdate c.defaultParameters
          (aupdate c.defaultParameters q)) := by
      apply castLoop_of_fixed
      intro kv hm
      rcases hfix kv hm with ⟨w, hw, hcast⟩
      exact ⟨w, (hacc2 kv.1).trans hw, hcast⟩
    have hsub2 : ∀ x ∈ akeys sch,
        x ∈ akeys (aupdate c.defaultParameters q) ∨
          x ∈ akeys c.defaultParameters := by
      intro x hx
      rcases helim.2.1 x hx with h1 | h1
      · left
        rw [mem_akeys_aupdate]
        right
        rw [hqkeys, mem_akeys_aupdate]
        exact Or.inr h1
      · exact Or.inr h1
    have hstrict2 : c.allowUndeclared = false →
        ∀ y, (y ∈ akeys (aupdate c.defaultParameters q) ∨
          y ∈ akeys c.defaultParameters) → y ∈ akeys sch := by
      intro hlen y hy
      apply helim.2.2 hlen y
      have hy' : y ∈ akeys c.defaultParameters ∨ y ∈ akeys q := by
        rcases hy with h1 | h1
        · exact (mem_akeys_aupdate _ _ _).mp h1
        · exact Or.inl h1
      rcases hy' with h1 | h1
      · exact Or.inr h1
      · rw [hqkeys, mem_akeys_aupdate] at h1
        rcases h1 with h2 | h2
        · exact Or.inr h2
        · exact Or.inl h2
    refine ⟨aupdate c.defaultParameters (aupdate c.defaultParameters q),
      ?_, ?_, hacc2, ?_⟩
    · rw [configureParams, hps]
      exact castAsTypedDict_ok_intro hloop2 hsub2 hstrict2
    · exact perm_of_lookup_eq (nodup_akeys_aupdate _ hdef) hndq hacc2
    · exact encodeParams_perm
        (perm_of_lookup_eq (nodup_akeys_aupdate _ hdef) hndq hacc2)

-- ======================================================================
-- Claim C3: the key encoding
-- ======================================================================

/-- C3 counterexample: the claim as stated is false. Two string-valued
parameter maps sharing the schema output type str have equal encoded keys
although their (name, stringified-value) sets differ: a value containing
the separator substrings forges the boundary between items. -/
theorem claim_C3_counterexample :
    encodeParams [("a", Value.vStr "u | b : v"), ("b", Value.vStr "w")] =
      encodeParams [("a", Value.vStr "u"), ("b", Value.vStr "v | b : w")] ∧
    ("a", "u | b : v") ∈
      ([("a", Value.vStr "u | b : v"), ("b", Value.vStr "w")].map
        fun kv => (kv.1, pyStr kv.2)) ∧
    ¬ ("a", "u | b : v") ∈
      ([("a", Value.vStr "u"), ("b", Value.vStr "v | b : w")].map
        fun kv => (kv.1, pyStr kv.2)) :=
  ⟨by decide, by decide, by decide⟩

/-- C3 (amended): for item lists with distinct items whose names contain
neither separator character and whose stringified values avoid the item
separator character, dict_to_yaml_key produces equal keys exactly when the
two lists are equal as sets of (name, stringified-value) pairs; in
particular the encoding is deterministic and insertion-order independent.
Without the separator restriction only the right-to-left direction
survives (see the counterexample). -/
theorem claim_C3_amended (l1 l2 : List (String × String))
    (hnd1 : l1.Nodup) (hnd2 : l2.Nodup)
    (hs1 : ∀ kv ∈ l1, sepFree kv) (hs2 : ∀ kv ∈ l2, sepFree kv) :
    dict_to_yaml_key l1 = dict_to_yaml_key l2 ↔ (∀ kv, kv ∈ l1 ↔ kv ∈ l2) := by
  constructor
  · intro h kv
    exact (dict_to_yaml_key_inj hs1 hs2 h).mem_iff
  · intro h
    exact dict_to_yaml_key_perm ((List.perm_ext_iff_of_nodup hnd1 hnd2).mpr h)

/-- C3 witness: the amended equivalence applied to two concrete
permutations of the same item set. -/
theorem claim_C3_witness :
    dict_to_yaml_key [("a", "1"), ("b", "2")] =
        dict_to_yaml_key [("b", "2"), ("a", "1")] ↔
      (∀ kv, kv ∈ [("a", "1"), ("b", "2")] ↔ kv ∈ [("b", "2"), ("a", "1")]) :=
  claim_C3_amended _ _ (by decide) (by decide) (by decide) (by decide)

-- ======================================================================
-- Claim C9: the load retry loop
-- ======================================================================

theorem loadRetryGo_all_scanner {parse : Nat → Except ParseErr Y} :
    ∀ (r k s : Nat), (∀ j, j < r → parse (k + j) = .error .scanner) →
    loadRetryGo parse r k s = (.error .scanner, k + r, s + 5 * r)
  | 0, k, s, _ => by simp [loadRetryGo]
  | r + 1, k, s, h => by
    have h0 : parse k = .error .scanner := by
      have := h 0 (Nat.succ_pos r)
      simpa using this
    simp only [loadRetryGo, h0]
    rw [loadRetryGo_all_scanner r (k + 1) (s + 5)
      (fun j hj => by
        have := h (j + 1) (Nat.succ_lt_succ hj)
        rwa [show k + (j + 1) = k + 1 + j by omega] at this)]
    simp only [Prod.mk.injEq, true_and]
    omega

theorem loadRetryGo_first_exit {parse : Nat → Except ParseErr Y}
    {j : Nat} {out : Except ParseErr Y} (hout : parse j = out)
    (hne : out ≠ .error .scanner) :
    ∀ (r k s : Nat), j < k + r → k ≤ j →
    (∀ i, k ≤ i → i < j → parse i = .error .scanner) →
    loadRetryGo parse r k s = (out, j + 1, s + 5 * (j - k))
  | 0, k, s, hlt, hk, _ => by omega
  | r + 1, k, s, hlt, hk, hscan => by
    by_cases hkj : k = j
    · subst hkj
      cases out with
      | ok d => simp [loadRetryGo, hout]
      | error e =>
        cases e with
        | scanner => exact absurd rfl hne
        | other => simp [loadRetryGo, hout]
    · have hks : parse k = .error .scanner :=
        hscan k (Nat.le_refl k) (by omega)
      simp only [loadRetryGo, hks]
      rw [loadRetryGo_first_exit hout hne r (k + 1) (s + 5)
        (by omega) (by omega)
        (fun i hi1 hi2 => hscan i (by omega) hi2)]
      simp only [Prod.mk.injEq, true_and]
      omega

theorem loadRetryGo_attempts_le {parse : Nat → Except ParseErr Y} :
    ∀ (r k s : Nat), (loadRetryGo parse r k s).2.1 ≤ k + r
  | 0, k, s => by simp [loadRetryGo]
  | r + 1, k, s => by
    rw [loadRetryGo]
    cases parse k with
    | ok d => exact (by omega : k + 1 ≤ k + (r + 1))
    | error e =>
      cases e with
      | scanner =>
        have := @loadRetryGo_attempts_le parse r (k + 1) (s + 5)
        simpa [show k + 1 + r = k + (r + 1) by omega] using this
      | other => exact (by omega : k + 1 ≤ k + (r + 1))

/-- C9: the load loop makes at most 12 parse attempts; it retries exactly
on ScannerError with a fixed 5 second sleep between attempts; exhausting
the attempts re-raises a ScannerError; a first non-scanner outcome at
attempt j (success or another parse error) ends the loop immediately
after j + 1 attempts and 5 j seconds of sleep, with post-processing
failures of a parsed document never retried. -/
theorem claim_C9 (parse : Nat → Except ParseErr Y) :
    ((loadOp parse).2.1 ≤ 12) ∧
    ((∀ k, k < 12 → parse k = .error .scanner) →
      loadOp parse = (.error (.parse .scanner), 12, 60)) ∧
    (∀ j d, j < 12 → parse j = .ok d →
      (∀ i, i < j → parse i = .error .scanner) →
      loadOp parse =
        ((match loadDoc d with
          | .ok st => .ok st
          | .error e => .error (.post e)), j + 1, 5 * j)) ∧
    (∀ j, j < 12 → parse j = .error .other →
      (∀ i, i < j → parse i = .error .scanner) →
      loadOp parse = (.error (.parse .other), j + 1, 5 * j)) := by
  refine ⟨?_, ?_, ?_, ?_⟩
  · have hle := @loadRetryGo_attempts_le parse 12 0 0
    rcases hgo : loadRetryGo parse 12 0 0 with ⟨res, a, s⟩
    rw [hgo] at hle
    simp only [loadOp, hgo]
    cases res with
    | ok d =>
      cases hdoc : loadDoc d with
      | ok st => simp only [hdoc]; simpa using hle
      | error e => simp only [hdoc]; simpa using hle
    | error e => simpa using hle
  · intro h
    have hgo := @loadRetryGo_all_scanner parse 12 0 0
      (fun j hj => by simpa using h j hj)
    simp only [loadOp, hgo]
  · intro j d hj hok hscan
    have hgo := loadRetryGo_first_exit hok (by simp) 12 0 0 (by omega)
      (Nat.zero_le j) (fun i _ hi => hscan i hi)
    simp only [loadOp, hgo, Nat.zero_add, Nat.sub_zero]
    cases loadDoc d <;> rfl
  · intro j hj hother hscan
    have hgo := loadRetryGo_first_exit hother (by simp) 12 0 0 (by omega)
      (Nat.zero_le j) (fun i _ hi => hscan i hi)
    simp only [loadOp, hgo, Nat.zero_add, Nat.sub_zero]

/-- C9 witness: a concrete oracle failing twice with a ScannerError and
then parsing an empty mapping succeeds on the third attempt with 10
seconds of sleep (the empty mapping then fails post-processing, which is
not retried). -/
theorem claim_C9_witness :
    loadOp (fun k => if k < 2 then .error .scanner else .ok (Y.map []))
      = (.error (.post .typeError), 3, 10) := by
  have h := (claim_C9 (fun k => if k < 2 then .error .scanner
    else .ok (Y.map []))).2.2.1 2 (Y.map []) (by omega) (by simp)
    (fun i hi => by simp [hi])
  rw [h]
  decide

-- ======================================================================
-- Exec reasoning helpers
-- ======================================================================

theorem exc_bind_ok {ε α β : Type} (a : α) (f : α → Except ε β) :
    (Except.ok a >>= f) = f a := rfl

theorem exc_bind_error {ε α β : Type} (e : ε) (f : α → Except ε β) :
    ((Except.error e : Except ε α) >>= f) = Except.error e := rfl

theorem exc_pure {ε α : Type} (a : α) : (pure a : Except ε α) = Except.ok a :=
  rfl

theorem exc_map_ok {ε α β : Type} (f : α → β) (a : α) :
    (Except.ok a : Except ε α).map f = Except.ok (f a) := rfl

theorem exc_map_error {ε α β : Type} (f : α → β) (e : ε) :
    (Except.error e : Except ε α).map f = Except.error e := rfl

theorem alookup_append_not_mem {α : Type} {k : String}
    {es : List (String × α)} (h : ¬ k ∈ akeys es) (kv : String × α) :
    alookup k (es ++ [kv]) = if kv.1 = k then some kv.2 else none := by
  induction es with
  | nil => simp [alookup]
  | cons e rest ih =>
    rw [akeys_cons] at h
    have h1 : e.1 ≠ k := fun he => h (he ▸ List.mem_cons_self _ _)
    have h2 : ¬ k ∈ akeys rest := fun hm => h (List.mem_cons_of_mem _ hm)
    rw [List.cons_append, alookup, if_neg h1, ih h2]

theorem mem_akeys_ensureLabel (label : String) (c : Catalog) :
    label ∈ akeys (ensureLabel label c).entries := by
  rw [ensureLabel]
  cases hl : alookup label c.entries with
  | some d => exact mem_akeys_of_alookup hl
  | none =>
    have hnm := (alookup_eq_none_iff _ _).mp hl
    show label ∈ akeys (c.entries ++ [(label, [])])
    rw [akeys, List.map_append]
    exact List.mem_append_right _ (List.mem_cons_self _ _)

theorem alookup_append_of_mem {α : Type} {l : String} {es : List (String × α)}
    {d : α} (hd : alookup l es = some d) (tail : List (String × α)) :
    alookup l (es ++ tail) = some d := by
  induction es with
  | nil => simp [alookup] at hd
  | cons e rest ih =>
    rw [List.cons_append, alookup]
    rw [alookup] at hd
    by_cases he : e.1 = l
    · rw [if_pos he] at hd ⊢
      exact hd
    · rw [if_neg he] at hd ⊢
      exact ih hd

theorem ensureLabel_entries_lookup (label : String) (c : Catalog)
    (l k : String) :
    alookup2 l k (ensureLabel label c).entries = alookup2 l k c.entries := by
  rw [ensureLabel]
  cases hl : alookup label c.entries with
  | some d => rfl
  | none =>
    show alookup2 l k (c.entries ++ [(label, [])]) = alookup2 l k c.entries
    rw [alookup2, alookup2]
    cases hdl : alookup l c.entries with
    | some d => rw [alookup_append_of_mem hdl]
    | none =>
      have hmem := (alookup_eq_none_iff _ _).mp hdl
      rw [alookup_append_not_mem hmem]
      by_cases hll : label = l
      · rw [if_pos hll]
        rfl
      · rw [if_neg hll]

theorem ensureLabel_fields (label : String) (c : Catalog) :
    (ensureLabel label c).files = c.files ∧
    (ensureLabel label c).pairs = c.pairs ∧
    (ensureLabel label c).parameterTypes = c.parameterTypes ∧
    (ensureLabel label c).defaultParameters = c.defaultParameters ∧
    (ensureLabel label c).allowUndeclared = c.allowUndeclared ∧
    (ensureLabel label c).configureDefault = c.configureDefault ∧
    (ensureLabel label c).recognizedNames = c.recognizedNames ∧
    (ensureLabel label c).recognizedExtensions = c.recognizedExtensions ∧
    (ensureLabel label c).verbose = c.verbose ∧
    (ensureLabel label c).overwriteBehavior = c.overwriteBehavior := by
  rw [ensureLabel]
  cases alookup label c.entries <;> exact ⟨rfl, rfl, rfl, rfl, rfl, rfl, rfl,
    rfl, rfl, rfl⟩

theorem alookup2_aset2_self {label key : String} {e : Entry}
    {es : List (String × List (String × Entry))}
    (h : label ∈ akeys es) :
    alookup2 label key (aset2 label key e es) = some e := by
  rw [aset2]
  rcases alookup_isSome_of_mem_akeys h with ⟨d, hd⟩
  rw [hd, alookup2, alookup_aset_self]
  show alookup key (aset key e d) = some e
  exact alookup_aset_self _ _ _

theorem alookup2_aset2_ne {label key l k : String} {e : Entry}
    {es : List (String × List (String × Entry))}
    (hne : l ≠ label ∨ k ≠ key) :
    alookup2 l k (aset2 label key e es) = alookup2 l k es := by
  rw [aset2]
  cases hd : alookup label es with
  | none => rfl
  | some d =>
    rw [alookup2, alookup2]
    by_cases hl : l = label
    · subst hl
      rcases hne with hne | hne
      · exact absurd rfl hne
      · rw [alookup_aset_self, hd]
        show alookup k (aset key e d) = alookup k d
        exact alookup_aset_ne _ _ hne
    · rw [alookup_aset_ne _ _ hl]

theorem exc_bind_ok_elim {ε α β : Type} {m : Except ε α} {f : α → Except ε β}
    {b : β} (h : (m >>= f) = .ok b) : ∃ a, m = .ok a ∧ f a = .ok b := by
  cases m with
  | ok a => exact ⟨a, rfl, h⟩
  | error e =>
    rw [exc_bind_error] at h
    exact Except.noConfusion h

theorem removeFileCore_ok_elim {sys : Sys} {label key fname : String}
    {deleteFile : Bool} {sys2 : Sys}
    (h : removeFileCore sys label key fname deleteFile = .ok sys2) :
    fname ∈ sys.cat.files ∧
    sys.cat.files.indexOf fname < sys.cat.pairs.length ∧
    ∃ d, alookup label sys.cat.entries = some d ∧ (alookup key d).isSome ∧
      sys2 = ⟨{ sys.cat with
          files := sys.cat.files.eraseIdx (sys.cat.files.indexOf fname),
          pairs := sys.cat.pairs.eraseIdx (sys.cat.files.indexOf fname),
          entries := aset label (aerase key d) sys.cat.entries },
        if deleteFile then sys.disk.filter (fun g => g ≠ fname)
        else sys.disk⟩ := by
  rw [removeFileCore] at h
  by_cases hmem : fname ∈ sys.cat.files
  · rw [if_pos hmem] at h
    dsimp only at h
    by_cases hidx : List.indexOf fname sys.cat.files < sys.cat.pairs.length
    · rw [if_pos hidx] at h
      cases hd : alookup label sys.cat.entries with
      | none =>
        simp only [hd] at h
        exact Except.noConfusion h
      | some d =>
        simp only [hd] at h
        by_cases hks : (alookup key d).isSome = true
        · rw [if_pos hks] at h
          cases h
          exact ⟨hmem, hidx, d, rfl, hks, rfl⟩
        · rw [if_neg hks] at h
          exact Except.noConfusion h
    · rw [if_neg hidx] at h
      exact Except.noConfusion h
  · rw [if_neg hmem] at h
    exact Except.noConfusion h

theorem removeFile_struct {sys : Sys} {f? l? : Option String}
    {p? : Option Params} {dflag : Bool} {sys2 : Sys}
    (h : removeFile sys f? l? p? dflag = .ok sys2) :
    ∃ label key fname d,
      alookup label sys.cat.entries = some d ∧ (alookup key d).isSome ∧
      fname ∈ sys.cat.files ∧
      sys.cat.files.indexOf fname < sys.cat.pairs.length ∧
      sys2 = ⟨{ sys.cat with
          files := sys.cat.files.eraseIdx (sys.cat.files.indexOf fname),
          pairs := sys.cat.pairs.eraseIdx (sys.cat.files.indexOf fname),
          entries := aset label (aerase key d) sys.cat.entries },
        if dflag then sys.disk.filter (fun g => g ≠ fname)
        else sys.disk⟩ := by
  rw [removeFile] at h
  rcases exc_bind_ok_elim h with ⟨params2, hp2, h⟩
  rw [removeFileGo] at h
  rcases exc_bind_ok_elim h with ⟨hf, hhf, h⟩
  cases hf with
  | false =>
    rw [if_neg (by simp)] at h
    exact Except.noConfusion h
  | true =>
    rw [if_pos rfl] at h
    cases f? with
    | some fname =>
      rw [removeFileDispatch] at h
      rcases exc_bind_ok_elim h with ⟨key, hkey, h⟩
      rcases exc_bind_ok_elim h with ⟨lp, hlp, h⟩
      rcases removeFileCore_ok_elim h with ⟨hmem, hidx, d, hd, hks, hsys⟩
      exact ⟨lp.1, key, fname, d, hd, hks, hmem, hidx, hsys⟩
    | none =>
      cases l? with
      | none =>
        cases params2 with
        | none => rw [removeFileDispatch] at h; exact Except.noConfusion h
        | some p => rw [removeFileDispatch] at h; exact Except.noConfusion h
      | some label =>
        cases params2 with
        | none => rw [removeFileDispatch] at h; exact Except.noConfusion h
        | some p =>
          rw [removeFileDispatch] at h
          cases he : alookup2 label (encodeParams p) sys.cat.entries with
          | none =>
            simp only [he] at h
            exact Except.noConfusion h
          | some e =>
            simp only [he] at h
            rcases removeFileCore_ok_elim h with ⟨hmem, hidx, d, hd, hks, hsys⟩
            exact ⟨label, encodeParams p, e.filename, d, hd, hks, hmem, hidx,
              hsys⟩

theorem newFilename_ok_elim {sys : Sys} {label : String} {params : Params}
    {ext : Option String} {fname : String} {wb : Option WarnB}
    {p : String} {sys' : Sys}
    (h : newFilename sys label params ext fname wb = .ok (some p, sys')) :
    p = fname ∧
    ∃ (q : Params) (sys2 : Sys),
      newFilenameConfig sys.cat params = .ok q ∧
      ((sys2 = ⟨ensureLabel label sys.cat, sys.disk⟩ ∧
        (alookup2 label (encodeParams q)
            (ensureLabel label sys.cat).entries = none ∨
          ∃ e, alookup2 label (encodeParams q)
              (ensureLabel label sys.cat).entries = some e ∧
            ¬ e.filename ∈ sys.disk)) ∨
        removeFile ⟨ensureLabel label sys.cat, sys.disk⟩ none (some label)
          (some q) true = .ok sys2) ∧
      sys' = ⟨{ sys2.cat with
          entries := aset2 label (encodeParams q)
            ⟨stringifyParams q, fname, ""⟩ sys2.cat.entries,
          files := sys2.cat.files ++ [fname],
          pairs := sys2.cat.pairs ++ [(label, stringifyParams q)] },
        sys2.disk⟩ := by
  rw [newFilename] at h
  rcases exc_bind_ok_elim h with ⟨q, hq, h⟩
  dsimp only at h
  rcases exc_bind_ok_elim h with ⟨u1, hce, h⟩
  rcases exc_bind_ok_elim h with ⟨u2, hcl, h⟩
  rcases exc_bind_ok_elim h with ⟨next, hnext, h⟩
  cases next with
  | none =>
    rw [newFilenameFinish] at h
    exact absurd (congrArg Prod.fst (Except.ok.inj h)) (by simp)
  | some sys2 =>
    rw [newFilenameFinish] at h
    have h2 := Except.ok.inj h
    have hp : p = fname := by
      have h3 := congrArg Prod.fst h2
      simpa using h3.symm
    have hs : sys' = ⟨{ sys2.cat with
        entries := aset2 label (encodeParams q)
          ⟨stringifyParams q, fname, ""⟩ sys2.cat.entries,
        files := sys2.cat.files ++ [fname],
        pairs := sys2.cat.pairs ++ [(label, stringifyParams q)] },
      sys2.disk⟩ := by
      have h4 := congrArg Prod.snd h2
      simpa using h4.symm
    refine ⟨hp, q, sys2, hq, ?_, hs⟩
    rw [newFilenameOverwrite] at hnext
    revert hnext
    cases he : alookup2 label (encodeParams q)
        (ensureLabel label sys.cat).entries with
    | none =>
      intro hnext
      dsimp only at hnext
      have h5 := Except.ok.inj hnext
      exact Or.inl ⟨(Option.some.inj h5).symm, Or.inl rfl⟩
    | some e =>
      intro hnext
      dsimp only at hnext
      by_cases hmem : e.filename ∈ sys.disk
      · rw [if_pos hmem] at hnext
        rcases exc_bind_ok_elim hnext with ⟨ow, how, hnext⟩
        cases ow with
        | false =>
          rw [if_neg (by simp)] at hnext
          exact Option.noConfusion (Except.ok.inj hnext)
        | true =>
          rw [if_pos rfl] at hnext
          cases hrm : removeFile ⟨ensureLabel label sys.cat, sys.disk⟩
              none (some label) (some q) true with
          | error e2 =>
            rw [hrm, exc_map_error] at hnext
            exact Except.noConfusion hnext
          | ok s3 =>
            rw [hrm, exc_map_ok] at hnext
            have h6 := Option.some.inj (Except.ok.inj hnext)
            cases h6
            exact Or.inr rfl
      · rw [if_neg hmem] at hnext
        have h7 := Except.ok.inj hnext
        exact Or.inl ⟨(Option.some.inj h7).symm, Or.inr ⟨e, rfl, hmem⟩⟩

-- ======================================================================
-- C1: new_filename followed by get_filename / has_file
-- ======================================================================

theorem checkRecognized_ok {x : String} {recog : List String} {wb : WarnB}
    (h : wb = WarnB.error → x ∈ recog) :
    checkRecognized x recog wb = .ok () := by
  cases wb with
  | ignore => rfl
  | warn => rfl
  | error => rw [checkRecognized, if_pos (h rfl)]

theorem configureParams_congr {c c2 : Catalog}
    (h1 : c2.parameterTypes = c.parameterTypes)
    (h2 : c2.defaultParameters = c.defaultParameters)
    (h3 : c2.allowUndeclared = c.allowUndeclared) (p : Params) :
    configureParams c2 p = configureParams c p := by
  rw [configureParams, configureParams, h1, h2, h3]

theorem newFilename_post_frame {sys : Sys} {label : String} {q : Params}
    {sys2 : Sys}
    (hdisj : sys2 = ⟨ensureLabel label sys.cat, sys.disk⟩ ∨
      removeFile ⟨ensureLabel label sys.cat, sys.disk⟩ none (some label)
        (some q) true = .ok sys2) :
    label ∈ akeys sys2.cat.entries ∧
    sys2.cat.parameterTypes = sys.cat.parameterTypes ∧
    sys2.cat.defaultParameters = sys.cat.defaultParameters ∧
    sys2.cat.allowUndeclared = sys.cat.allowUndeclared ∧
    sys2.cat.configureDefault = sys.cat.configureDefault ∧
    sys2.cat.recognizedNames = sys.cat.recognizedNames ∧
    sys2.cat.recognizedExtensions = sys.cat.recognizedExtensions ∧
    sys2.cat.verbose = sys.cat.verbose ∧
    sys2.cat.overwriteBehavior = sys.cat.overwriteBehavior := by
  obtain ⟨e1, e2, e3, e4, e5, e6, e7, e8, e9, e10⟩ :=
    ensureLabel_fields label sys.cat
  cases hdisj with
  | inl h =>
    subst h
    exact ⟨mem_akeys_ensureLabel label sys.cat, e3, e4, e5, e6, e7, e8, e9, e10⟩
  | inr h =>
    rcases removeFile_struct h with ⟨l2, k2, f2, d2, hd2, hk2, hm2, hi2, hsys2⟩
    subst hsys2
    refine ⟨?_, e3, e4, e5, e6, e7, e8, e9, e10⟩
    exact (mem_akeys_aset label l2 (aerase k2 d2) _).mpr
      (Or.inl (mem_akeys_ensureLabel label sys.cat))

theorem getFilename_hit {c : Catalog} {label : String} {params q : Params}
    (hq : (if c.configureDefault then configureParams c params
      else .ok params) = .ok q)
    (hrec : checkRecognized label c.recognizedNames
      (warnBehaviorGet c.verbose) = .ok ())
    {e : Entry} (he : alookup2 label (encodeParams q) c.entries = some e)
    {f : String} (hef : e.filename = f) :
    getFilename c label params = .ok f := by
  rw [getFilename, hq, exc_bind_ok, hrec, exc_bind_ok]
  simp only [he]
  rw [hef]

theorem hasFile_of_getFilename_ok {c : Catalog} {label : String}
    {params : Params} {f : String}
    (h : getFilename c label params = .ok f) :
    hasFile c none (some label) (some params) = .ok true := by
  rw [hasFile]
  rw [if_neg (by simp)]
  simp only [h]

/-- C1, counterexample: at verbosity exactly 20 an unrecognized data label
passes the warn-level recognition check of new_filename, which returns a
path, yet the strict recognition check of get_filename (and hence
has_file through it) raises the assert instead of returning the path. -/
theorem claim_C1_counterexample :
    newFilename c1sys "sample" [] none "f.txt" none =
      .ok (some "f.txt", c1post) ∧
    getFilename c1post.cat "sample" [] = .error .assertionFailed ∧
    hasFile c1post.cat none (some "sample") (some []) =
      .error .assertionFailed :=
  ⟨rfl, rfl, rfl⟩

/-- C1, amended: if a new_filename call returns a path, and the data label
survives the (strictly sharper) recognition check of get_filename, then
immediately afterwards get_filename returns that path and has_file
reports true. -/
theorem claim_C1 {sys : Sys} {label : String} {params : Params}
    {ext : Option String} {fname : String} {wb : Option WarnB}
    {p : String} {sys2 : Sys}
    (hok : newFilename sys label params ext fname wb = .ok (some p, sys2))
    (hrec : warnBehaviorGet sys.cat.verbose = WarnB.error →
      label ∈ sys.cat.recognizedNames) :
    getFilename sys2.cat label params = .ok p ∧
    hasFile sys2.cat none (some label) (some params) = .ok true := by
  rcases newFilename_ok_elim hok with ⟨hp, q, sysm, hq, hdisj, hs⟩
  obtain ⟨hmem, hpt, hdp, hau, hcd, hrn, hre, hv, hob⟩ :=
    newFilename_post_frame (hdisj.imp And.left id)
  subst hs
  subst hp
  rw [newFilenameConfig] at hq
  have hgf : getFilename { sysm.cat with
      entries := aset2 label (encodeParams q)
        ⟨stringifyParams q, p, ""⟩ sysm.cat.entries,
      files := sysm.cat.files ++ [p],
      pairs := sysm.cat.pairs ++ [(label, stringifyParams q)] }
      label params = .ok p := by
    have he : alookup2 label (encodeParams q)
        (aset2 label (encodeParams q) (⟨stringifyParams q, p, ""⟩ : Entry)
          sysm.cat.entries) = some ⟨stringifyParams q, p, ""⟩ :=
      alookup2_aset2_self hmem
    have h2 : checkRecognized label sysm.cat.recognizedNames
        (warnBehaviorGet sysm.cat.verbose) = .ok () := by
      refine checkRecognized_ok ?_
      rw [hv, hrn]
      exact hrec
    have h1 : (if sysm.cat.configureDefault then
        configureParams sysm.cat params else .ok params) = .ok q := by
      rw [hcd, configureParams_congr hpt hdp hau]
      exact hq
    refine getFilename_hit ?_ ?_ he rfl
    · exact h1
    · exact h2
  exact ⟨hgf, hasFile_of_getFilename_ok hgf⟩

theorem claim_C1_witness :
    newFilename c1wsys "sample" [] none "f.txt" none =
      .ok (some "f.txt", c1wpost) ∧
    (getFilename c1wpost.cat "sample" [] = .ok "f.txt" ∧
      hasFile c1wpost.cat none (some "sample") (some []) = .ok true) :=
  ⟨rfl, @claim_C1 c1wsys "sample" [] none "f.txt" none "f.txt" c1wpost rfl
    (fun h => WarnB.noConfusion h)⟩

-- ======================================================================
-- C5: the overwrite policy on a key collision
-- ======================================================================

theorem ensureLabel_of_mem {label : String} {c : Catalog}
    {d : List (String × Entry)}
    (h : alookup label c.entries = some d) : ensureLabel label c = c := by
  simp only [ensureLabel, h]

theorem removeFileCore_intro {sys : Sys} {label key fname : String}
    {d : List (String × Entry)}
    (hd : alookup label sys.cat.entries = some d)
    (hks : (alookup key d).isSome = true)
    (hmem : fname ∈ sys.cat.files)
    (hidx : sys.cat.files.indexOf fname < sys.cat.pairs.length)
    (dflag : Bool) :
    removeFileCore sys label key fname dflag = .ok
      ⟨{ sys.cat with
          files := sys.cat.files.eraseIdx (sys.cat.files.indexOf fname),
          pairs := sys.cat.pairs.eraseIdx (sys.cat.files.indexOf fname),
          entries := aset label (aerase key d) sys.cat.entries },
        if dflag then sys.disk.filter (fun g => g ≠ fname)
        else sys.disk⟩ := by
  rw [removeFileCore, if_pos hmem]
  dsimp only
  rw [if_pos hidx]
  simp only [hd]
  rw [if_pos hks]

theorem configStep_stable {c : Catalog} {p q : Params}
    (hnd : (akeys c.defaultParameters).Nodup)
    (hsch : ∀ sch, c.parameterTypes = some sch → (akeys sch).Nodup)
    (h : (if c.configureDefault then configureParams c p else .ok p) = .ok q) :
    ∃ q2, (if c.configureDefault then configureParams c q
      else .ok q) = .ok q2 ∧
      (∀ k, alookup k q2 = alookup k q) ∧ encodeParams q2 = encodeParams q := by
  by_cases hc : c.configureDefault = true
  · rw [if_pos hc] at h ⊢
    rcases configureParams_stable hnd hsch h with ⟨q2, h2, _, hl, he⟩
    exact ⟨q2, h2, hl, he⟩
  · rw [if_neg hc]
    exact ⟨q, rfl, fun _ => rfl, rfl⟩

theorem alookup2_intro {label key : String} {d : List (String × Entry)}
    {e : Entry} {es : List (String × List (String × Entry))}
    (hd : alookup label es = some d) (he : alookup key d = some e) :
    alookup2 label key es = some e := by
  rw [alookup2, hd]
  exact he

theorem removeFile_hit {sys : Sys} {label : String} {q q2 : Params}
    {e : Entry} {d : List (String × Entry)}
    (hwf : WF sys.cat)
    (hnd : (akeys sys.cat.defaultParameters).Nodup)
    (hsch : ∀ sch, sys.cat.parameterTypes = some sch → (akeys sch).Nodup)
    (hq2 : (if sys.cat.configureDefault then configureParams sys.cat q
      else .ok q) = .ok q2)
    (hkq : encodeParams q2 = encodeParams q)
    (hd : alookup label sys.cat.entries = some d)
    (he : alookup (encodeParams q) d = some e)
    (hrecG : warnBehaviorGet sys.cat.verbose = WarnB.error →
      label ∈ sys.cat.recognizedNames) :
    removeFile sys none (some label) (some q) true = .ok
      ⟨{ sys.cat with
          files := sys.cat.files.eraseIdx
            (sys.cat.files.indexOf e.filename),
          pairs := sys.cat.pairs.eraseIdx
            (sys.cat.files.indexOf e.filename),
          entries := aset label (aerase (encodeParams q) d)
            sys.cat.entries },
        sys.disk.filter (fun g => g ≠ e.filename)⟩ := by
  have hentry : alookup2 label (encodeParams q) sys.cat.entries = some e :=
    alookup2_intro hd he
  rcases hwf.complete label (encodeParams q) e hentry with
    ⟨i, lp, hlp, hl1, hl2, hfi⟩
  have hmem : e.filename ∈ sys.cat.files := List.getElem?_mem hfi
  have hidx : sys.cat.files.indexOf e.filename < sys.cat.pairs.length := by
    rw [← hwf.lenEq]
    exact List.indexOf_lt_length.mpr hmem
  rcases configStep_stable hnd hsch hq2 with ⟨q3, hq3, _, hk3⟩
  have hgf : getFilename sys.cat label q2 = .ok e.filename := by
    refine getFilename_hit hq3 (checkRecognized_ok hrecG) ?_ rfl
    rw [hk3, hkq]
    exact hentry
  have hhf : hasFile sys.cat none (some label) (some q2) = .ok true :=
    hasFile_of_getFilename_ok hgf
  have hentry2 : alookup2 label (encodeParams q2) sys.cat.entries = some e :=
    by rw [hkq]; exact hentry
  have hks : (alookup (encodeParams q2) d).isSome = true := by
    rw [hkq, he]; rfl
  have hpar : removeFileParams sys.cat (some q) = .ok (some q2) := by
    rw [removeFileParams]
    by_cases hc : sys.cat.configureDefault = true
    · rw [if_pos hc] at hq2 ⊢
      rw [hq2, exc_map_ok]
    · rw [if_neg hc] at hq2 ⊢
      rw [Except.ok.inj hq2]
  rw [removeFile, hpar, exc_bind_ok, removeFileGo]
  rw [hhf, exc_bind_ok, if_pos rfl, removeFileDispatch]
  rw [hentry2]
  have hcore := removeFileCore_intro hd hks hmem hidx true
  rw [if_pos rfl] at hcore
  rw [← hkq]
  exact hcore

/-- C5, amended: on a key collision whose file is on disk, and with a
positive verbosity (the counterexample shows the policy is bypassed
otherwise), the skip policy makes the second new_filename call return the
None sentinel with the catalog unchanged, and the overwrite policy makes
it delete the old file, drop the old slot and append the new entry. -/
theorem claim_C5 {sys : Sys} {label : String} {params q : Params}
    {ext : Option String} {fname : String} {e : Entry}
    {d : List (String × Entry)}
    (hwf : WF sys.cat)
    (hnd : (akeys sys.cat.defaultParameters).Nodup)
    (hsch : ∀ sch, sys.cat.parameterTypes = some sch → (akeys sch).Nodup)
    (hq : newFilenameConfig sys.cat params = .ok q)
    (hd : alookup label sys.cat.entries = some d)
    (he : alookup (encodeParams q) d = some e)
    (hdisk : e.filename ∈ sys.disk)
    (hv : sys.cat.verbose > 0)
    (hce : checkRecognizedExt ext sys.cat.recognizedExtensions
      (warnBehaviorNew sys.cat.verbose) = .ok ())
    (hcl : checkRecognized label sys.cat.recognizedNames
      (warnBehaviorNew sys.cat.verbose) = .ok ())
    (hrecG : warnBehaviorGet sys.cat.verbose = WarnB.error →
      label ∈ sys.cat.recognizedNames) :
    (sys.cat.overwriteBehavior = OverwriteB.skip →
      newFilename sys label params ext fname none = .ok (none, sys)) ∧
    (sys.cat.overwriteBehavior = OverwriteB.overwrite →
      newFilename sys label params ext fname none = .ok (some fname,
        ⟨{ sys.cat with
            entries := aset2 label (encodeParams q)
              ⟨stringifyParams q, fname, ""⟩
              (aset label (aerase (encodeParams q) d) sys.cat.entries),
            files := sys.cat.files.eraseIdx
              (sys.cat.files.indexOf e.filename) ++ [fname],
            pairs := sys.cat.pairs.eraseIdx
              (sys.cat.files.indexOf e.filename) ++
              [(label, stringifyParams q)] },
          sys.disk.filter (fun g => g ≠ e.filename)⟩) ∧
      alookup2 label (encodeParams q)
        (aset2 label (encodeParams q) ⟨stringifyParams q, fname, ""⟩
          (aset label (aerase (encodeParams q) d) sys.cat.entries)) =
        some ⟨stringifyParams q, fname, ""⟩ ∧
      ¬ e.filename ∈ sys.disk.filter (fun g => g ≠ e.filename)) := by
  have hens : ensureLabel label sys.cat = sys.cat := ensureLabel_of_mem hd
  have hentry : alookup2 label (encodeParams q) sys.cat.entries = some e :=
    alookup2_intro hd he
  have hq0 : (if sys.cat.configureDefault then configureParams sys.cat params
      else .ok params) = .ok q := by rw [← newFilenameConfig]; exact hq
  constructor
  · intro hob
    rw [newFilename, hq, exc_bind_ok]
    simp only [Option.getD_none, hce, exc_bind_ok, hcl, hens]
    rw [newFilenameOverwrite]
    simp only [hentry]
    rw [if_pos hdisk, if_pos hv, hob]
    rw [resolveOverwrite, exc_bind_ok, if_neg (by simp), exc_bind_ok]
    rw [newFilenameFinish]
  · intro hob
    rcases configStep_stable hnd hsch hq0 with ⟨q2, hq2, _, hkq⟩
    have hrm := @removeFile_hit ⟨sys.cat, sys.disk⟩ label q q2 e d
      hwf hnd hsch hq2 hkq hd he hrecG
    refine ⟨?_, ?_, ?_⟩
    · rw [newFilename, hq, exc_bind_ok]
      simp only [Option.getD_none, hce, exc_bind_ok, hcl, hens]
      rw [newFilenameOverwrite]
      simp only [hentry]
      rw [if_pos hdisk, if_pos hv, hob]
      rw [resolveOverwrite, exc_bind_ok, if_pos rfl]
      rw [hrm, exc_map_ok, exc_bind_ok]
      rw [newFilenameFinish]
      rw [hob]
    · exact alookup2_aset2_self
        ((mem_akeys_aset label label (aerase (encodeParams q) d)
          sys.cat.entries).mpr (Or.inr rfl))
    · simp

/-- C5, counterexample: with the skip policy but verbosity 0 the policy is
never consulted (the interactive prompt is only raised at positive
verbosity), so the colliding second call overwrites: it returns a fresh
path, deletes the old file from disk and replaces the entry. -/
theorem claim_C5_counterexample :
    c5sys.cat.overwriteBehavior = OverwriteB.skip ∧
    newFilename c5sys "sample" [] none "b.txt" none =
      .ok (some "b.txt", c5post) ∧
    ¬ "a.txt" ∈ c5post.disk ∧
    getFilename c5post.cat "sample" [] = .ok "b.txt" :=
  ⟨rfl, rfl, by decide, rfl⟩

theorem c5wsys_wf : WF c5wsys.cat := by
  refine ⟨rfl, by decide, by decide, by decide, by decide, ?_, ?_⟩
  · intro i hi lp hlp
    have hi1 : i < 1 := hi
    have h0 : i = 0 := by omega
    subst h0
    have hlp2 : some (("sample", []) : String × Params) = some lp := hlp
    cases Option.some.inj hlp2
    exact ⟨c5entry, rfl, rfl⟩
  · intro l k e' h
    have hE : c5wsys.cat.entries = [("sample", c5dict)] := rfl
    rw [alookup2, hE, alookup] at h
    by_cases h1 : "sample" = l
    · rw [if_pos h1] at h
      have h2 : alookup k c5dict = some e' := h
      rw [c5dict, alookup] at h2
      by_cases h3 : encodeParams [] = k
      · rw [if_pos h3] at h2
        cases Option.some.inj h2
        exact ⟨0, ("sample", []), rfl, h1.symm ▸ rfl, h3, rfl⟩
      · rw [if_neg h3] at h2
        exact Option.noConfusion (h2.symm.trans rfl)
    · rw [if_neg h1] at h
      exact Option.noConfusion h

theorem claim_C5_witness :
    newFilename c5wsys "sample" [] none "b.txt" none = .ok (none, c5wsys) :=
  (@claim_C5 c5wsys "sample" [] [] none "b.txt" c5entry c5dict
    c5wsys_wf (by decide) (fun sch h => Option.noConfusion h) rfl rfl rfl
    (List.mem_cons_self _ _) (by decide) rfl rfl
    (fun h => WarnB.noConfusion h)).1 rfl

-- ======================================================================
-- C6: the argument contract and error behavior of remove_file
-- ======================================================================

/-- C6: remove_file demands exactly one of the filename and the data
label (ValueError otherwise), fails with FileNotFoundError on an
unindexed filename, and on success drops the entry from the files list,
the pairs list and the by-label map, with a missed physical unlink (the
file absent from disk) surfacing only as a warning: the index update
still goes through and the disk is untouched. -/
theorem claim_C6 (sys : Sys) (fname label : String)
    (f? l? : Option String) (p? : Option Params) (dflag d2 : Bool)
    (sys2 : Sys)
    (hnm : ¬ fname ∈ sys.cat.files)
    (hok : removeFile sys f? l? p? dflag = .ok sys2) :
    removeFile sys (some fname) (some label) none d2 = .error .valueError ∧
    removeFile sys none none none d2 = .error .valueError ∧
    removeFile sys (some fname) none none d2 = .error .fileNotFound ∧
    ∃ label2 key fn d,
      alookup label2 sys.cat.entries = some d ∧
      (alookup key d).isSome = true ∧
      fn ∈ sys.cat.files ∧
      sys.cat.files.indexOf fn < sys.cat.pairs.length ∧
      sys2.cat.files = sys.cat.files.eraseIdx (sys.cat.files.indexOf fn) ∧
      sys2.cat.pairs = sys.cat.pairs.eraseIdx (sys.cat.files.indexOf fn) ∧
      sys2.cat.entries = aset label2 (aerase key d) sys.cat.entries ∧
      (¬ fn ∈ sys.disk → sys2.disk = sys.disk) ∧
      (dflag = true → sys2.disk = sys.disk.filter (fun g => g ≠ fn)) := by
  refine ⟨?_, ?_, ?_, ?_⟩
  · have hc : (some fname).isNone = (some label).isNone := rfl
    rw [removeFile, removeFileParams, exc_bind_ok, removeFileGo, hasFile,
      if_pos hc, exc_bind_error]
  · have hc : (none : Option String).isNone =
      (none : Option String).isNone := rfl
    rw [removeFile, removeFileParams, exc_bind_ok, removeFileGo, hasFile,
      if_pos hc, exc_bind_error]
  · rw [removeFile, removeFileParams, exc_bind_ok, removeFileGo, hasFile,
      if_neg (by simp)]
    have hdec : decide (fname ∈ sys.cat.files) = false := by
      exact decide_eq_false hnm
    simp only [hdec, exc_bind_ok]
    rw [if_neg (by simp)]
  · rcases removeFile_struct hok with
      ⟨label2, key, fn, d, hd, hks, hmem, hidx, hsys2⟩
    subst hsys2
    refine ⟨label2, key, fn, d, hd, hks, hmem, hidx, rfl, rfl, rfl, ?_, ?_⟩
    · intro hfn
      cases dflag with
      | false => rfl
      | true =>
        show sys.disk.filter (fun g => g ≠ fn) = sys.disk
        refine List.filter_eq_self.mpr ?_
        intro a ha
        exact decide_eq_true (fun he => hfn (he ▸ ha))
    · intro hdf
      subst hdf
      rfl

theorem claim_C6_witness :
    removeFile c6sys (some "zz.txt") (some "sample") none true =
      .error .valueError ∧
    removeFile c6sys none none none true = .error .valueError ∧
    removeFile c6sys (some "zz.txt") none none true =
      .error .fileNotFound ∧
    ∃ label2 key fn d,
      alookup label2 c6sys.cat.entries = some d ∧
      (alookup key d).isSome = true ∧
      fn ∈ c6sys.cat.files ∧
      c6sys.cat.files.indexOf fn < c6sys.cat.pairs.length ∧
      c6post.cat.files = c6sys.cat.files.eraseIdx
        (c6sys.cat.files.indexOf fn) ∧
      c6post.cat.pairs = c6sys.cat.pairs.eraseIdx
        (c6sys.cat.files.indexOf fn) ∧
      c6post.cat.entries = aset label2 (aerase key d) c6sys.cat.entries ∧
      (¬ fn ∈ c6sys.disk → c6post.disk = c6sys.disk) ∧
      (true = true → c6post.disk = c6sys.disk.filter (fun g => g ≠ fn)) :=
  claim_C6 c6sys "zz.txt" "sample" (some "a.txt") none none true true
    c6post (by decide) rfl

-- ======================================================================
-- C10: parameter values as stored by new_filename
-- ======================================================================

/-- C10, counterexample: the values recorded by new_filename are the str()
images of the schema-cast (configured) values, not of the values the
caller gave: a string "1" for a bool-typed parameter is stored as "True",
which differs from str("1"). -/
theorem claim_C10_counterexample :
    newFilename c10sys "sample" [("b", Value.vStr "1")] none "f.txt" none =
      .ok (some "f.txt", c10post) ∧
    alookup2 "sample" (encodeParams [("b", Value.vBool true)])
      c10post.cat.entries =
      some ⟨[("b", Value.vStr "True")], "f.txt", ""⟩ ∧
    c10post.cat.pairs = [("sample", [("b", Value.vStr "True")])] ∧
    Value.vStr "True" ≠ Value.vStr (pyStr (Value.vStr "1")) :=
  ⟨rfl, rfl, rfl, by decide⟩

/-- C10, amended: every successful new_filename call stores, both in the
by-label map entry and in the appended pairs element, exactly the
stringified (str per value) image of the configured parameters. -/
theorem claim_C10 {sys : Sys} {label : String} {params : Params}
    {ext : Option String} {fname : String} {wb : Option WarnB}
    {p : String} {sys2 : Sys}
    (hok : newFilename sys label params ext fname wb = .ok (some p, sys2)) :
    ∃ q, newFilenameConfig sys.cat params = .ok q ∧
      ∃ sysm : Sys,
        sys2.cat.pairs = sysm.cat.pairs ++ [(label, stringifyParams q)] ∧
        alookup2 label (encodeParams q) sys2.cat.entries =
          some ⟨stringifyParams q, p, ""⟩ := by
  rcases newFilename_ok_elim hok with ⟨hp, q, sysm, hq, hdisj, hs⟩
  obtain ⟨hmem, hrest⟩ := newFilename_post_frame (hdisj.imp And.left id)
  subst hs
  subst hp
  exact ⟨q, hq, sysm, rfl, alookup2_aset2_self hmem⟩

theorem claim_C10_witness :
    ∃ q, newFilenameConfig c10sys.cat [("b", Value.vStr "1")] = .ok q ∧
      ∃ sysm : Sys,
        c10post.cat.pairs = sysm.cat.pairs ++
          [("sample", stringifyParams q)] ∧
        alookup2 "sample" (encodeParams q) c10post.cat.entries =
          some ⟨stringifyParams q, "f.txt", ""⟩ :=
  @claim_C10 c10sys "sample" [("b", Value.vStr "1")] none "f.txt" none
    "f.txt" c10post rfl

-- ======================================================================
-- C7: transmute_parameter with a new name and no new type
-- ======================================================================

/-- C7: on the migration scenario of the claim (schema with an int-typed
"n", three indexed entries with n in 1, 2, 3), the transmute_parameter
call of the claim, which gives a new name but no new parameter type,
crashes: add_parameter_default feeds the absent type (None) to
get_builtin, which raises KeyError before any entry is rewritten; the
promised migrated state is never reached. -/
theorem claim_C7 :
    c7sys.cat.files = ["f1.txt", "f2.txt", "f3.txt"] ∧
    getFilename c7sys.cat "sample" [("n", Value.vInt 2)] = .ok "f2.txt" ∧
    transmuteParameter c7sys "n"
      (NewSpec.one "count" none (some c7transform) none) none =
      .error .keyError :=
  ⟨rfl, rfl, rfl⟩

-- ======================================================================
-- C4: the save/load round trip
-- ======================================================================

theorem alookup_append_left {α : Type} {k : String} {xs ys : List (String × α)}
    {v : α} (h : alookup k xs = some v) : alookup k (xs ++ ys) = some v := by
  induction xs with
  | nil => exact Option.noConfusion h
  | cons kv rest ih =>
    rw [alookup] at h
    rw [List.cons_append, alookup]
    by_cases he : kv.1 = k
    · rw [if_pos he] at h ⊢
      exact h
    · rw [if_neg he] at h ⊢
      exact ih h

theorem alookup_append_right2 {α : Type} {k : String}
    {xs ys : List (String × α)}
    (h : ∀ kv ∈ xs, kv.1 ≠ k) : alookup k (xs ++ ys) = alookup k ys := by
  induction xs with
  | nil => rfl
  | cons kv rest ih =>
    rw [List.cons_append, alookup, if_neg (h kv (List.mem_cons_self _ _))]
    exact ih (fun kv2 hm => h kv2 (List.mem_cons_of_mem _ hm))

theorem yToValue_round (v : Value) : yToValue (valueToY v) = some v := by
  cases v <;> rfl

theorem yToParams_round (p : Params) : yToParams (paramsToY p) = some p := by
  rw [paramsToY, yToParams]
  induction p with
  | nil => rfl
  | cons kv rest ih =>
    rw [List.map_cons, List.mapM_cons, yToValue_round]
    simp only [Option.map_some, Option.bind_eq_bind, Option.some_bind]
    rw [ih]
    rfl

theorem strList_round (xs : List String) :
    yToStrList (.list (xs.map .s)) = .ok xs := by
  rw [yToStrList]
  induction xs with
  | nil => rfl
  | cons x rest ih =>
    rw [List.map_cons, List.mapM_cons]
    simp only [exc_pure, exc_bind_ok]
    rw [ih]
    rfl

theorem loadRN_round {kvs : List (String × Y)} {xs : List String}
    (h : alookup "recognized names" kvs = some (.list (xs.map .s))) :
    loadRN kvs = .ok xs := by
  rw [loadRN]
  simp only [h]
  exact strList_round xs

theorem loadRE_round {kvs : List (String × Y)} {xs : List String}
    (h : alookup "recognized extensions" kvs = some (.list (xs.map .s))) :
    loadRE kvs = .ok xs := by
  rw [loadRE]
  simp only [h]
  exact strList_round xs

theorem filesMapM_round (xs : List String) :
    ((xs.map Y.s).mapM fun y =>
      match y with
      | Y.s v => Except.ok v
      | _ => (Except.error CatErr.typeError : Except CatErr String)) =
      .ok xs := by
  induction xs with
  | nil => rfl
  | cons x rest ih =>
    rw [List.map_cons, List.mapM_cons]
    simp only [exc_pure, exc_bind_ok]
    rw [ih]
    rfl

theorem loadFiles_round {kvs : List (String × Y)} {xs : List String}
    (h : alookup "files" kvs = some (.list (xs.map .s))) :
    loadFiles kvs = .ok xs := by
  rw [loadFiles]
  simp only [h]
  exact filesMapM_round xs

theorem yToPair_round (lp : String × Params) :
    yToPair (Y.list [.s lp.1, paramsToY lp.2]) = .ok lp := by
  rw [yToPair]
  simp only [yToParams_round]

theorem pairsMapM_round (ps : List (String × Params)) :
    ((ps.map fun lp => Y.list [.s lp.1, paramsToY lp.2]).mapM yToPair) =
      .ok ps := by
  induction ps with
  | nil => rfl
  | cons lp rest ih =>
    rw [List.map_cons, List.mapM_cons, yToPair_round]
    simp only [exc_pure, exc_bind_ok]
    rw [ih]
    rfl

theorem loadPairs_round {kvs : List (String × Y)} {ps : List (String × Params)}
    (h : alookup "(data_label, parameter) pairs" kvs =
      some (.list (ps.map fun lp => Y.list [.s lp.1, paramsToY lp.2]))) :
    loadPairs kvs = .ok ps := by
  rw [loadPairs]
  simp only [h]
  exact pairsMapM_round ps

theorem parsePType_round (t : PType) : parsePType (ptypeStr t) = some t := by
  cases t <;> rfl

theorem loadPT_round_none {kvs : List (String × Y)}
    (h : alookup "parameter types" kvs = some .null) :
    loadPT kvs = .ok none := by
  rw [loadPT]
  simp only [h]

theorem schMapM_round (sch : List (String × PType)) :
    ((sch.map fun kv => (kv.1, Y.s (ptypeStr kv.2))).mapM
      (fun (kv : String × Y) =>
        match kv.2 with
        | .s tyname =>
          match parsePType tyname with
          | some ty => Except.ok (kv.1, ty)
          | none => Except.error CatErr.keyError
        | _ => (Except.error CatErr.keyError : Except CatErr (String × PType)))
      ) = .ok sch := by
  induction sch with
  | nil => rfl
  | cons kv rest ih =>
    rw [List.map_cons, List.mapM_cons]
    have h1 : (match Y.s (ptypeStr kv.2) with
        | Y.s tyname =>
          match parsePType tyname with
          | some ty => Except.ok (kv.1, ty)
          | none => Except.error CatErr.keyError
        | _ => (Except.error CatErr.keyError :
            Except CatErr (String × PType))) = Except.ok (kv.1, kv.2) := by
      show (match parsePType (ptypeStr kv.2) with
        | some ty => Except.ok (kv.1, ty)
        | none => Except.error CatErr.keyError) = Except.ok (kv.1, kv.2)
      rw [parsePType_round]
    rw [h1]
    simp only [exc_pure, exc_bind_ok]
    rw [ih]
    rfl

theorem loadPT_round_some {kvs : List (String × Y)}
    {sch : List (String × PType)}
    (h : alookup "parameter types" kvs =
      some (.map (sch.map fun kv => (kv.1, Y.s (ptypeStr kv.2))))) :
    loadPT kvs = .ok (some sch) := by
  rw [loadPT]
  simp only [h]
  rw [schMapM_round, exc_map_ok]

theorem loadDP_round {kvs : List (String × Y)} {p : Params}
    (h : alookup "default parameters" kvs = some (paramsToY p)) :
    loadDP kvs = .ok p := by
  rw [loadDP]
  simp only [h, yToParams_round]

theorem entryMapM_round (p : Params) :
    (p.map (fun kv => (kv.1, valueToY kv.2))).mapM
      (fun (kv : String × Y) => (yToValue kv.2).map fun v => (kv.1, v)) =
      some p := by
  induction p with
  | nil => rfl
  | cons kv rest ih =>
    rw [List.map_cons, List.mapM_cons]
    simp only [yToValue_round, Option.map_some, Option.bind_eq_bind,
      Option.some_bind]
    rw [ih]
    rfl

theorem yToEntry_round (e : Entry)
    (hp : ∀ kv ∈ e.params, kv.1 ≠ "filename" ∧ kv.1 ≠ "date added") :
    yToEntry (entryToY e) = some e := by
  rw [entryToY, yToEntry]
  have h1 : alookup "filename"
      ((e.params.map fun kv => (kv.1, valueToY kv.2))
        ++ [("filename", Y.s e.filename), ("date added", Y.s e.dateAdded)]) =
      some (Y.s e.filename) := by
    rw [alookup_append_right2]
    · rw [alookup, if_pos rfl]
    · intro kv hm
      rcases List.mem_map.mp hm with ⟨kv0, hm0, hkv⟩
      rw [← hkv]
      exact (hp kv0 hm0).1
  have h2 : alookup "date added"
      ((e.params.map fun kv => (kv.1, valueToY kv.2))
        ++ [("filename", Y.s e.filename), ("date added", Y.s e.dateAdded)]) =
      some (Y.s e.dateAdded) := by
    rw [alookup_append_right2]
    · rw [alookup,
        if_neg (show ¬ ("filename" : String) = "date added" by decide),
        alookup, if_pos rfl]
    · intro kv hm
      rcases List.mem_map.mp hm with ⟨kv0, hm0, hkv⟩
      rw [← hkv]
      exact (hp kv0 hm0).2
  simp only [h1, h2, Option.bind_eq_bind, Option.some_bind]
  have hf : List.filter
      (fun kv => decide (kv.1 ≠ "filename" ∧ kv.1 ≠ "date added"))
      ((e.params.map fun kv => (kv.1, valueToY kv.2))
        ++ [("filename", Y.s e.filename), ("date added", Y.s e.dateAdded)]) =
      e.params.map fun kv => (kv.1, valueToY kv.2) := by
    rw [List.filter_append]
    have hz : List.filter
        (fun kv => decide (kv.1 ≠ "filename" ∧ kv.1 ≠ "date added"))
        [(("filename" : String), Y.s e.filename),
         ("date added", Y.s e.dateAdded)] = [] := rfl
    rw [hz, List.append_nil]
    refine List.filter_eq_self.mpr ?_
    intro kv hm
    rcases List.mem_map.mp hm with ⟨kv0, hm0, hkv⟩
    refine decide_eq_true ?_
    rw [← hkv]
    exact hp kv0 hm0
  rw [hf, entryMapM_round]
  rfl

theorem labelDictMapM_round : ∀ (d : List (String × Entry)),
    (∀ ke ∈ d, ∀ kv ∈ ke.2.params,
      kv.1 ≠ "filename" ∧ kv.1 ≠ "date added") →
    yToLabelDict (d.map fun ke => (ke.1, entryToY ke.2)) = .ok d := by
  intro d
  induction d with
  | nil => intro _; rfl
  | cons ke rest ih =>
    intro hp
    rw [yToLabelDict, List.map_cons, List.mapM_cons]
    have h1 : (match yToEntry (ke.1, entryToY ke.2).2 with
        | some e => Except.ok ((ke.1, entryToY ke.2).1, e)
        | none => (Except.error CatErr.typeError :
            Except CatErr (String × Entry))) = Except.ok (ke.1, ke.2) := by
      have h2 : yToEntry (ke.1, entryToY ke.2).2 = some ke.2 :=
        yToEntry_round ke.2 (hp ke (List.mem_cons_self _ _))
      rw [h2]
    rw [h1]
    simp only [exc_pure, exc_bind_ok]
    have h3 := ih (fun ke2 hm => hp ke2 (List.mem_cons_of_mem _ hm))
    rw [yToLabelDict] at h3
    rw [h3]
    rfl

theorem labelsMapM_round : ∀ (es : List (String × List (String × Entry))),
    (∀ le ∈ es, ∀ ke ∈ le.2, ∀ kv ∈ ke.2.params,
      kv.1 ≠ "filename" ∧ kv.1 ≠ "date added") →
    ((es.map fun le =>
        (le.1, Y.map (le.2.map fun ke => (ke.1, entryToY ke.2)))).mapM
      (fun (kv : String × Y) =>
        match kv.2 with
        | .map d2 => (yToLabelDict d2).map fun ld => (kv.1, ld)
        | _ => (Except.error CatErr.typeError :
            Except CatErr (String × List (String × Entry))))) = .ok es := by
  intro es
  induction es with
  | nil => intro _; rfl
  | cons le rest ih =>
    intro hp
    rw [List.map_cons, List.mapM_cons]
    have h1 : (match (le.1,
          Y.map (le.2.map fun ke => (ke.1, entryToY ke.2))).2 with
        | Y.map d2 => (yToLabelDict d2).map fun ld =>
            ((le.1, Y.map (le.2.map fun ke => (ke.1, entryToY ke.2))).1, ld)
        | _ => (Except.error CatErr.typeError :
            Except CatErr (String × List (String × Entry)))) =
        Except.ok (le.1, le.2) := by
      show (yToLabelDict (le.2.map fun ke => (ke.1, entryToY ke.2))).map
        (fun ld => (le.1, ld)) = Except.ok (le.1, le.2)
      rw [labelDictMapM_round le.2 (hp le (List.mem_cons_self _ _)),
        exc_map_ok]
    rw [h1]
    simp only [exc_pure, exc_bind_ok]
    rw [ih (fun le2 hm => hp le2 (List.mem_cons_of_mem _ hm))]
    rfl

/-- C4: loading the saved document of a catalog whose data labels avoid
the reserved metadata keys and whose stored parameter names avoid the
"filename" / "date added" entry fields reproduces the persisted view
exactly: same recognized sets, same by-label map, same files list, same
pairs list, same schema and same defaults. -/
theorem claim_C4 (c : Catalog)
    (hlab : ∀ le ∈ c.entries, ¬ le.1 ∈ reservedKeys)
    (hpar : ∀ le ∈ c.entries, ∀ ke ∈ le.2, ∀ kv ∈ ke.2.params,
      kv.1 ≠ "filename" ∧ kv.1 ≠ "date added") :
    loadDoc (saveDoc c) = .ok (persistedView c) := by
  have hAB : ∀ (k : String), k ∈ reservedKeys → k ≠ "recognized names" →
      k ≠ "recognized extensions" → k ≠ "description" →
      ∀ kv ∈ ([("recognized names", Y.list (c.recognizedNames.map Y.s)),
          ("recognized extensions", Y.list (c.recognizedExtensions.map Y.s)),
          ("description", Y.s c.description)] : List (String × Y)) ++
        c.entries.map (fun le =>
          (le.1, Y.map (le.2.map fun ke => (ke.1, entryToY ke.2)))),
      kv.1 ≠ k := by
    intro k hk h1 h2 h3 kv hm
    rcases List.mem_append.mp hm with hm | hm
    · simp only [List.mem_cons, List.not_mem_nil, or_false] at hm
      rcases hm with rfl | rfl | rfl
      · exact fun he => h1 he.symm
      · exact fun he => h2 he.symm
      · exact fun he => h3 he.symm
    · rcases List.mem_map.mp hm with ⟨le, hle, hkv⟩
      rw [← hkv]
      intro he
      exact hlab le hle (he ▸ hk)
  have h1 : loadRN (saveKvs c) = .ok c.recognizedNames := loadRN_round rfl
  have h2 : loadRE (saveKvs c) = .ok c.recognizedExtensions :=
    loadRE_round rfl
  have h3 : loadFiles (saveKvs c) = .ok c.files := by
    refine loadFiles_round ?_
    rw [saveKvs, alookup_append_right2
      (hAB "files" (by decide) (by decide) (by decide) (by decide))]
    rfl
  have h4 : loadPairs (saveKvs c) = .ok c.pairs := by
    refine loadPairs_round ?_
    rw [saveKvs, alookup_append_right2
      (hAB "(data_label, parameter) pairs" (by decide) (by decide)
        (by decide) (by decide))]
    rfl
  have h5 : loadPT (saveKvs c) = .ok c.parameterTypes := by
    have halo : alookup "parameter types" (saveKvs c) =
        some (match c.parameterTypes with
          | none => Y.null
          | some sch =>
            Y.map (sch.map fun kv => (kv.1, Y.s (ptypeStr kv.2)))) := by
      rw [saveKvs, alookup_append_right2
        (hAB "parameter types" (by decide) (by decide) (by decide)
          (by decide))]
      rfl
    cases hpt : c.parameterTypes with
    | none =>
      rw [hpt] at halo
      exact loadPT_round_none halo
    | some sch =>
      rw [hpt] at halo
      exact loadPT_round_some halo
  have h6 : loadDP (saveKvs c) = .ok c.defaultParameters := by
    refine loadDP_round ?_
    rw [saveKvs, alookup_append_right2
      (hAB "default parameters" (by decide) (by decide) (by decide)
        (by decide))]
    rfl
  have h7 : loadLabels (saveKvs c) = .ok c.entries := by
    rw [loadLabels]
    have hfB : List.filter labelCond (c.entries.map (fun le =>
        (le.1, Y.map (le.2.map fun ke => (ke.1, entryToY ke.2))))) =
        c.entries.map (fun le =>
          (le.1, Y.map (le.2.map fun ke => (ke.1, entryToY ke.2)))) := by
      refine List.filter_eq_self.mpr ?_
      intro kv hm
      rcases List.mem_map.mp hm with ⟨le, hle, hkv⟩
      rw [← hkv, labelCond, if_neg (hlab le hle)]
      rfl
    have hfilter : (saveKvs c).filter labelCond = c.entries.map (fun le =>
        (le.1, Y.map (le.2.map fun ke => (ke.1, entryToY ke.2)))) := by
      rw [saveKvs, List.filter_append, List.filter_append, hfB]
      show ([] ++ c.entries.map (fun le =>
        (le.1, Y.map (le.2.map fun ke => (ke.1, entryToY ke.2))))) ++ [] =
        c.entries.map (fun le =>
          (le.1, Y.map (le.2.map fun ke => (ke.1, entryToY ke.2))))
      simp
    rw [hfilter]
    exact labelsMapM_round c.entries hpar
  rw [saveDoc, loadDoc, h1, exc_bind_ok, h2, exc_bind_ok, h3, exc_bind_ok,
    h4, exc_bind_ok, h5, exc_bind_ok, h6, exc_bind_ok, h7, exc_map_ok]
  rfl

theorem claim_C4_witness :
    loadDoc (saveDoc c4cat) = .ok (persistedView c4cat) :=
  claim_C4 c4cat (by decide) (by decide)

-- ======================================================================
-- C8: characterization of closest_params
-- ======================================================================

theorem le_aggMax (q : Params) : ∀ (lps : List (String × Params)) (m : Nat),
    m ≤ aggMax q m lps := by
  intro lps
  induction lps with
  | nil => intro m; exact Nat.le_refl m
  | cons lp rest ih =>
    intro m
    exact Nat.le_trans (Nat.le_max_left m (agreementN q lp.2)) (ih _)

theorem aggMax_cons (q : Params) (lp : String × Params)
    (rest : List (String × Params)) (m : Nat) :
    aggMax q m (lp :: rest) = aggMax q (max m (agreementN q lp.2)) rest :=
  rfl

theorem specBest_cons (q : Params) (lp : String × Params)
    (rest : List (String × Params)) (m : Nat) :
    specBest q (lp :: rest) m =
      if agreementN q lp.2 = m then lp :: specBest q rest m
      else specBest q rest m := by
  by_cases h : agreementN q lp.2 = m
  · rw [if_pos h, specBest, specBest, List.filter_cons_of_pos]
    exact decide_eq_true h
  · rw [if_neg h, specBest, specBest, List.filter_cons_of_neg]
    simp only [decide_eq_true_eq]
    exact h

theorem scanP_char (q : Params) : ∀ (lps : List (String × Params))
    (m : Nat) (L : List String) (P : List Params),
    closestScanP q lps (m, L, P) =
      (aggMax q m lps,
       (if aggMax q m lps = m then L else []) ++
         (specBest q lps (aggMax q m lps)).map Prod.fst,
       (if aggMax q m lps = m then P else []) ++
         (specBest q lps (aggMax q m lps)).map Prod.snd) := by
  intro lps
  induction lps with
  | nil =>
    intro m L P
    rw [closestScanP]
    show (m, L, P) = (m, (if m = m then L else []) ++ [],
      (if m = m then P else []) ++ [])
    rw [if_pos rfl]
    simp
  | cons lp rest ih =>
    intro m L P
    rw [closestScanP]
    rcases Nat.lt_trichotomy m (agreementN q lp.2) with hlt | heq | hgt
    · rw [if_pos hlt, ih (agreementN q lp.2) [lp.1] [lp.2]]
      rw [aggMax_cons,
        show max m (agreementN q lp.2) = agreementN q lp.2 by omega]
      have hM := le_aggMax q rest (agreementN q lp.2)
      have hMm : ¬ aggMax q (agreementN q lp.2) rest = m := by omega
      rw [specBest_cons, if_neg hMm, if_neg hMm]
      by_cases haM : agreementN q lp.2 = aggMax q (agreementN q lp.2) rest
      · rw [if_pos haM, if_pos haM.symm, if_pos haM.symm]
        simp
      · rw [if_neg haM, if_neg (fun h => haM h.symm),
          if_neg (fun h => haM h.symm)]
    · rw [if_neg (show ¬ agreementN q lp.2 > m by omega),
        if_pos (show agreementN q lp.2 = m by omega),
        ih m (L ++ [lp.1]) (P ++ [lp.2])]
      rw [aggMax_cons, show max m (agreementN q lp.2) = m by omega]
      rw [specBest_cons]
      have hM := le_aggMax q rest m
      by_cases hMm : aggMax q m rest = m
      · rw [hMm]
        simp [show agreementN q lp.2 = m by omega]
    
      · simp [hMm, show ¬ agreementN q lp.2 = aggMax q m rest by omega]
    · rw [if_neg (show ¬ agreementN q lp.2 > m by omega),
        if_neg (show ¬ agreementN q lp.2 = m by omega),
        ih m L P]
      rw [aggMax_cons, show max m (agreementN q lp.2) = m by omega]
      have hM := le_aggMax q rest m
      rw [specBest_cons,
        if_neg (show ¬ agreementN q lp.2 = aggMax q m rest by omega)]

theorem closestScan_elim {c : Catalog} {q : Params} :
    ∀ (fs : List String) (acc r : Nat × List String × List Params),
    closestScan c q fs acc = .ok r →
    ∃ lps, scanned c fs = some lps ∧ r = closestScanP q lps acc := by
  intro fs
  induction fs with
  | nil =>
    intro acc r h
    exact ⟨[], rfl, (Except.ok.inj h).symm⟩
  | cons f rest ih =>
    intro acc r h
    rw [closestScan] at h
    rcases exc_bind_ok_elim h with ⟨lp, hlp, h⟩
    rcases ih _ _ h with ⟨lps, hsc, hr⟩
    refine ⟨lp :: lps, ?_, ?_⟩
    · rw [scanned]
      simp only [hlp]
      rw [hsc]
      rfl
    · rw [closestScanP]
      exact hr

theorem closestAssertLoop_elim {c : Catalog} {q : Params} {maxA : Int} :
    ∀ (l : List (String × Params)) (u : Unit),
    closestAssertLoop c q maxA l = .ok u →
    ∀ lp ∈ l, sameItems q lp.2 = true →
      hasFile c none (some lp.1) (some q) = .ok true ∧ maxA = -1 := by
  intro l
  induction l with
  | nil =>
    intro u h lp hm
    exact absurd hm (List.not_mem_nil lp)
  | cons lt rest ih =>
    intro u h lp hm hs
    obtain ⟨label, test⟩ := lt
    rw [closestAssertLoop] at h
    by_cases hsi : sameItems q test = true
    · rw [if_pos hsi] at h
      rcases exc_bind_ok_elim h with ⟨can, hcan, h⟩
      by_cases hcond : can = true ∧ maxA = -1
      · rw [if_pos hcond] at h
        rcases List.mem_cons.mp hm with heq | hm2
        · subst heq
          exact ⟨hcond.1 ▸ hcan, hcond.2⟩
        · exact ih u h lp hm2 hs
      · rw [if_neg hcond] at h
        exact Except.noConfusion h
    · rw [if_neg hsi] at h
      rcases List.mem_cons.mp hm with heq | hm2
      · subst heq
        exact absurd hs hsi
      · exact ih u h lp hm2 hs

/-- C8: whenever closest_params returns, its outputs are exactly the
specification-side description: the best agreement (count of shared
(name, value) items) over the scanned entries, with the labels and
parameter sets of every entry attaining it in scan order, the -1
perfect-match sentinel replacing the count exactly when the best entry
agrees on every item of the configured query, and every returned
perfect match passed the fatal exact-lookup assert (has_file True under
the sentinel). -/
theorem claim_C8 {c : Catalog} {params : Params} {flt : Option FileFilter}
    {m : Int} {ls : List String} {pss : List Params}
    (h : closestParams c params flt = .ok (m, ls, pss)) :
    ∃ q fs lps,
      (if c.configureDefault then configureParams c params
        else .ok params) = .ok q ∧
      getFiles c flt = .ok fs ∧
      scanned c fs = some lps ∧
      m = (if specMaxAgreement q lps = q.length then (-1 : Int)
        else (specMaxAgreement q lps : Int)) ∧
      ls = (specBest q lps (specMaxAgreement q lps)).map Prod.fst ∧
      pss = (specBest q lps (specMaxAgreement q lps)).map Prod.snd ∧
      (∀ lp ∈ ls.zip pss, sameItems q lp.2 = true →
        hasFile c none (some lp.1) (some q) = .ok true ∧ m = -1) := by
  rw [closestParams] at h
  rcases exc_bind_ok_elim h with ⟨q, hq, h⟩
  rcases exc_bind_ok_elim h with ⟨fs, hfs, h⟩
  rcases exc_bind_ok_elim h with ⟨r, hr, h⟩
  rcases exc_bind_ok_elim h with ⟨u, ha, h⟩
  have h3 := Except.ok.inj h
  rcases closestScan_elim fs (0, [], []) r hr with ⟨lps, hsc, hrp⟩
  rw [scanP_char q lps 0 [] []] at hrp
  simp only [ite_self, List.nil_append] at hrp
  have hagg : specMaxAgreement q lps = aggMax q 0 lps := rfl
  subst hrp
  dsimp only at h3 ha
  rw [Prod.mk.injEq, Prod.mk.injEq] at h3
  obtain ⟨hm, hls, hpss⟩ := h3
  refine ⟨q, fs, lps, hq, hfs, hsc, ?_, ?_, ?_, ?_⟩
  · rw [hagg, hm]
  · rw [hagg, hls]
  · rw [hagg, hpss]
  · intro lp hm2 hs
    have ha2 := closestAssertLoop_elim _ u ha lp ?_ hs
    · exact ⟨ha2.1, hm ▸ ha2.2⟩
    · rw [← hls, ← hpss] at hm2
      exact hm2

theorem claim_C8_witness :
    ∃ q fs lps,
      (if c8cat.configureDefault then
        configureParams c8cat [("n", Value.vInt 2)]
        else .ok [("n", Value.vInt 2)]) = .ok q ∧
      getFiles c8cat none = .ok fs ∧
      scanned c8cat fs = some lps ∧
      (-1 : Int) = (if specMaxAgreement q lps = q.length then (-1 : Int)
        else (specMaxAgreement q lps : Int)) ∧
      ["sample"] = (specBest q lps (specMaxAgreement q lps)).map Prod.fst ∧
      [[("n", Value.vInt 2)]] =
        (specBest q lps (specMaxAgreement q lps)).map Prod.snd ∧
      (∀ lp ∈ (["sample"] : List String).zip
          ([[("n", Value.vInt 2)]] : List Params),
        sameItems q lp.2 = true →
        hasFile c8cat none (some lp.1) (some q) = .ok true ∧
          (-1 : Int) = -1) :=
  @claim_C8 c8cat [("n", Value.vInt 2)] none (-1) ["sample"]
    [[("n", Value.vInt 2)]] rfl

-- ======================================================================
-- C2: preservation of the three-view invariant
-- ======================================================================

theorem nodup_set {α : Type} {l : List α} (h : l.Nodup) {i : Nat} {a : α}
    (ha : ∀ j, j ≠ i → l[j]? ≠ some a) : (l.set i a).Nodup := by
  rw [List.nodup_iff_getElem?_ne_getElem?] at h ⊢
  intro x y hxy hy
  rw [List.length_set] at hy
  by_cases hxi : x = i
  · subst hxi
    rw [List.getElem?_set_self (by omega),
      List.getElem?_set_ne (show x ≠ y by omega)]
    intro he
    exact ha y (by omega) he.symm
  · rw [List.getElem?_set_ne (show i ≠ x from fun hh => hxi hh.symm)]
    by_cases hyi : y = i
    · subst hyi
      rw [List.getElem?_set_self (by omega)]
      intro he
      exact ha x hxi he
    · rw [List.getElem?_set_ne (show i ≠ y from fun hh => hyi hh.symm)]
      exact h x y hxy hy

theorem eraseIdx_shift {α : Type} {l : List α} {i i2 : Nat} {a : α}
    (h : l[i2]? = some a) (hne : i2 ≠ i) :
    (l.eraseIdx i)[if i2 < i then i2 else i2 - 1]? = some a := by
  by_cases hlt : i2 < i
  · rw [if_pos hlt, List.getElem?_eraseIdx, if_pos hlt]
    exact h
  · rw [if_neg hlt, List.getElem?_eraseIdx, if_neg (by omega)]
    rw [show i2 - 1 + 1 = i2 by omega]
    exact h

theorem mem_aset_elim {α : Type} {x : String × α} {k : String} {v : α} :
    ∀ {d : List (String × α)}, x ∈ aset k v d → x = (k, v) ∨ x ∈ d := by
  intro d
  induction d with
  | nil =>
    intro h
    rw [aset] at h
    rcases List.mem_cons.mp h with h | h
    · exact Or.inl h
    · exact absurd h (List.not_mem_nil x)
  | cons kv rest ih =>
    intro h
    rw [aset] at h
    by_cases he : kv.1 = k
    · rw [if_pos he] at h
      rcases List.mem_cons.mp h with h | h
      · exact Or.inl h
      · exact Or.inr (List.mem_cons_of_mem _ h)
    · rw [if_neg he] at h
      rcases List.mem_cons.mp h with h | h
      · exact Or.inr (h ▸ List.mem_cons_self _ _)
      · rcases ih h with h | h
        · exact Or.inl h
        · exact Or.inr (List.mem_cons_of_mem _ h)

theorem encodeParams_stringify (p : Params) :
    encodeParams (stringifyParams p) = encodeParams p := by
  rw [encodeParams, encodeParams, stringifyParams, List.map_map]
  have hmap : ((fun kv => (kv.1, pyStr kv.2)) ∘
      fun kv => (kv.1, Value.vStr (pyStr kv.2))) =
      (fun (kv : String × Value) => (kv.1, pyStr kv.2)) := by
    funext kv
    rfl
  rw [hmap]

theorem getElem?_some_lt {α : Type} {l : List α} {i : Nat} {a : α}
    (h : l[i]? = some a) : i < l.length :=
  (List.getElem?_eq_some.mp h).1

theorem keys_distinct {c : Catalog} (hwf : WF c) {i j : Nat}
    {lpi lpj : String × Params}
    (hi : c.pairs[i]? = some lpi) (hj : c.pairs[j]? = some lpj)
    (hne : i ≠ j) :
    (lpi.1, encodeParams lpi.2) ≠ (lpj.1, encodeParams lpj.2) := by
  have hk := hwf.keysNodup
  rw [List.nodup_iff_getElem?_ne_getElem?] at hk
  intro he
  rcases Nat.lt_or_ge i j with hij | hij
  · refine hk i j hij (by rw [List.length_map]; exact getElem?_some_lt hj) ?_
    rw [List.getElem?_map, List.getElem?_map, hi, hj]
    show some (lpi.1, encodeParams lpi.2) = some (lpj.1, encodeParams lpj.2)
    rw [he]
  · refine hk j i (by omega)
      (by rw [List.length_map]; exact getElem?_some_lt hi) ?_
    rw [List.getElem?_map, List.getElem?_map, hi, hj]
    show some (lpj.1, encodeParams lpj.2) = some (lpi.1, encodeParams lpi.2)
    rw [he]

theorem alookup_append_none {α : Type} {k : String}
    {xs : List (String × α)} (ys : List (String × α))
    (h : alookup k xs = none) : alookup k (xs ++ ys) = alookup k ys := by
  induction xs with
  | nil => rfl
  | cons kv rest ih =>
    rw [alookup] at h
    rw [List.cons_append, alookup]
    by_cases he : kv.1 = k
    · rw [if_pos he] at h
      exact Option.noConfusion h
    · rw [if_neg he] at h ⊢
      exact ih h

theorem wf_ensureLabel {c : Catalog} (hwf : WF c) (label : String) :
    WF (ensureLabel label c) := by
  rw [ensureLabel]
  cases halo : alookup label c.entries with
  | some d => exact hwf
  | none =>
    show WF { c with entries := c.entries ++ [(label, [])] }
    have hnm : ¬ label ∈ akeys c.entries :=
      (alookup_eq_none_iff label c.entries).mp halo
    refine ⟨hwf.lenEq, hwf.filesNodup, hwf.keysNodup, ?_, ?_, ?_, ?_⟩
    · show (akeys (c.entries ++ [(label, [])])).Nodup
      rw [akeys, List.map_append]
      rw [List.nodup_append]
      refine ⟨hwf.labelsNodup, List.nodup_singleton label, ?_⟩
      intro x hx hx2
      have hxl : x = label := List.mem_singleton.mp hx2
      subst hxl
      exact hnm hx
    · intro le hle
      rcases List.mem_append.mp hle with h | h
      · exact hwf.innerNodup le h
      · rw [List.mem_singleton.mp h]
        exact List.nodup_nil
    · intro i hi lp hlp
      rcases hwf.align i hi lp hlp with ⟨e, he, hf⟩
      refine ⟨e, ?_, hf⟩
      rw [alookup2] at he ⊢
      cases halo2 : alookup lp.1 c.entries with
      | none =>
        rw [halo2] at he
        exact Option.noConfusion he
      | some d2 =>
        rw [halo2] at he
        rw [alookup_append_left halo2]
        exact he
    · intro l2 k2 e2 h2
      rw [alookup2] at h2
      cases halo2 : alookup l2 c.entries with
      | none =>
        rw [alookup_append_none _ halo2] at h2
        rw [alookup] at h2
        by_cases hl : label = l2
        · rw [if_pos hl] at h2
          have h3 : alookup k2 ([] : List (String × Entry)) = some e2 := h2
          exact Option.noConfusion h3
        · rw [if_neg hl] at h2
          have h3 : (none : Option (List (String × Entry))).bind
            (alookup k2) = some e2 := h2
          exact Option.noConfusion h3
      | some d2 =>
        rw [alookup_append_left halo2] at h2
        refine hwf.complete l2 k2 e2 ?_
        rw [alookup2, halo2]
        exact h2

theorem wf_append {c : Catalog} (hwf : WF c) {label : String} {q : Params}
    {fname : String} {d : List (String × Entry)}
    (hd : alookup label c.entries = some d)
    (hfree : alookup2 label (encodeParams q) c.entries = none)
    (hfresh : ¬ fname ∈ c.files) :
    WF { c with
      entries := aset2 label (encodeParams q)
        ⟨stringifyParams q, fname, ""⟩ c.entries,
      files := c.files ++ [fname],
      pairs := c.pairs ++ [(label, stringifyParams q)] } := by
  have hfree2 : alookup (encodeParams q) d = none := by
    rw [alookup2, hd] at hfree
    exact hfree
  have hset : aset2 label (encodeParams q)
      (⟨stringifyParams q, fname, ""⟩ : Entry) c.entries =
      aset label (aset (encodeParams q) ⟨stringifyParams q, fname, ""⟩ d)
        c.entries := by
    rw [aset2, hd]
  rw [hset]
  have hkfree : ∀ (j : Nat) (lp2 : String × Params), c.pairs[j]? = some lp2 →
      (lp2.1, encodeParams lp2.2) ≠ (label, encodeParams q) := by
    intro j lp2 hj he
    rcases hwf.align j (getElem?_some_lt hj) lp2 hj with ⟨e2, he2, hf2⟩
    have h1 : lp2.1 = label := congrArg Prod.fst he
    have h2 : encodeParams lp2.2 = encodeParams q := congrArg Prod.snd he
    rw [h1, h2, hfree] at he2
    exact Option.noConfusion he2
  refine ⟨?_, ?_, ?_, ?_, ?_, ?_, ?_⟩
  · show (c.files ++ [fname]).length = (c.pairs ++ _).length
    rw [List.length_append, List.length_append, hwf.lenEq]
    rfl
  · rw [List.nodup_append]
    refine ⟨hwf.filesNodup, List.nodup_singleton fname, ?_⟩
    intro x hx hx2
    have hxf : x = fname := List.mem_singleton.mp hx2
    subst hxf
    exact hfresh hx
  · show ((c.pairs ++ [(label, stringifyParams q)]).map
      (fun lp => (lp.1, encodeParams lp.2))).Nodup
    rw [List.map_append, List.nodup_append]
    refine ⟨hwf.keysNodup, by simp, ?_⟩
    intro x hx hx2
    rcases List.mem_map.mp hx with ⟨lp2, hlpm, hfx⟩
    rcases List.mem_iff_getElem?.mp hlpm with ⟨j, hj⟩
    have hx2e : x = (label, encodeParams (stringifyParams q)) := by
      simpa using hx2
    rw [encodeParams_stringify] at hx2e
    exact hkfree j lp2 hj (by rw [hfx, hx2e])
  · show (akeys (aset label _ c.entries)).Nodup
    rw [akeys_aset_mem _ _ (mem_akeys_of_alookup hd)]
    exact hwf.labelsNodup
  · intro le hle
    rcases mem_aset_elim hle with h | h
    · rw [h]
      exact nodup_akeys_aset _
        (hwf.innerNodup (label, d) (mem_of_alookup_eq_some hd))
    · exact hwf.innerNodup le h
  · intro j hj lp2 hlp2
    have hj2 : j < c.pairs.length + 1 := by
      have := hj
      simp only [List.length_append, List.length_singleton] at this
      exact this
    by_cases hjl : j < c.pairs.length
    · rw [List.getElem?_append_left hjl] at hlp2
      rcases hwf.align j hjl lp2 hlp2 with ⟨e2, he2, hf2⟩
      refine ⟨e2, ?_, ?_⟩
      · rw [alookup2]
        by_cases hl : lp2.1 = label
        · rw [hl, alookup_aset_self]
          have hk2 : encodeParams lp2.2 ≠ encodeParams q := by
            intro hh
            exact hkfree j lp2 hlp2 (by rw [hl, hh])
          show alookup (encodeParams lp2.2)
            (aset (encodeParams q) _ d) = some e2
          rw [alookup_aset_ne _ _ hk2]
          rw [alookup2, hl, hd] at he2
          exact he2
        · rw [alookup_aset_ne _ _ hl]
          rw [alookup2] at he2
          exact he2
      · rw [List.getElem?_append_left (hwf.lenEq ▸ hjl)]
        exact hf2
    · have hj0 : j = c.pairs.length := by omega
      subst hj0
      rw [List.getElem?_concat_length] at hlp2
      have hlp2e := Option.some.inj hlp2
      subst hlp2e
      refine ⟨⟨stringifyParams q, fname, ""⟩, ?_, ?_⟩
      · show alookup2 label (encodeParams (stringifyParams q)) _ = _
        rw [encodeParams_stringify, alookup2, alookup_aset_self]
        show alookup (encodeParams q)
          (aset (encodeParams q) _ d) = some _
        rw [alookup_aset_self]
      · show (c.files ++ [fname])[c.pairs.length]? = some fname
        rw [← hwf.lenEq, List.getElem?_concat_length]
  · intro l2 k2 e2 h2
    rw [alookup2] at h2
    by_cases hl : l2 = label
    · rw [hl, alookup_aset_self] at h2
      have h3 : alookup k2
          (aset (encodeParams q) (⟨stringifyParams q, fname, ""⟩ : Entry) d) =
          some e2 := h2
      by_cases hk : k2 = encodeParams q
      · rw [hk, alookup_aset_self] at h3
        have he2 := Option.some.inj h3
        refine ⟨c.pairs.length, (label, stringifyParams q),
          List.getElem?_concat_length _ _, hl.symm, ?_, ?_⟩
        · rw [encodeParams_stringify, hk]
        · rw [← hwf.lenEq, List.getElem?_concat_length, ← he2]
      · rw [alookup_aset_ne _ _ hk] at h3
        rcases hwf.complete label k2 e2 (alookup2_intro hd h3) with
          ⟨i2, lp2, hlp2, ha2, hb2, hc2⟩
        refine ⟨i2, lp2, ?_, hl ▸ ha2, hb2, ?_⟩
        · rw [List.getElem?_append_left (getElem?_some_lt hlp2)]
          exact hlp2
        · rw [List.getElem?_append_left
            (hwf.lenEq ▸ getElem?_some_lt hlp2)]
          exact hc2
    · rw [alookup_aset_ne _ _ hl] at h2
      rcases hwf.complete l2 k2 e2 h2 with ⟨i2, lp2, hlp2, ha2, hb2, hc2⟩
      refine ⟨i2, lp2, ?_, ha2, hb2, ?_⟩
      · rw [List.getElem?_append_left (getElem?_some_lt hlp2)]
        exact hlp2
      · rw [List.getElem?_append_left (hwf.lenEq ▸ getElem?_some_lt hlp2)]
        exact hc2

theorem wf_erase {c : Catalog} (hwf : WF c) {i : Nat} {lp : String × Params}
    {d : List (String × Entry)}
    (hlp : c.pairs[i]? = some lp)
    (hd : alookup lp.1 c.entries = some d) :
    WF { c with
      files := c.files.eraseIdx i,
      pairs := c.pairs.eraseIdx i,
      entries := aset lp.1 (aerase (encodeParams lp.2) d) c.entries } := by
  have hi : i < c.pairs.length := getElem?_some_lt hlp
  have hdn : (akeys d).Nodup :=
    hwf.innerNodup (lp.1, d) (mem_of_alookup_eq_some hd)
  refine ⟨?_, ?_, ?_, ?_, ?_, ?_, ?_⟩
  · show (c.files.eraseIdx i).length = (c.pairs.eraseIdx i).length
    rw [List.length_eraseIdx_of_lt (hwf.lenEq ▸ hi),
      List.length_eraseIdx_of_lt hi, hwf.lenEq]
  · exact (List.eraseIdx_sublist _ _).nodup hwf.filesNodup
  · exact (((List.eraseIdx_sublist _ _).map _).nodup hwf.keysNodup)
  · show (akeys (aset lp.1 _ c.entries)).Nodup
    rw [akeys_aset_mem _ _ (mem_akeys_of_alookup hd)]
    exact hwf.labelsNodup
  · intro le hle
    rcases mem_aset_elim hle with h | h
    · rw [h]
      exact nodup_akeys_aerase _ hdn
    · exact hwf.innerNodup le h
  · intro j hj lp2 hlp2
    rw [List.getElem?_eraseIdx] at hlp2
    by_cases hji : j < i
    · rw [if_pos hji] at hlp2
      have hjne : j ≠ i := by omega
      rcases hwf.align j (getElem?_some_lt hlp2) lp2 hlp2 with ⟨e2, he2, hf2⟩
      refine ⟨e2, ?_, ?_⟩
      · rw [alookup2]
        by_cases hl : lp2.1 = lp.1
        · rw [hl, alookup_aset_self]
          have hk2 : encodeParams lp2.2 ≠ encodeParams lp.2 := by
            intro hh
            exact keys_distinct hwf hlp2 hlp hjne (by rw [hl, hh])
          show alookup (encodeParams lp2.2) (aerase _ d) = some e2
          rw [alookup_aerase_ne _ hk2]
          rw [alookup2, hl, hd] at he2
          exact he2
        · rw [alookup_aset_ne _ _ hl]
          rw [alookup2] at he2
          exact he2
      · rw [List.getElem?_eraseIdx, if_pos hji]
        exact hf2
    · rw [if_neg hji] at hlp2
      have hjne : j + 1 ≠ i := by omega
      rcases hwf.align (j + 1) (getElem?_some_lt hlp2) lp2 hlp2 with
        ⟨e2, he2, hf2⟩
      refine ⟨e2, ?_, ?_⟩
      · rw [alookup2]
        by_cases hl : lp2.1 = lp.1
        · rw [hl, alookup_aset_self]
          have hk2 : encodeParams lp2.2 ≠ encodeParams lp.2 := by
            intro hh
            exact keys_distinct hwf hlp2 hlp hjne (by rw [hl, hh])
          show alookup (encodeParams lp2.2) (aerase _ d) = some e2
          rw [alookup_aerase_ne _ hk2]
          rw [alookup2, hl, hd] at he2
          exact he2
        · rw [alookup_aset_ne _ _ hl]
          rw [alookup2] at he2
          exact he2
      · rw [List.getElem?_eraseIdx, if_neg hji]
        exact hf2
  · intro l2 k2 e2 h2
    rw [alookup2] at h2
    by_cases hl : l2 = lp.1
    · rw [hl, alookup_aset_self] at h2
      have h3 : alookup k2 (aerase (encodeParams lp.2) d) = some e2 := h2
      have hk2 : k2 ≠ encodeParams lp.2 := by
        intro hh
        rw [hh, alookup_aerase_self hdn] at h3
        exact Option.noConfusion h3
      rw [alookup_aerase_ne _ hk2] at h3
      rcases hwf.complete lp.1 k2 e2 (alookup2_intro hd h3) with
        ⟨i2, lp2, hlp2, ha2, hb2, hc2⟩
      have hne : i2 ≠ i := by
        intro hh
        subst hh
        rw [hlp2] at hlp
        have := Option.some.inj hlp
        rw [this] at ha2 hb2
        exact hk2 (by rw [← hb2])
      refine ⟨if i2 < i then i2 else i2 - 1, lp2,
        eraseIdx_shift hlp2 hne, hl ▸ ha2, hb2,
        eraseIdx_shift hc2 hne⟩
    · rw [alookup_aset_ne _ _ hl] at h2
      rcases hwf.complete l2 k2 e2 h2 with ⟨i2, lp2, hlp2, ha2, hb2, hc2⟩
      have hne : i2 ≠ i := by
        intro hh
        subst hh
        rw [hlp2] at hlp
        have := Option.some.inj hlp
        rw [this] at ha2
        exact hl ha2.symm
      exact ⟨if i2 < i then i2 else i2 - 1, lp2,
        eraseIdx_shift hlp2 hne, ha2, hb2, eraseIdx_shift hc2 hne⟩

theorem nodup_indexOf_eq {α : Type} [DecidableEq α] {l : List α}
    (h : l.Nodup) {i : Nat} {a : α} (hi : l[i]? = some a) :
    l.indexOf a = i := by
  have hmem : a ∈ l := List.getElem?_mem hi
  have h2 : l[l.indexOf a]? = some a := List.getElem?_indexOf hmem
  by_contra hne
  rw [List.nodup_iff_getElem?_ne_getElem?] at h
  rcases Nat.lt_or_ge (l.indexOf a) i with hlt | hge
  · exact h _ _ hlt (getElem?_some_lt hi) (h2.trans hi.symm)
  · exact h i (l.indexOf a) (by omega) (getElem?_some_lt h2)
      (hi.trans h2.symm)

theorem hasFile_some_true {c : Catalog} {fname : String}
    {l? : Option String} {p? : Option Params}
    (h : hasFile c (some fname) l? p? = .ok true) : fname ∈ c.files := by
  rw [hasFile] at h
  cases l? with
  | some l =>
    rw [if_pos (show (some fname).isNone = (some l).isNone from rfl)] at h
    exact Except.noConfusion h
  | none =>
    rw [if_neg (by simp)] at h
    have h2 : (.ok (decide (fname ∈ c.files)) : Except CatErr Bool) =
      .ok true := h
    exact of_decide_eq_true (Except.ok.inj h2)

theorem getDataLabelParams_ok_elim {c : Catalog} {fname : String}
    {lp0 : String × Params}
    (h : getDataLabelParams c fname = .ok lp0) :
    fname ∈ c.files ∧ ∃ pz, c.pairs[c.files.indexOf fname]? = some pz ∧
      lp0.1 = pz.1 ∧
      (if c.configureDefault then configureParams c pz.2
        else .ok pz.2) = .ok lp0.2 := by
  rw [getDataLabelParams] at h
  rcases exc_bind_ok_elim h with ⟨hf, hhf, h⟩
  cases hf with
  | false =>
    rw [if_neg (by simp)] at h
    exact Except.noConfusion h
  | true =>
    rw [if_pos rfl] at h
    refine ⟨hasFile_some_true hhf, ?_⟩
    cases hpz : c.pairs[c.files.indexOf fname]? with
    | none =>
      rw [hpz] at h
      exact Except.noConfusion h
    | some pz =>
      simp only [hpz] at h
      refine ⟨pz, rfl, ?_⟩
      cases hcf : (if c.configureDefault then configureParams c pz.2
          else .ok pz.2) with
      | error e =>
        rw [hcf, exc_map_error] at h
        exact Except.noConfusion h
      | ok p2 =>
        rw [hcf, exc_map_ok] at h
        have h2 := Except.ok.inj h
        rw [← h2]
        exact ⟨rfl, rfl⟩

theorem findKeyByFilename_elim {fname k : String} :
    ∀ {d : List (String × Entry)}, findKeyByFilename fname d = some k →
    ∃ e, (k, e) ∈ d ∧ e.filename = fname := by
  intro d
  induction d with
  | nil => exact fun h => Option.noConfusion h
  | cons ke rest ih =>
    intro h
    rw [findKeyByFilename] at h
    by_cases he : ke.2.filename = fname
    · rw [if_pos he] at h
      have hk := Option.some.inj h
      exact ⟨ke.2, by rw [← hk]; exact List.mem_cons_self _ _, he⟩
    · rw [if_neg he] at h
      rcases ih h with ⟨e, hm, hf⟩
      exact ⟨e, List.mem_cons_of_mem _ hm, hf⟩

theorem findKeyInEntries_elim {fname k : String} :
    ∀ {es : List (String × List (String × Entry))},
    findKeyInEntries fname es = some k →
    ∃ l d e, (l, d) ∈ es ∧ (k, e) ∈ d ∧ e.filename = fname := by
  intro es
  induction es with
  | nil => exact fun h => Option.noConfusion h
  | cons ld rest ih =>
    intro h
    rw [findKeyInEntries] at h
    cases hf : findKeyByFilename fname ld.2 with
    | some k2 =>
      rw [hf] at h
      have hk := Option.some.inj h
      subst hk
      rcases findKeyByFilename_elim hf with ⟨e, hm, hfe⟩
      exact ⟨ld.1, ld.2, e, List.mem_cons_self _ _, hm, hfe⟩
    | none =>
      rw [hf] at h
      rcases ih h with ⟨l, d, e, hm, hm2, hfe⟩
      exact ⟨l, d, e, List.mem_cons_of_mem _ hm, hm2, hfe⟩

theorem getYamlKey_ok_elim {c : Catalog} {fname k : String}
    (h : getYamlKey c fname = .ok k) :
    fname ∈ c.files ∧ findKeyInEntries fname c.entries = some k := by
  rw [getYamlKey] at h
  rcases exc_bind_ok_elim h with ⟨hf, hhf, h⟩
  cases hf with
  | false =>
    rw [if_neg (by simp)] at h
    exact Except.noConfusion h
  | true =>
    rw [if_pos rfl] at h
    refine ⟨hasFile_some_true hhf, ?_⟩
    cases hfind : findKeyInEntries fname c.entries with
    | none =>
      rw [hfind] at h
      exact Except.noConfusion h
    | some k2 =>
      rw [hfind] at h
      rw [Except.ok.inj h]

theorem wf_fname_provenance {c : Catalog} (hwf : WF c) {fname key : String}
    (hfind : findKeyInEntries fname c.entries = some key)
    {pz : String × Params}
    (hpz : c.pairs[c.files.indexOf fname]? = some pz) :
    encodeParams pz.2 = key ∧ ∃ d, alookup pz.1 c.entries = some d := by
  rcases findKeyInEntries_elim hfind with ⟨l3, d3, e3, hld, hke, hef⟩
  have hd3 : alookup l3 c.entries = some d3 :=
    alookup_of_mem_nodup hwf.labelsNodup hld
  have hke2 : alookup key d3 = some e3 :=
    alookup_of_mem_nodup (hwf.innerNodup (l3, d3) hld) hke
  rcases hwf.complete l3 key e3 (alookup2_intro hd3 hke2) with
    ⟨i2, lp2, hlp2, ha2, hb2, hc2⟩
  rw [hef] at hc2
  have hidx : c.files.indexOf fname = i2 :=
    nodup_indexOf_eq hwf.filesNodup hc2
  rw [hidx, hlp2] at hpz
  have hz := Option.some.inj hpz
  subst hz
  exact ⟨hb2, d3, ha2 ▸ hd3⟩

theorem removeFileCore_wf {sys : Sys} {label key fname : String}
    {dflag : Bool} {sys2 : Sys} {lp : String × Params}
    (hwf : WF sys.cat)
    (hlp : sys.cat.pairs[sys.cat.files.indexOf fname]? = some lp)
    (hl1 : lp.1 = label) (hl2 : encodeParams lp.2 = key)
    (hok : removeFileCore sys label key fname dflag = .ok sys2) :
    WF sys2.cat ∧ sys2.cat.parameterTypes = sys.cat.parameterTypes ∧
    sys2.cat.defaultParameters = sys.cat.defaultParameters ∧
    sys2.cat.allowUndeclared = sys.cat.allowUndeclared ∧
    sys2.cat.configureDefault = sys.cat.configureDefault ∧
    sys2.cat.recognizedNames = sys.cat.recognizedNames ∧
    sys2.cat.recognizedExtensions = sys.cat.recognizedExtensions ∧
    sys2.cat.verbose = sys.cat.verbose ∧
    sys2.cat.overwriteBehavior = sys.cat.overwriteBehavior := by
  subst hl1
  subst hl2
  rcases removeFileCore_ok_elim hok with ⟨hmem, hidx, d, hd, hks, hsys2⟩
  subst hsys2
  exact ⟨wf_erase hwf hlp hd, rfl, rfl, rfl, rfl, rfl, rfl, rfl, rfl⟩

theorem removeFile_wf {sys : Sys} {f? l? : Option String}
    {p? : Option Params} {dflag : Bool} {sys2 : Sys}
    (hwf : WF sys.cat) (hok : removeFile sys f? l? p? dflag = .ok sys2) :
    WF sys2.cat ∧ sys2.cat.parameterTypes = sys.cat.parameterTypes ∧
    sys2.cat.defaultParameters = sys.cat.defaultParameters ∧
    sys2.cat.allowUndeclared = sys.cat.allowUndeclared ∧
    sys2.cat.configureDefault = sys.cat.configureDefault ∧
    sys2.cat.recognizedNames = sys.cat.recognizedNames ∧
    sys2.cat.recognizedExtensions = sys.cat.recognizedExtensions ∧
    sys2.cat.verbose = sys.cat.verbose ∧
    sys2.cat.overwriteBehavior = sys.cat.overwriteBehavior := by
  rw [removeFile] at hok
  rcases exc_bind_ok_elim hok with ⟨params2, hp2, h⟩
  rw [removeFileGo] at h
  rcases exc_bind_ok_elim h with ⟨hf, hhf, h⟩
  cases hf with
  | false =>
    rw [if_neg (by simp)] at h
    exact Except.noConfusion h
  | true =>
    rw [if_pos rfl] at h
    cases f? with
    | some fname =>
      rw [removeFileDispatch] at h
      rcases exc_bind_ok_elim h with ⟨key, hkey, h⟩
      rcases exc_bind_ok_elim h with ⟨lp0, hlp0, h⟩
      rcases getYamlKey_ok_elim hkey with ⟨hmem, hfind⟩
      rcases getDataLabelParams_ok_elim hlp0 with ⟨hmem2, pz, hpz, hlz, hcfg⟩
      rcases wf_fname_provenance hwf hfind hpz with ⟨henc, d0, hd0⟩
      exact removeFileCore_wf hwf hpz hlz.symm henc h
    | none =>
      cases l? with
      | none =>
        cases params2 with
        | none =>
          rw [removeFileDispatch] at h
          exact Except.noConfusion h
        | some p =>
          rw [removeFileDispatch] at h
          exact Except.noConfusion h
      | some label =>
        cases params2 with
        | none =>
          rw [removeFileDispatch] at h
          exact Except.noConfusion h
        | some p =>
          rw [removeFileDispatch] at h
          cases he : alookup2 label (encodeParams p) sys.cat.entries with
          | none =>
            simp only [he] at h
            exact Except.noConfusion h
          | some e =>
            simp only [he] at h
            rcases hwf.complete label (encodeParams p) e he with
              ⟨i2, lp2, hlp2, ha2, hb2, hc2⟩
            have hidx : sys.cat.files.indexOf e.filename = i2 :=
              nodup_indexOf_eq hwf.filesNodup hc2
            have hpz : sys.cat.pairs[sys.cat.files.indexOf e.filename]? =
                some lp2 := by
              rw [hidx]
              exact hlp2
            exact removeFileCore_wf hwf hpz ha2 hb2 h

theorem alookup2_ensureLabel {l k label : String} {c : Catalog} {e : Entry}
    (h : alookup2 l k (ensureLabel label c).entries = some e) :
    alookup2 l k c.entries = some e := by
  rw [ensureLabel] at h
  cases halo : alookup label c.entries with
  | some d =>
    rw [halo] at h
    exact h
  | none =>
    rw [halo] at h
    rw [alookup2] at h ⊢
    cases halo2 : alookup l c.entries with
    | some d2 =>
      rw [show ({ c with entries := c.entries ++ [(label, [])] } :
          Catalog).entries = c.entries ++ [(label, [])] from rfl,
        alookup_append_left halo2] at h
      exact h
    | none =>
      rw [show ({ c with entries := c.entries ++ [(label, [])] } :
          Catalog).entries = c.entries ++ [(label, [])] from rfl,
        alookup_append_none _ halo2, alookup] at h
      by_cases hl : label = l
      · rw [if_pos hl] at h
        have h3 : alookup k ([] : List (String × Entry)) = some e := h
        exact Option.noConfusion h3
      · rw [if_neg hl] at h
        have h3 : (none : Option (List (String × Entry))).bind
          (alookup k) = some e := h
        exact Option.noConfusion h3

theorem newFilename_none_elim {sys : Sys} {label : String} {params : Params}
    {ext : Option String} {fname : String} {wb : Option WarnB} {sys2 : Sys}
    (h : newFilename sys label params ext fname wb = .ok (none, sys2)) :
    sys2 = ⟨ensureLabel label sys.cat, sys.disk⟩ := by
  rw [newFilename] at h
  rcases exc_bind_ok_elim h with ⟨q, hq, h⟩
  dsimp only at h
  rcases exc_bind_ok_elim h with ⟨u1, hce, h⟩
  rcases exc_bind_ok_elim h with ⟨u2, hcl, h⟩
  rcases exc_bind_ok_elim h with ⟨next, hnext, h⟩
  cases next with
  | none =>
    rw [newFilenameFinish] at h
    have h2 := Except.ok.inj h
    have h3 := congrArg Prod.snd h2
    exact h3.symm
  | some s2 =>
    rw [newFilenameFinish] at h
    have h2 := congrArg Prod.fst (Except.ok.inj h)
    exact absurd h2 (by simp)

theorem removeFile_label_elim {sys : Sys} {label : String} {q : Params}
    {dflag : Bool} {sys2 : Sys}
    (h : removeFile sys none (some label) (some q) dflag = .ok sys2) :
    ∃ q2 e, (if sys.cat.configureDefault then configureParams sys.cat q
        else .ok q) = .ok q2 ∧
      alookup2 label (encodeParams q2) sys.cat.entries = some e ∧
      removeFileCore sys label (encodeParams q2) e.filename dflag =
        .ok sys2 := by
  rw [removeFile] at h
  rcases exc_bind_ok_elim h with ⟨params2, hp2, h⟩
  rw [removeFileParams] at hp2
  have hq2 : ∃ q2, params2 = some q2 ∧
      (if sys.cat.configureDefault then configureParams sys.cat q
        else .ok q) = .ok q2 := by
    by_cases hc : sys.cat.configureDefault = true
    · rw [if_pos hc] at hp2 ⊢
      cases hcf : configureParams sys.cat q with
      | error e =>
        rw [hcf, exc_map_error] at hp2
        exact Except.noConfusion hp2
      | ok q2 =>
        rw [hcf, exc_map_ok] at hp2
        exact ⟨q2, (Except.ok.inj hp2).symm, rfl⟩
    · rw [if_neg hc] at hp2 ⊢
      exact ⟨q, (Except.ok.inj hp2).symm, rfl⟩
  rcases hq2 with ⟨q2, hpe, hcfg⟩
  subst hpe
  rw [removeFileGo] at h
  rcases exc_bind_ok_elim h with ⟨hf, hhf, h⟩
  cases hf with
  | false =>
    rw [if_neg (by simp)] at h
    exact Except.noConfusion h
  | true =>
    rw [if_pos rfl] at h
    rw [removeFileDispatch] at h
    cases he : alookup2 label (encodeParams q2) sys.cat.entries with
    | none =>
      simp only [he] at h
      exact Except.noConfusion h
    | some e =>
      simp only [he] at h
      exact ⟨q2, e, hcfg, he, h⟩

theorem newFilename_wf {sys : Sys} {label : String} {params : Params}
    {ext : Option String} {fname : String} {wb : Option WarnB}
    {res : Option String × Sys}
    (hwf : WF sys.cat)
    (hnd : (akeys sys.cat.defaultParameters).Nodup)
    (hsch : ∀ sch, sys.cat.parameterTypes = some sch → (akeys sch).Nodup)
    (hguard : guardNew sys label params fname)
    (hok : newFilename sys label params ext fname wb = .ok res) :
    WF res.2.cat ∧
    res.2.cat.parameterTypes = sys.cat.parameterTypes ∧
    res.2.cat.defaultParameters = sys.cat.defaultParameters ∧
    res.2.cat.allowUndeclared = sys.cat.allowUndeclared ∧
    res.2.cat.configureDefault = sys.cat.configureDefault ∧
    res.2.cat.recognizedNames = sys.cat.recognizedNames ∧
    res.2.cat.recognizedExtensions = sys.cat.recognizedExtensions ∧
    res.2.cat.verbose = sys.cat.verbose ∧
    res.2.cat.overwriteBehavior = sys.cat.overwriteBehavior := by
  obtain ⟨p?, sys'⟩ := res
  obtain ⟨e1, e2, e3, e4, e5, e6, e7, e8, e9, e10⟩ :=
    ensureLabel_fields label sys.cat
  cases p? with
  | none =>
    have hs := newFilename_none_elim hok
    subst hs
    exact ⟨wf_ensureLabel hwf label, e3, e4, e5, e6, e7, e8, e9, e10⟩
  | some p =>
    rcases newFilename_ok_elim hok with ⟨hp, q, sysm, hq, hdisj, hs⟩
    subst hs
    obtain ⟨hmemL, hpt, hdp, hau, hcd, hrn, hre, hv, hob⟩ :=
      newFilename_post_frame (hdisj.imp And.left id)
    have hguard2 := hguard.2 q hq
    have hwf1 : WF (ensureLabel label sys.cat) := wf_ensureLabel hwf label
    cases hdisj with
    | inl hcase =>
      obtain ⟨hs2, hslot⟩ := hcase
      subst hs2
      cases hslot with
      | inl hfree =>
        rcases alookup_isSome_of_mem_akeys hmemL with ⟨dm, hdm⟩
        have hfr : ¬ fname ∈ (ensureLabel label sys.cat).files := by
          rw [e1]
          exact hguard.1
        exact ⟨wf_append hwf1 hdm hfree hfr, hpt, hdp, hau, hcd, hrn, hre,
          hv, hob⟩
      | inr hbad =>
        rcases hbad with ⟨e, he, hnd2⟩
        exact absurd (hguard2 e (alookup2_ensureLabel he)) hnd2
    | inr hrm =>
      rcases removeFile_label_elim hrm with ⟨q2, e, hq2, he, hcore⟩
      have hq2s : (if sys.cat.configureDefault then
          configureParams sys.cat q else .ok q) = .ok q2 := by
        rw [← e6, ← configureParams_congr e3 e4 e5 q]
        exact hq2
      rcases configStep_stable hnd hsch hq with ⟨q2b, hq2b, _, hencb⟩
      have hqq : q2b = q2 := Except.ok.inj (hq2b.symm.trans hq2s)
      have henc : encodeParams q2 = encodeParams q := hqq ▸ hencb
      rcases hwf1.complete label (encodeParams q2) e he with
        ⟨i2, lp2, hlp2, ha2, hb2, hc2⟩
      have hidx : (ensureLabel label sys.cat).files.indexOf e.filename =
          i2 := nodup_indexOf_eq hwf1.filesNodup hc2
      have hpz : (ensureLabel label sys.cat).pairs[
          (ensureLabel label sys.cat).files.indexOf e.filename]? =
          some lp2 := by
        rw [hidx]
        exact hlp2
      have hrmwf := (removeFileCore_wf hwf1 hpz ha2 hb2 hcore).1
      rcases removeFileCore_ok_elim hcore with
        ⟨hmem2, hidx2, d2, hd2, hks2, hsys2⟩
      subst hsys2
      have hdm : alookup label (aset label (aerase (encodeParams q2) d2)
          (ensureLabel label sys.cat).entries) =
          some (aerase (encodeParams q2) d2) := alookup_aset_self _ _ _
      have hfree : alookup2 label (encodeParams q)
          (aset label (aerase (encodeParams q2) d2)
            (ensureLabel label sys.cat).entries) = none := by
        rw [alookup2, hdm]
        show alookup (encodeParams q) (aerase (encodeParams q2) d2) = none
        rw [← henc]
        exact alookup_aerase_self
          (hwf1.innerNodup (label, d2) (mem_of_alookup_eq_some hd2))
      have hfr : ¬ fname ∈ (ensureLabel label sys.cat).files.eraseIdx
          ((ensureLabel label sys.cat).files.indexOf e.filename) := by
        intro hmm
        refine hguard.1 ?_
        rw [← e1]
        exact (List.eraseIdx_sublist _ _).subset hmm
      exact ⟨wf_append hrmwf hdm hfree hfr, hpt, hdp, hau, hcd, hrn, hre,
        hv, hob⟩

theorem updateCore_wf {sys : Sys} {fname label : String} {p : Params}
    {sys2 : Sys}
    (hwf : WF sys.cat)
    (hguard : ∀ (j : Nat) (lp2 : String × Params),
      sys.cat.pairs[j]? = some lp2 → j ≠ sys.cat.files.indexOf fname →
      (lp2.1, encodeParams lp2.2) ≠ (label, encodeParams p))
    (hok : updateCore sys fname label p = .ok sys2) :
    WF sys2.cat ∧ sys2.cat.files = sys.cat.files ∧ sys2.disk = sys.disk ∧
    sys2.cat.parameterTypes = sys.cat.parameterTypes ∧
    sys2.cat.defaultParameters = sys.cat.defaultParameters ∧
    sys2.cat.allowUndeclared = sys.cat.allowUndeclared ∧
    sys2.cat.configureDefault = sys.cat.configureDefault ∧
    sys2.cat.recognizedNames = sys.cat.recognizedNames ∧
    sys2.cat.recognizedExtensions = sys.cat.recognizedExtensions ∧
    sys2.cat.verbose = sys.cat.verbose ∧
    sys2.cat.overwriteBehavior = sys.cat.overwriteBehavior := by
  rw [updateCore] at hok
  by_cases hmem : fname ∈ sys.cat.files
  swap
  · rw [if_neg hmem] at hok
    exact Except.noConfusion hok
  rw [if_pos hmem] at hok
  cases hol : sys.cat.pairs[sys.cat.files.indexOf fname]? with
  | none =>
    simp only [hol] at hok
    exact Except.noConfusion hok
  | some ol =>
  simp only [hol] at hok
  cases hdo : alookup ol.1 sys.cat.entries with
  | none =>
    simp only [hdo] at hok
    exact Except.noConfusion hok
  | some d =>
  simp only [hdo] at hok
  cases hoe : alookup (encodeParams ol.2) d with
  | none =>
    simp only [hoe] at hok
    exact Except.noConfusion hok
  | some e0 =>
  simp only [hoe] at hok
  cases hd2 : alookup label
      (aset ol.1 (aerase (encodeParams ol.2) d) sys.cat.entries) with
  | none =>
    simp only [hd2] at hok
    exact Except.noConfusion hok
  | some d2 =>
  simp only [hd2] at hok
  have hs2 := (Except.ok.inj hok).symm
  subst hs2
  have hidx : sys.cat.files.indexOf fname < sys.cat.pairs.length :=
    getElem?_some_lt hol
  have hdn : (akeys d).Nodup :=
    hwf.innerNodup (ol.1, d) (mem_of_alookup_eq_some hdo)
  rcases hwf.align _ hidx ol hol with ⟨e0, he0, hf0⟩
  have he0d : alookup (encodeParams ol.2) d = some e0 := by
    rw [alookup2, hdo] at he0
    exact he0
  have he0e := Option.some.inj (he0d.symm.trans hoe)
  subst he0e
  have hd2n : (akeys d2).Nodup := by
    by_cases hll : label = ol.1
    · have : alookup label
          (aset ol.1 (aerase (encodeParams ol.2) d) sys.cat.entries) =
          some (aerase (encodeParams ol.2) d) := by
        rw [hll]
        exact alookup_aset_self _ _ _
      rw [this] at hd2
      rw [← Option.some.inj hd2]
      exact nodup_akeys_aerase _ hdn
    · rw [alookup_aset_ne _ _ hll] at hd2
      exact hwf.innerNodup (label, d2) (mem_of_alookup_eq_some hd2)
  have hd2lookup : ∀ (k2 : String) (e2 : Entry), alookup k2 d2 = some e2 →
      (label = ol.1 → k2 ≠ encodeParams ol.2) ∧
      alookup2 label k2 sys.cat.entries = some e2 := by
    intro k2 e2 hk2
    by_cases hll : label = ol.1
    · have hda : alookup label
          (aset ol.1 (aerase (encodeParams ol.2) d) sys.cat.entries) =
          some (aerase (encodeParams ol.2) d) := by
        rw [hll]
        exact alookup_aset_self _ _ _
      have hde := Option.some.inj (hd2.symm.trans hda)
      rw [hde] at hk2
      have hkne : k2 ≠ encodeParams ol.2 := by
        intro hh
        rw [hh, alookup_aerase_self hdn] at hk2
        exact Option.noConfusion hk2
      rw [alookup_aerase_ne _ hkne] at hk2
      rw [alookup2, hll, hdo]
      exact ⟨fun _ => hkne, hk2⟩
    · rw [alookup_aset_ne _ _ hll] at hd2
      rw [alookup2, hd2]
      exact ⟨fun hh => absurd hh hll, hk2⟩
  refine ⟨⟨?_, ?_, ?_, ?_, ?_, ?_, ?_⟩, rfl, rfl, rfl, rfl, rfl, rfl, rfl,
    rfl, rfl, rfl⟩
  · show sys.cat.files.length = (sys.cat.pairs.set _ _).length
    rw [List.length_set]
    exact hwf.lenEq
  · exact hwf.filesNodup
  · show ((sys.cat.pairs.set _ (label, p)).map
      (fun lp => (lp.1, encodeParams lp.2))).Nodup
    rw [List.map_set]
    refine nodup_set hwf.keysNodup ?_
    intro j hj hcontra
    rw [List.getElem?_map] at hcontra
    cases hpj : sys.cat.pairs[j]? with
    | none =>
      rw [hpj] at hcontra
      exact Option.noConfusion hcontra
    | some lp2 =>
      rw [hpj] at hcontra
      have h3 : (lp2.1, encodeParams lp2.2) = (label, encodeParams p) :=
        Option.some.inj hcontra
      exact hguard j lp2 hpj hj h3
  · show (akeys (aset label _
      (aset ol.1 _ sys.cat.entries))).Nodup
    rw [akeys_aset_mem _ _ (mem_akeys_of_alookup hd2),
      akeys_aset_mem _ _ (mem_akeys_of_alookup hdo)]
    exact hwf.labelsNodup
  · intro le hle
    rcases mem_aset_elim hle with h | h
    · rw [h]
      exact nodup_akeys_aset _ hd2n
    · rcases mem_aset_elim h with h | h
      · rw [h]
        exact nodup_akeys_aerase _ hdn
      · exact hwf.innerNodup le h
  · intro j hj lp2 hlp2
    rw [List.length_set] at hj
    by_cases hji : j = sys.cat.files.indexOf fname
    · subst hji
      rw [List.getElem?_set_self hj] at hlp2
      have hl2 := Option.some.inj hlp2
      subst hl2
      refine ⟨⟨p, e0.filename, e0.dateAdded⟩, ?_, ?_⟩
      · rw [alookup2, alookup_aset_self]
        show alookup (encodeParams p) (aset (encodeParams p) _ d2) = _
        rw [alookup_aset_self]
      · exact hf0
    · rw [List.getElem?_set_ne (fun hh => hji hh.symm)] at hlp2
      rcases hwf.align j hj lp2 hlp2 with ⟨ej, hej, hfj⟩
      have hpair1 : (lp2.1, encodeParams lp2.2) ≠
          (label, encodeParams p) := hguard j lp2 hlp2 hji
      have hpair2 : (lp2.1, encodeParams lp2.2) ≠
          (ol.1, encodeParams ol.2) := keys_distinct hwf hlp2 hol hji
      refine ⟨ej, ?_, hfj⟩
      rw [alookup2]
      by_cases hjl : lp2.1 = label
      · rw [hjl, alookup_aset_self]
        have hkne : encodeParams lp2.2 ≠ encodeParams p := by
          intro hh
          exact hpair1 (by rw [hjl, hh])
        show alookup (encodeParams lp2.2)
          (aset (encodeParams p) _ d2) = some ej
        rw [alookup_aset_ne _ _ hkne]
        by_cases hll : label = ol.1
        · have hda : alookup label
              (aset ol.1 (aerase (encodeParams ol.2) d)
                sys.cat.entries) =
              some (aerase (encodeParams ol.2) d) := by
            rw [hll]
            exact alookup_aset_self _ _ _
          have hde := Option.some.inj (hd2.symm.trans hda)
          rw [hde]
          have hkno : encodeParams lp2.2 ≠ encodeParams ol.2 := by
            intro hh
            exact hpair2 (by rw [hjl, hll, hh])
          rw [alookup_aerase_ne _ hkno]
          rw [alookup2, hjl, hll, hdo] at hej
          exact hej
        · rw [alookup_aset_ne _ _ hll] at hd2
          rw [alookup2, hjl, hd2] at hej
          exact hej
      · rw [alookup_aset_ne _ _ hjl]
        by_cases hjo : lp2.1 = ol.1
        · rw [hjo, alookup_aset_self]
          have hkno : encodeParams lp2.2 ≠ encodeParams ol.2 := by
            intro hh
            exact hpair2 (by rw [hjo, hh])
          show alookup (encodeParams lp2.2)
            (aerase (encodeParams ol.2) d) = some ej
          rw [alookup_aerase_ne _ hkno]
          rw [alookup2, hjo, hdo] at hej
          exact hej
        · rw [alookup_aset_ne _ _ hjo]
          rw [alookup2] at hej
          exact hej
  · intro l2 k2 e2 h2
    rw [alookup2] at h2
    by_cases hl2 : l2 = label
    · rw [hl2, alookup_aset_self] at h2
      have h3 : alookup k2 (aset (encodeParams p)
          (⟨p, e0.filename, e0.dateAdded⟩ : Entry) d2) = some e2 := h2
      by_cases hk : k2 = encodeParams p
      · rw [hk, alookup_aset_self] at h3
        have he2 := Option.some.inj h3
        have hsetidx : (sys.cat.pairs.set (sys.cat.files.indexOf fname)
            ((label, p) : String × Params))[
              sys.cat.files.indexOf fname]? = some (label, p) := by
          refine List.getElem?_set_self ?_
          rw [← hwf.lenEq]
          exact List.indexOf_lt_length.mpr hmem
        refine ⟨sys.cat.files.indexOf fname, (label, p), hsetidx,
          hl2.symm, hk.symm, ?_⟩
        rw [← he2]
        exact hf0
      · rw [alookup_aset_ne _ _ hk] at h3
        rcases hd2lookup k2 e2 h3 with ⟨hko, horig⟩
        rw [← hl2] at horig
        rcases hwf.complete l2 k2 e2 horig with
          ⟨i3, lp3, hlp3, ha3, hb3, hc3⟩
        have hne3 : i3 ≠ sys.cat.files.indexOf fname := by
          intro hh
          subst hh
          have hol2 := Option.some.inj (hlp3.symm.trans hol)
          by_cases hll : label = ol.1
          · refine hko hll ?_
            rw [← hb3, hol2]
          · refine hll ?_
            rw [← hl2, ← ha3, hol2]
        refine ⟨i3, lp3, ?_, ha3, hb3, hc3⟩
        rw [List.getElem?_set_ne (fun hh => hne3 hh.symm)]
        exact hlp3
    · rw [alookup_aset_ne _ _ hl2] at h2
      have hl2e : alookup2 l2 k2 sys.cat.entries = some e2 ∧
          (l2 = ol.1 → k2 ≠ encodeParams ol.2) := by
        by_cases hjo : l2 = ol.1
        · rw [hjo, alookup_aset_self] at h2
          have h3 : alookup k2 (aerase (encodeParams ol.2) d) =
            some e2 := h2
          have hkno : k2 ≠ encodeParams ol.2 := by
            intro hh
            rw [hh, alookup_aerase_self hdn] at h3
            exact Option.noConfusion h3
          rw [alookup_aerase_ne _ hkno] at h3
          rw [alookup2, hjo, hdo]
          exact ⟨h3, fun _ => hkno⟩
        · rw [alookup_aset_ne _ _ hjo] at h2
          rw [alookup2]
          exact ⟨h2, fun hh => absurd hh hjo⟩
      rcases hwf.complete l2 k2 e2 hl2e.1 with ⟨i3, lp3, hlp3, ha3, hb3, hc3⟩
      have hne3 : i3 ≠ sys.cat.files.indexOf fname := by
        intro hh
        subst hh
        have hol2 := Option.some.inj (hlp3.symm.trans hol)
        by_cases hjo : l2 = ol.1
        · refine hl2e.2 hjo ?_
          rw [← hb3, hol2]
        · refine hjo ?_
          rw [← ha3, hol2]
      refine ⟨i3, lp3, ?_, ha3, hb3, hc3⟩
      rw [List.getElem?_set_ne (fun hh => hne3 hh.symm)]
      exact hlp3

theorem WF_congr {c c2 : Catalog} (hf : c2.files = c.files)
    (hp : c2.pairs = c.pairs) (he : c2.entries = c.entries) (h : WF c) :
    WF c2 := by
  refine ⟨?_, ?_, ?_, ?_, ?_, ?_, ?_⟩
  · rw [hf, hp]
    exact h.lenEq
  · rw [hf]
    exact h.filesNodup
  · rw [hp]
    exact h.keysNodup
  · rw [he]
    exact h.labelsNodup
  · rw [he]
    exact h.innerNodup
  · intro i hi lp hlp
    rw [hp] at hi hlp
    rw [he, hf]
    exact h.align i hi lp hlp
  · intro l2 k2 e2 h2
    rw [he] at h2
    rcases h.complete l2 k2 e2 h2 with ⟨i2, lp2, h1, h2b, h3, h4⟩
    rw [← hp] at h1
    rw [← hf] at h4
    exact ⟨i2, lp2, h1, h2b, h3, h4⟩

theorem eraseOldParam_elim {c : Catalog} {old : String} {c1 : Catalog}
    (h : eraseOldParam c old = .ok c1) :
    ∃ schema, c.parameterTypes = some schema ∧
      c1 = { c with
        parameterTypes := some (aerase old schema),
        defaultParameters := aerase old c.defaultParameters } := by
  rw [eraseOldParam] at h
  cases hpt : c.parameterTypes with
  | none =>
    rw [hpt] at h
    exact Except.noConfusion h
  | some schema =>
    rw [hpt] at h
    exact ⟨schema, rfl, (Except.ok.inj h).symm⟩

theorem addParameterDefault_elim {c : Catalog} {name : String}
    {ty : Option PType} {dv : Value} {c1 : Catalog}
    (h : addParameterDefault c name ty dv = .ok c1) :
    ∃ schema t, c.parameterTypes = some schema ∧ ty = some t ∧
      c1 = { c with
        parameterTypes := some (aset name t schema),
        defaultParameters := aset name dv c.defaultParameters } := by
  rw [addParameterDefault] at h
  cases hpt : c.parameterTypes with
  | none =>
    rw [hpt] at h
    exact Except.noConfusion h
  | some schema =>
    rw [hpt] at h
    cases ty with
    | none => exact Except.noConfusion h
    | some t => exact ⟨schema, t, rfl, rfl, (Except.ok.inj h).symm⟩

theorem removeFile_wfx {sys : Sys} {f? l? : Option String}
    {p? : Option Params} {dflag : Bool} {sys2 : Sys}
    (hx : WFX sys) (hok : removeFile sys f? l? p? dflag = .ok sys2) :
    WFX sys2 := by
  rcases removeFile_wf hx.1 hok with
    ⟨hwf, hpt, hdp, hau, hcd, hrn, hre, hv, hob⟩
  exact ⟨hwf, hdp ▸ hx.2.1, fun sch hs => hx.2.2 sch (hpt ▸ hs)⟩

theorem newFilename_wfx {sys : Sys} {label : String} {params : Params}
    {ext : Option String} {fname : String} {wb : Option WarnB}
    {res : Option String × Sys}
    (hx : WFX sys) (hguard : guardNew sys label params fname)
    (hok : newFilename sys label params ext fname wb = .ok res) :
    WFX res.2 := by
  rcases newFilename_wf hx.1 hx.2.1 hx.2.2 hguard hok with
    ⟨hwf, hpt, hdp, hau, hcd, hrn, hre, hv, hob⟩
  exact ⟨hwf, hdp ▸ hx.2.1, fun sch hs => hx.2.2 sch (hpt ▸ hs)⟩

theorem updateFileParams_wfx {sys : Sys} {fname : String}
    {l? : Option String} {p? : Option Params} {sys2 : Sys}
    (hx : WFX sys) (hguard : guardUpdate sys fname l? p?)
    (hok : updateFileParams sys fname l? p? = .ok sys2) :
    WFX sys2 := by
  rw [updateFileParams] at hok
  rcases exc_bind_ok_elim hok with ⟨lp0, hlp0, h⟩
  rcases updateCore_wf hx.1 (fun j lp2 hj hne => hguard lp0 hlp0 j lp2 hj hne)
      h with ⟨hwf, hfi, hdk, hpt, hdp, hau, hcd, hrn, hre, hv, hob⟩
  exact ⟨hwf, hdp ▸ hx.2.1, fun sch hs => hx.2.2 sch (hpt ▸ hs)⟩

theorem exc_map_ok_elim {ε α β : Type} {m : Except ε α} {f : α → β} {b : β}
    (h : m.map f = .ok b) : ∃ a, m = .ok a ∧ f a = b := by
  cases m with
  | ok a => exact ⟨a, rfl, Except.ok.inj h⟩
  | error e => exact Except.noConfusion h

theorem WF_schemaOnly {c : Catalog} (pt : Option (List (String × PType)))
    (dp : Params) (h : WF c) :
    WF { c with parameterTypes := pt, defaultParameters := dp } := by
  refine WF_congr ?_ ?_ ?_ h
  · rfl
  · rfl
  · rfl

theorem eraseOldParam_wfx {c c1 : Catalog} {old : String}
    (hok : eraseOldParam c old = .ok c1)
    (hwf : WF c) (hdp : (akeys c.defaultParameters).Nodup)
    (hpt : ∀ sch, c.parameterTypes = some sch → (akeys sch).Nodup) :
    WF c1 ∧ (akeys c1.defaultParameters).Nodup ∧
    ∀ sch, c1.parameterTypes = some sch → (akeys sch).Nodup := by
  rcases eraseOldParam_elim hok with ⟨schema, hsch, hc1⟩
  subst hc1
  refine ⟨WF_schemaOnly _ _ hwf, nodup_akeys_aerase old hdp, ?_⟩
  intro sch hs
  have hx : aerase old schema = sch := Option.some.inj hs
  exact hx ▸ nodup_akeys_aerase old (hpt schema hsch)

theorem addParameterDefault_wfx {c c1 : Catalog} {name : String}
    {ty : Option PType} {dv : Value}
    (hok : addParameterDefault c name ty dv = .ok c1)
    (hwf : WF c) (hdp : (akeys c.defaultParameters).Nodup)
    (hpt : ∀ sch, c.parameterTypes = some sch → (akeys sch).Nodup) :
    WF c1 ∧ (akeys c1.defaultParameters).Nodup ∧
    ∀ sch, c1.parameterTypes = some sch → (akeys sch).Nodup := by
  rcases addParameterDefault_elim hok with ⟨schema, t, hsch, hty, hc1⟩
  subst hc1
  refine ⟨WF_schemaOnly _ _ hwf, nodup_akeys_aset dv hdp, ?_⟩
  intro sch hs
  have hx : aset name t schema = sch := Option.some.inj hs
  exact hx ▸ nodup_akeys_aset t (hpt schema hsch)

theorem addParameterDefault_foldlM_wfx :
    ∀ (l : List (String × (Option PType × Value))) {c1 c2 : Catalog},
    l.foldlM (fun acc nt => addParameterDefault acc nt.1 nt.2.1 nt.2.2) c1
      = .ok c2 →
    WF c1 → (akeys c1.defaultParameters).Nodup →
    (∀ sch, c1.parameterTypes = some sch → (akeys sch).Nodup) →
    WF c2 ∧ (akeys c2.defaultParameters).Nodup ∧
    ∀ sch, c2.parameterTypes = some sch → (akeys sch).Nodup := by
  intro l
  induction l with
  | nil =>
    intro c1 c2 h hwf hdp hpt
    exact (Except.ok.inj h) ▸ ⟨hwf, hdp, hpt⟩
  | cons nt rest ih =>
    intro c1 c2 h hwf hdp hpt
    rw [List.foldlM_cons] at h
    rcases exc_bind_ok_elim h with ⟨cm, h1, h2⟩
    rcases addParameterDefault_wfx h1 hwf hdp hpt with ⟨w1, w2, w3⟩
    exact ih h2 w1 w2 w3

theorem transmutePre1_wfx {c : Catalog} {old name : String}
    {ty : Option PType} {dflt : Option Value} {flt : Option FileFilter}
    {pre : Catalog × List String}
    (hwf : WF c) (hdp : (akeys c.defaultParameters).Nodup)
    (hpt : ∀ sch, c.parameterTypes = some sch → (akeys sch).Nodup)
    (h : transmutePre1 c old name ty dflt flt = .ok pre) :
    WF pre.1 ∧ (akeys pre.1.defaultParameters).Nodup ∧
    ∀ sch, pre.1.parameterTypes = some sch → (akeys sch).Nodup := by
  rw [transmutePre1.eq_def] at h
  rcases exc_bind_ok_elim h with ⟨c1, h1, h2⟩
  rcases exc_bind_ok_elim h2 with ⟨c2, h3, h4⟩
  rcases exc_map_ok_elim h4 with ⟨fs, hfs, hpre⟩
  have hc1 : WF c1 ∧ (akeys c1.defaultParameters).Nodup ∧
      ∀ sch, c1.parameterTypes = some sch → (akeys sch).Nodup := by
    by_cases hcond : flt.isNone ∧ name ≠ old
    · rw [if_pos hcond] at h1
      exact eraseOldParam_wfx h1 hwf hdp hpt
    · rw [if_neg hcond] at h1
      exact (Except.ok.inj h1) ▸ ⟨hwf, hdp, hpt⟩
  rcases addParameterDefault_wfx h3 hc1.1 hc1.2.1 hc1.2.2 with ⟨w1, w2, w3⟩
  have hp1 : pre.1 = c2 := by rw [← hpre]
  rw [hp1]
  exact ⟨w1, w2, w3⟩

theorem transmutePreN_wfx {c : Catalog} {old : String} {names : List String}
    {tys : List (Option PType)} {dflt : Option (List Value)}
    {flt : Option FileFilter} {pre : Catalog × List String}
    (hwf : WF c) (hdp : (akeys c.defaultParameters).Nodup)
    (hpt : ∀ sch, c.parameterTypes = some sch → (akeys sch).Nodup)
    (h : transmutePreN c old names tys dflt flt = .ok pre) :
    WF pre.1 ∧ (akeys pre.1.defaultParameters).Nodup ∧
    ∀ sch, pre.1.parameterTypes = some sch → (akeys sch).Nodup := by
  rw [transmutePreN.eq_def] at h
  rcases exc_bind_ok_elim h with ⟨ds, hds, h2⟩
  rcases exc_bind_ok_elim h2 with ⟨c1, h3, h4⟩
  rcases exc_bind_ok_elim h4 with ⟨c2, h5, h6⟩
  rcases exc_map_ok_elim h6 with ⟨fs, hfs, hpre⟩
  have hc1 : WF c1 ∧ (akeys c1.defaultParameters).Nodup ∧
      ∀ sch, c1.parameterTypes = some sch → (akeys sch).Nodup := by
    by_cases hcond : flt.isNone ∧ ¬ old ∈ names
    · rw [if_pos hcond] at h3
      exact eraseOldParam_wfx h3 hwf hdp hpt
    · rw [if_neg hcond] at h3
      exact (Except.ok.inj h3) ▸ ⟨hwf, hdp, hpt⟩
  rcases addParameterDefault_foldlM_wfx _ h5 hc1.1 hc1.2.1 hc1.2.2 with
    ⟨w1, w2, w3⟩
  have hp1 : pre.1 = c2 := by rw [← hpre]
  rw [hp1]
  exact ⟨w1, w2, w3⟩

theorem transmuteFile1_wfx {sys : Sys} {old name : String}
    {tf : Value → Value} {f : String} {sys2 : Sys}
    (hx : WFX sys)
    (hg : ∀ lp, getDataLabelParams sys.cat f = .ok lp →
      ∀ oldVal, alookup old lp.2 = some oldVal →
        guardUpdate sys f (some lp.1)
          (some (aset name (tf oldVal) (aerase old lp.2))))
    (hok : transmuteFile1 sys old name tf f = .ok sys2) : WFX sys2 := by
  rw [transmuteFile1] at hok
  rcases exc_bind_ok_elim hok with ⟨lp, hlp, h⟩
  cases hov : alookup old lp.2 with
  | none =>
    rw [hov] at h
    exact (Except.ok.inj h) ▸ hx
  | some ov =>
    rw [hov] at h
    exact updateFileParams_wfx hx (hg lp hlp ov hov) h

theorem transmuteLoop1_wfx {old name : String} {tf : Value → Value} :
    ∀ {fs : List String} {sys : Sys} {sys2 : Sys},
    WFX sys → transmuteGuard1 old name tf sys fs →
    transmuteLoop1 old name tf sys fs = .ok sys2 → WFX sys2 := by
  intro fs
  induction fs with
  | nil =>
    intro sys sys2 hx hg hok
    exact (Except.ok.inj hok) ▸ hx
  | cons f rest ih =>
    intro sys sys2 hx hg hok
    obtain ⟨hg1, hg2⟩ := hg
    rw [transmuteLoop1] at hok
    rcases exc_bind_ok_elim hok with ⟨s1, h1, h2⟩
    exact ih (transmuteFile1_wfx hx hg1 h1) (hg2 s1 h1) h2

theorem transmuteFileN_wfx {sys : Sys} {old : String} {names : List String}
    {tf : Value → List Value} {f : String} {sys2 : Sys}
    (hx : WFX sys)
    (hg : ∀ lp, getDataLabelParams sys.cat f = .ok lp →
      ∀ oldVal, alookup old lp.2 = some oldVal →
        guardUpdate sys f (some lp.1)
          (some ((names.zip (tf oldVal)).foldl
            (fun acc kv => aset kv.1 kv.2 acc) (aerase old lp.2))))
    (hok : transmuteFileN sys old names tf f = .ok sys2) : WFX sys2 := by
  rw [transmuteFileN] at hok
  rcases exc_bind_ok_elim hok with ⟨lp, hlp, h⟩
  cases hov : alookup old lp.2 with
  | none =>
    rw [hov] at h
    exact (Except.ok.inj h) ▸ hx
  | some ov =>
    rw [hov] at h
    exact updateFileParams_wfx hx (hg lp hlp ov hov) h

theorem transmuteLoopN_wfx {old : String} {names : List String}
    {tf : Value → List Value} :
    ∀ {fs : List String} {sys : Sys} {sys2 : Sys},
    WFX sys → transmuteGuardN old names tf sys fs →
    transmuteLoopN old names tf sys fs = .ok sys2 → WFX sys2 := by
  intro fs
  induction fs with
  | nil =>
    intro sys sys2 hx hg hok
    exact (Except.ok.inj hok) ▸ hx
  | cons f rest ih =>
    intro sys sys2 hx hg hok
    obtain ⟨hg1, hg2⟩ := hg
    rw [transmuteLoopN] at hok
    rcases exc_bind_ok_elim hok with ⟨s1, h1, h2⟩
    exact ih (transmuteFileN_wfx hx hg1 h1) (hg2 s1 h1) h2

theorem transmuteParameter_wfx {sys : Sys} {old : String} {spec : NewSpec}
    {flt : Option FileFilter} {sys2 : Sys}
    (hx : WFX sys) (hg : guardOp sys (.opTransmute old spec flt))
    (hok : transmuteParameter sys old spec flt = .ok sys2) : WFX sys2 := by
  cases spec with
  | keep ty => exact Except.noConfusion hok
  | one name ty tf dflt =>
    rcases exc_bind_ok_elim hok with ⟨pre, hpre, hloop⟩
    have hxm : WFX ⟨pre.1, sys.disk⟩ :=
      transmutePre1_wfx hx.1 hx.2.1 hx.2.2 hpre
    exact transmuteLoop1_wfx hxm (hg pre hpre) hloop
  | many names tys tf dflt =>
    by_cases hlen : tys.length = names.length
    · rw [transmuteParameter, if_pos hlen] at hok
      rcases exc_bind_ok_elim hok with ⟨pre, hpre, hloop⟩
      have hxm : WFX ⟨pre.1, sys.disk⟩ :=
        transmutePreN_wfx hx.1 hx.2.1 hx.2.2 hpre
      exact transmuteLoopN_wfx hxm (hg pre hpre) hloop
    · rw [transmuteParameter, if_neg hlen] at hok
      exact Except.noConfusion hok

theorem purgeLoopLive_wfx : ∀ (fuel : Nat) {sys : Sys} {i : Nat} {sys2 : Sys},
    WFX sys → purgeLoopLive fuel sys i = .ok sys2 → WFX sys2 := by
  intro fuel
  induction fuel with
  | zero =>
    intro sys i sys2 hx hok
    exact (Except.ok.inj hok) ▸ hx
  | succ fuel2 ih =>
    intro sys i sys2 hx hok
    rw [purgeLoopLive] at hok
    by_cases h : i < sys.cat.files.length
    · rw [dif_pos h] at hok
      rcases exc_bind_ok_elim hok with ⟨s1, h1, h2⟩
      exact ih (removeFile_wfx hx h1) h2
    · rw [dif_neg h] at hok
      exact (Except.ok.inj hok) ▸ hx

theorem purgeList_wfx : ∀ {fs : List String} {sys : Sys} {sys2 : Sys},
    WFX sys → purgeList sys fs = .ok sys2 → WFX sys2 := by
  intro fs
  induction fs with
  | nil =>
    intro sys sys2 hx hok
    exact (Except.ok.inj hok) ▸ hx
  | cons f rest ih =>
    intro sys sys2 hx hok
    rw [purgeList] at hok
    rcases exc_bind_ok_elim hok with ⟨s1, h1, h2⟩
    exact ih (removeFile_wfx hx h1) h2

theorem purge_wfx {sys : Sys} {flt : Option FileFilter} {sys2 : Sys}
    (hx : WFX sys) (hok : purge sys flt = .ok sys2) : WFX sys2 := by
  cases flt with
  | none => exact purgeLoopLive_wfx _ hx hok
  | some f =>
    rcases exc_bind_ok_elim hok with ⟨fs, hfs, h2⟩
    exact purgeList_wfx hx h2

theorem execOp_wfx {sys sys2 : Sys} {op : Op}
    (hx : WFX sys) (hg : guardOp sys op) (hok : execOp sys op = .ok sys2) :
    WFX sys2 := by
  cases op with
  | opNew label params ext fname =>
    rcases exc_map_ok_elim hok with ⟨res, hres, hsnd⟩
    exact hsnd ▸ newFilename_wfx hx hg hres
  | opAdd fname label params =>
    rcases exc_map_ok_elim hok with ⟨res, hres, hsnd⟩
    exact hsnd ▸ newFilename_wfx hx hg hres
  | opRemove f l p d => exact removeFile_wfx hx hok
  | opPurge flt => exact purge_wfx hx hok
  | opUpdate f l p => exact updateFileParams_wfx hx hg hok
  | opTransmute o s f => exact transmuteParameter_wfx hx hg hok

theorem RunG_wfx {s0 s1 : Sys} {ops : List Op} (h : RunG s0 ops s1) :
    WFX s0 → WFX s1 := by
  induction h with
  | nil s => exact id
  | cons hg hex hr ih => exact fun hx => ih (execOp_wfx hx hg hex)

theorem viewsAligned_of_WF {c : Catalog} (h : WF c) : viewsAligned c :=
  ⟨h.lenEq, h.align⟩

theorem c2sys0_wf : WF c2sys0.cat := by
  refine ⟨rfl, List.nodup_nil, List.nodup_nil, List.nodup_nil, ?_, ?_, ?_⟩
  · intro le hle
    exact absurd hle (List.not_mem_nil le)
  · intro i hi lp hlp
    exact absurd hi (Nat.not_lt_zero i)
  · intro l k e h
    exact Option.noConfusion h

theorem c2wfx0 : WFX c2sys0 :=
  ⟨c2sys0_wf, List.nodup_nil, fun _ h => Option.noConfusion h⟩

theorem c2guard1 : guardOp c2sys0 c2op1 := by
  refine ⟨?_, ?_⟩
  · decide
  · intro q hq e he
    exact Option.noConfusion he

/-- C2 counterexample: from the empty catalog, two guard-violating
new_filename calls under the same (label, params) key while the first
minted file was never written on disk leave the second filename in the
by-label map slot but both rows in the files/pairs views, so the invariant
claimed for every reachable state fails at index 0. -/
theorem claim_C2_counterexample :
    execOp c2sys0 c2op1 = .ok c2mid ∧ execOp c2mid c2op2 = .ok c2bad ∧
    WF c2sys0.cat ∧ ¬ viewsAligned c2bad.cat := by
  refine ⟨rfl, rfl, c2sys0_wf, ?_⟩
  intro hal
  rcases hal.2 0 (by decide) ("sample", []) rfl with ⟨e, he, hf⟩
  have he2 : (⟨[], "f2.txt", ""⟩ : Entry) = e := Option.some.inj he
  rw [← he2] at hf
  exact absurd hf (by decide)

/-- C2 (corrected): the three-view synchronization is not preserved by
arbitrary successful operation sequences (see the counterexample), but
every guarded run of the public mutating operations from a well-formed
state preserves the full well-formedness invariant, whose alignment field
is exactly the claimed per-index synchronization of files, pairs and the
by-label map. -/
theorem claim_C2 {s0 s1 : Sys} {ops : List Op}
    (hx : WFX s0) (hrun : RunG s0 ops s1) :
    WF s1.cat ∧ viewsAligned s1.cat := by
  have h1 := RunG_wfx hrun hx
  exact ⟨h1.1, viewsAligned_of_WF h1.1⟩

/-- C2 witness: a concrete guarded one-step run (a fresh new_filename on
the empty catalog) whose final state the corrected claim shows aligned. -/
theorem claim_C2_witness : WF c2mid.cat ∧ viewsAligned c2mid.cat :=
  claim_C2 c2wfx0 (RunG.cons c2guard1 rfl (RunG.nil c2mid))
